import Mathlib

/-!
Verification development for the reconciliation engine of
`gcalendar-filter-sync` (`scripts/worker.js`).

The engine is embedded shallowly:

* JSON wire values are the inductive `Json`; the deterministic
  canonicalizer `sortDeep` of `stableStringify` is translated verbatim
  (our values are trees, so the cycle guard of the source, which only
  protects against cyclic inputs that Google event payloads never
  contain, has no counterpart here).
* The platform pair `JSON.stringify` + `crypto.sha1` that the source
  composes on top of `sortDeep` is modelled as one abstract digest
  function `digest : Json → α`; the spec directs us to treat the digest
  as an opaque content identity, and injectivity of that composition is
  taken as a hypothesis where a theorem needs it.
* The Google `calendar` client object that every worker function
  receives as a parameter is modelled as a record `Cal` of effectful
  operations over the calendar state; `honestCal` implements the
  documented provider semantics (single terminal page per listing, so
  the `do … while (pageToken)` loops of the source run their body once).
* The sqlite tables `event_mappings`, `subscription_state` and
  `subscriptions` are association lists in `Db`; every SQL statement of
  the source is a named operation on `Db`.
* `pino` log calls are appended to an explicit log list, one constructor
  per call site.
* Unicode primitives used by `normalize` (`toLowerCase`, NFD
  decomposition, the `\p{Diacritic}` class, the `\s` class) are a table
  `UTbl` of character functions; the `RegExp` engine behind the `regex`
  filter type is an abstract boolean test.
-/

namespace GFS

/-! ### JSON values and the canonicalizer (`stableStringify`'s `sortDeep`) -/

/-- JSON-like wire values (Google event payload fragments). -/
inductive Json where
  | null : Json
  | bool (b : Bool) : Json
  | num (n : Int) : Json
  | str (s : String) : Json
  | arr (xs : List Json) : Json
  | obj (kvs : List (String × Json)) : Json

/-- Key order used by `Object.keys(v).sort()`. -/
def keyLE (p q : String × Json) : Prop := p.1 ≤ q.1

instance : DecidableRel keyLE := fun p q => inferInstanceAs (Decidable (p.1 ≤ q.1))

instance : IsTotal (String × Json) keyLE :=
  ⟨fun p q => le_total p.1 q.1⟩

instance : IsTrans (String × Json) keyLE :=
  ⟨fun _ _ _ h h' => le_trans h h'⟩

/-- `sortDeep` of `stableStringify`: recursively sort object keys;
map over arrays; leave primitives alone.  (`Object.keys(v).sort()`
followed by rebuilding the object is, for the duplicate-free key lists
JavaScript objects have, the same as sorting the entry list by key.) -/
def sortDeep : Json → Json
  | .null => .null
  | .bool b => .bool b
  | .num n => .num n
  | .str s => .str s
  | .arr xs => .arr (xs.attach.map fun x => sortDeep x.1)
  | .obj kvs => .obj (List.insertionSort keyLE
      (kvs.attach.map fun p => (p.1.1, sortDeep p.1.2)))
decreasing_by
  · have := List.sizeOf_lt_of_mem x.2
    simp only [Json.arr.sizeOf_spec]
    omega
  · have h1 := List.sizeOf_lt_of_mem p.2
    have h2 : sizeOf p.1.2 < sizeOf p.1 := by
      cases p.1 with
      | mk a b => simp only [Prod.mk.sizeOf_spec]; omega
    simp only [Json.obj.sizeOf_spec]
    omega

/-- The strict key order (used only in proofs about `sortDeep`). -/
def keyLT (p q : String × Json) : Prop := p.1 < q.1

instance : IsAntisymm (String × Json) keyLT :=
  ⟨fun _ _ h h' => absurd h' (lt_asymm h)⟩

/-- Key list of a JSON object entry list. -/
def jkeys (l : List (String × Json)) : List String := l.map Prod.fst

/-- Well-formedness of a JSON value as produced by a JavaScript object:
every object node has duplicate-free keys. -/
def JWF : Json → Prop
  | .null => True
  | .bool _ => True
  | .num _ => True
  | .str _ => True
  | .arr xs => ∀ x ∈ xs, JWF x
  | .obj l => (jkeys l).Nodup ∧ ∀ p ∈ l, JWF p.2
termination_by a => sizeOf a
decreasing_by
  · have := List.sizeOf_lt_of_mem (by assumption : x ∈ xs)
    simp only [Json.arr.sizeOf_spec]
    omega
  · have h1 := List.sizeOf_lt_of_mem (show p ∈ _ by assumption)
    have h2 : sizeOf p.2 < sizeOf p := by
      cases p with
      | mk a b => simp only [Prod.mk.sizeOf_spec]; omega
    simp only [Json.obj.sizeOf_spec]
    omega

/-- Equality of JSON values as logical values: equal atoms, pointwise
equivalent arrays, and objects with the same keys (in any order) whose
values agree key by key.  This is the sense in which two payloads
"have identical mirrored fields in different key order". -/
def JEquiv : Json → Json → Prop
  | .null, .null => True
  | .bool a, .bool b => a = b
  | .num a, .num b => a = b
  | .str a, .str b => a = b
  | .arr xs, .arr ys =>
      xs.length = ys.length ∧
      ∀ (i : Nat) (h1 : i < xs.length) (h2 : i < ys.length),
        JEquiv (xs.get ⟨i, h1⟩) (ys.get ⟨i, h2⟩)
  | .obj l1, .obj l2 =>
      (jkeys l1).Perm (jkeys l2) ∧
      ∀ p ∈ l1, ∀ q ∈ l2, p.1 = q.1 → JEquiv p.2 q.2
  | _, _ => False
termination_by a b => sizeOf a
decreasing_by
  · have := List.sizeOf_get xs ⟨i, h1⟩
    simp only [Json.arr.sizeOf_spec]
    omega
  · have hm := List.sizeOf_lt_of_mem (by assumption : p ∈ l1)
    have h2 : sizeOf p.2 < sizeOf p := by
      cases p with
      | mk a b => simp only [Prod.mk.sizeOf_spec]; omega
    simp only [Json.obj.sizeOf_spec]
    omega

/-! ### JavaScript value helpers -/

/-- Truthiness of an optional string (`undefined`/`null` and `""` are falsy). -/
def jsTruthyStr : Option String → Bool
  | some s => s ≠ ""
  | none => false

/-- `a || d` for an optional string with a string default. -/
def jsOrStr (o : Option String) (d : String) : String :=
  match o with
  | some s => if s = "" then d else s
  | none => d

/-- Truthiness of an optional JSON value. -/
def jsTruthy : Option Json → Bool
  | none => false
  | some .null => false
  | some (.bool b) => b
  | some (.num n) => n ≠ 0
  | some (.str s) => s ≠ ""
  | some (.arr _) => true
  | some (.obj _) => true

/-- `v?.k` field access on a JSON value. -/
def getField (v : Json) (k : String) : Option Json :=
  match v with
  | .obj kvs => (kvs.find? fun p => p.1 == k).map Prod.snd
  | _ => none

/-! ### Source events -/

/-- A source calendar event, with the fields the worker reads.
`timeKey` abstracts the event's position on the time axis, used by the
provider to evaluate the `timeMin`/`timeMax` window bounds. -/
structure SEvent where
  id : String
  etag : String
  status : String
  summary : Option String
  description : Option String
  location : Option String
  start : Json
  «end» : Json
  reminders : Option Json
  transparency : Option String
  /-- `ev.recurrence` is an array (of RRULE strings) or absent. -/
  recurrence : Option (List String)
  recurringEventId : Option String
  timeKey : Int

/-- `Array.isArray(ev.recurrence) && !ev.recurringEventId`. -/
def isRecurringMaster (ev : SEvent) : Bool :=
  ev.recurrence.isSome && !(jsTruthyStr ev.recurringEventId)

/-- `!Array.isArray(ev.recurrence) || !!ev.recurringEventId`. -/
def isInstanceOrSingle (ev : SEvent) : Bool :=
  !ev.recurrence.isSome || jsTruthyStr ev.recurringEventId

/-! ### Mirrored payload and fingerprint -/

/-- The object `buildPayloadFromSource` returns (exactly the mirrored
fields).  `reminders` is `Option` because the source leaves the key
`undefined` when the event has no reminders, and an `undefined`-valued
key is dropped both by `JSON.stringify` and by the HTTP serializer. -/
structure Payload where
  summary : Json
  description : Json
  location : Json
  start : Json
  «end» : Json
  reminders : Option Json
  transparency : Json

/-- `s ?? null` for the string-valued mirrored fields. -/
def optStrJson : Option String → Json
  | some s => .str s
  | none => .null

/-- Build exactly what the worker mirrors to the target calendar. -/
def buildPayloadFromSource (ev : SEvent) : Payload where
  summary := optStrJson ev.summary
  description := optStrJson ev.description
  location := optStrJson ev.location
  start := ev.start
  «end» := ev.«end»
  reminders :=
    match ev.reminders with
    | some r => if jsTruthy (getField r "useDefault")
        then some (.obj [("useDefault", .bool true)])
        else some r
    | none => none
  transparency := .str (jsOrStr ev.transparency "opaque")

/-- The payload as the JSON object literal of `buildPayloadFromSource`,
keys in source order, the `reminders` key omitted when `undefined`. -/
def payloadToJson (p : Payload) : Json :=
  .obj ([("summary", p.summary), ("description", p.description),
    ("location", p.location), ("start", p.start), ("end", p.«end»)] ++
    (match p.reminders with
     | some r => [("reminders", r)]
     | none => []) ++
    [("transparency", p.transparency)])

/-- `fingerprintOfPayload` with the platform hash-and-serialize pair
(`sha1 ∘ JSON.stringify`) abstracted as `digest`; the worker's function
is `digest (sortDeep (payloadToJson p))` since `stableStringify`
serializes the `sortDeep` image. -/
def fingerprintWith {α : Type} (digest : Json → α) (p : Payload) : α :=
  digest (sortDeep (payloadToJson p))

/-- The engine-level fingerprint (digest codomain fixed to strings, as
hex digests are strings). -/
def fingerprintOfPayload (digest : Json → String) (p : Payload) : String :=
  fingerprintWith digest p

/-- Two payloads have identical mirrored fields as logical values:
each of the seven mirrored fields agrees up to object key order
(`JEquiv`), with the optional `reminders` present on both sides or on
neither. -/
def PayloadEquiv (p1 p2 : Payload) : Prop :=
  JEquiv p1.summary p2.summary ∧
  JEquiv p1.description p2.description ∧
  JEquiv p1.location p2.location ∧
  JEquiv p1.start p2.start ∧
  JEquiv p1.«end» p2.«end» ∧
  (match p1.reminders, p2.reminders with
   | some r1, some r2 => JEquiv r1 r2
   | none, none => True
   | _, _ => False) ∧
  JEquiv p1.transparency p2.transparency

/-! ### Matcher (`normalize`, `makeMatcher`) -/

/-- Platform Unicode tables used by `normalize`: `toLowerCase` as a
character map, NFD decomposition, the `\p{Diacritic}` class and the
`\s` class. -/
structure UTbl where
  lower : Char → Char
  nfd : Char → List Char
  isDiacritic : Char → Bool
  isSpace : Char → Bool

/-- Helper of `collapseWs`: the flag records whether the previous
character belonged to a whitespace run already replaced by `' '`. -/
def collapseWsAux (isSp : Char → Bool) : Bool → List Char → List Char
  | _, [] => []
  | prevSp, c :: rest =>
    if isSp c then
      if prevSp then collapseWsAux isSp true rest
      else ' ' :: collapseWsAux isSp true rest
    else c :: collapseWsAux isSp false rest

/-- `replace(/\s+/g, " ")`: replace every maximal whitespace run by a
single space. -/
def collapseWs (isSp : Char → Bool) (l : List Char) : List Char :=
  collapseWsAux isSp false l

/-- `trim()`: drop leading and trailing whitespace. -/
def trimWs (isSp : Char → Bool) (l : List Char) : List Char :=
  ((l.dropWhile isSp).reverse.dropWhile isSp).reverse

/-- `normalize`: lowercase, NFD, strip diacritics, collapse whitespace,
trim. -/
def normalize (u : UTbl) (s : String) : String :=
  String.mk (trimWs u.isSpace (collapseWs u.isSpace
    (((s.data.map u.lower).flatMap u.nfd).filter fun c => !u.isDiacritic c)))

/-- Helper of `splitComma`: `acc` holds the current segment reversed. -/
def splitCommaAux : List Char → List Char → List String
  | [], acc => [String.mk acc.reverse]
  | c :: rest, acc =>
    if c = ',' then String.mk acc.reverse :: splitCommaAux rest []
    else splitCommaAux rest (c :: acc)

/-- `s.split(",")`. -/
def splitComma (s : String) : List String :=
  splitCommaAux s.data []

/-- `String.prototype.includes`: `needle` occurs as a contiguous
substring of `hay`. -/
def strIncludes (hay needle : String) : Bool :=
  (List.range (hay.data.length + 1)).any fun i =>
    needle.data.isPrefixOf (hay.data.drop i)

/-- The three searchable attributes of an event, shared between source
events (pass 1–3 matching) and mirrored target payloads (dedup
matching). -/
structure EvView where
  summary : Option String
  description : Option String
  location : Option String

def viewOfS (ev : SEvent) : EvView where
  summary := ev.summary
  description := ev.description
  location := ev.location

/-- A mirrored payload seen as an event resource (for the dedup pass's
`match(ev)` on target events). -/
def viewOfPayload (p : Payload) : EvView where
  summary := match p.summary with | .str s => some s | _ => none
  description := match p.description with | .str s => some s | _ => none
  location := match p.location with | .str s => some s | _ => none

/-- `` `${ev.summary || ""} ${ev.description || ""} ${ev.location || ""}` `` -/
def searchBlob (v : EvView) : String :=
  v.summary.getD "" ++ " " ++ v.description.getD "" ++ " " ++ v.location.getD ""

/-- The normalized keyword list of a `keywords` rule:
`filters_raw.split(",").map(normalize).filter(Boolean)`. -/
def keywordList (u : UTbl) (filters_raw : String) : List String :=
  ((splitComma filters_raw).map (normalize u)).filter fun s => s ≠ ""

/-- `makeMatcher`.  `regexTest pat s` abstracts
`new RegExp(pat, "i").test(s)`. -/
def makeMatcher (u : UTbl) (regexTest : String → String → Bool)
    (filter_type filters_raw : String) : EvView → Bool :=
  if filter_type = "regex" then
    fun v => regexTest filters_raw (v.summary.getD "") ||
      regexTest filters_raw (v.description.getD "") ||
      regexTest filters_raw (v.location.getD "")
  else
    let keys := keywordList u filters_raw
    fun v =>
      let blob := normalize u (searchBlob v)
      keys.any fun k => strIncludes blob k

/-! ### Errors and persistence (`sync.db` tables, SQL statements) -/

/-- A provider error as the worker observes it (`e?.code`). -/
structure Err where
  code : Nat
  msg : String
deriving DecidableEq

/-- A row of `event_mappings`. -/
structure MapRow where
  subscription_id : Nat
  source_id : String
  target_id : Nat
  etag : String
  fingerprint : String
deriving DecidableEq

/-- A row of `subscription_state`. -/
structure StateRow where
  subscription_id : Nat
  sync_token : Option String
  last_run_at : Option Int
  last_status : Option String
deriving DecidableEq

/-- A row of `subscriptions` (the columns the worker reads). -/
structure Subscription where
  id : Nat
  is_enabled : Nat
  source_calendar_id : String
  target_calendar_id : String
  filter_type : String
  filters_raw : String
deriving DecidableEq

/-- The sqlite database. -/
structure Db where
  mappings : List MapRow
  states : List StateRow
  subscriptions : List Subscription

/-- `WHERE subscription_id=? AND source_id=?` -/
def mKey (sid : Nat) (srcId : String) (r : MapRow) : Bool :=
  r.subscription_id == sid && r.source_id == srcId

/-- `SELECT * FROM event_mappings WHERE subscription_id=? AND source_id=?` -/
def mappingGet (db : Db) (sid : Nat) (srcId : String) : Option MapRow :=
  db.mappings.find? (mKey sid srcId)

/-- `INSERT INTO event_mappings … ON CONFLICT(subscription_id,source_id)
DO UPDATE SET target_id=…, etag=…, fingerprint=…` -/
def mappingUpsert (db : Db) (sid : Nat) (srcId : String) (tid : Nat)
    (etg fp : String) : Db :=
  if db.mappings.any (mKey sid srcId) then
    { db with mappings := db.mappings.map fun r =>
        if mKey sid srcId r then
          { r with target_id := tid, etag := etg, fingerprint := fp }
        else r }
  else
    { db with mappings := db.mappings ++ [⟨sid, srcId, tid, etg, fp⟩] }

/-- The plain `INSERT INTO event_mappings` of the unmapped branch. -/
def mappingInsert (db : Db) (sid : Nat) (srcId : String) (tid : Nat)
    (etg fp : String) : Db :=
  { db with mappings := db.mappings ++ [⟨sid, srcId, tid, etg, fp⟩] }

/-- `DELETE FROM event_mappings WHERE subscription_id=? AND source_id=?` -/
def mappingDelete (db : Db) (sid : Nat) (srcId : String) : Db :=
  { db with mappings := db.mappings.filter fun r => !(mKey sid srcId r) }

/-- `SELECT … FROM event_mappings WHERE subscription_id=?` -/
def mappingsBySub (db : Db) (sid : Nat) : List MapRow :=
  db.mappings.filter fun r => r.subscription_id == sid

/-- `SELECT * FROM subscription_state WHERE subscription_id=?` -/
def statesGet (db : Db) (sid : Nat) : Option StateRow :=
  db.states.find? fun r => r.subscription_id == sid

/-- The `saveState` closure: insert-or-update with
`patch.sync_token ?? null`, `patch.last_run_at ?? Date.now()`,
`patch.last_status ?? "ok"`, where the update arm coalesces each
excluded value with the stored one. -/
def saveState (db : Db) (sid : Nat) (now : Int) (ptok : Option String)
    (prun : Option Int) (pstat : Option String) : Db :=
  let vrun : Int := prun.getD now
  let vstat : String := pstat.getD "ok"
  if db.states.any (fun r => r.subscription_id == sid) then
    { db with states := db.states.map fun r =>
        if r.subscription_id == sid then
          { r with sync_token := ptok.or r.sync_token,
                   last_run_at := some vrun, last_status := some vstat }
        else r }
  else
    { db with states := db.states ++ [⟨sid, ptok, some vrun, some vstat⟩] }

/-- `UPDATE subscription_state SET sync_token=NULL WHERE subscription_id=?` -/
def nullSyncToken (db : Db) (sid : Nat) : Db :=
  { db with states := db.states.map fun r =>
      if r.subscription_id == sid then { r with sync_token := none } else r }

/-! ### Calendar provider -/

/-- Provider-side state: the source calendar (with its current change
cursor) and the target calendar (with a fresh-id counter). -/
structure CalState where
  source : List SEvent
  curTok : String
  target : List (Nat × Payload)
  nextId : Nat

/-- Parameters of `calendar.events.list` the worker sets. -/
structure SrcListParams where
  calendarId : String
  syncToken : Option String
  singleEvents : Bool
  showDeleted : Bool
  timeMin : Option Int
  timeMax : Option Int

/-- One terminal page: the provider model returns every matching item
at once (`nextPageToken` absent), so each `do … while (pageToken)` of
the source runs its body exactly once. -/
structure SrcListResp where
  items : List SEvent
  nextSyncToken : Option String

/-- A target-calendar event resource as the dedup pass reads it. -/
structure TgtItem where
  id : Nat
  payload : Payload

/-- The `calendar` client object handed to every worker function:
a record of effectful operations.  `listTarget` is the same
`events.list` endpoint applied to the target calendar, split off
because its results have target shape. -/
structure Cal where
  listEvents : SrcListParams → CalState → Except Err (SrcListResp × CalState)
  instancesOf : String → String → Option Int → Option Int → CalState →
    Except Err (List SEvent × CalState)
  getEvent : String → String → CalState → Except Err (SEvent × CalState)
  insertEvent : String → Payload → CalState → Except Err (Nat × CalState)
  updateEvent : String → Nat → Payload → CalState → Except Err (Nat × CalState)
  deleteEvent : String → Nat → CalState → Except Err (Unit × CalState)
  listTarget : String → CalState → Except Err (List TgtItem × CalState)

/-! ### Logs and world state -/

/-- One constructor per `log.*` call site of the worker. -/
inductive LogEntry where
  | updatedE (subId : Nat) (evId : String)
  | createdE (subId : Nat) (evId : String)
  | deletedE (subId : Nat) (evId : String)
  | dedupRemovedE (subId : Nat) (targetId : Nat)
  | tokenExpiredE (subId : Nat)
  | syncFailedE (subId : Nat) (msg : String)
  | deltaSummaryE (subId : Nat) (created updated removed : Nat)
  | syncStartE (subId : Nat) (src dst : String)
  | syncOkE (subId : Nat)
deriving DecidableEq

/-- Whole-world state threaded through the engine. -/
structure W where
  cal : CalState
  db : Db
  logs : List LogEntry

/-- Environment/configuration: `Date.now()`, the backfill window knobs,
`DEDUP_MATCH_FILTERS_ONLY`, and the abstract platform functions. -/
structure Config where
  now : Int
  backfillAheadDays : Int
  backfillBehindDays : Int
  dedupMatchFiltersOnly : Bool
  digest : Json → String
  utbl : UTbl
  regexTest : String → String → Bool

/-- `new Date(Date.now() - daysBehind * 24 * 3600 * 1000)` -/
def windowTimeMin (cfg : Config) : Int :=
  cfg.now - cfg.backfillBehindDays * 24 * 3600 * 1000

/-- `new Date(Date.now() + daysAhead * 24 * 3600 * 1000)` -/
def windowTimeMax (cfg : Config) : Int :=
  cfg.now + cfg.backfillAheadDays * 24 * 3600 * 1000

/-- `{created, updated, removed}` summaries. -/
structure RunCounts where
  created : Nat
  updated : Nat
  removed : Nat
deriving DecidableEq

/-! ### CRUD in target (`upsertTarget`, `removeTarget`) -/

/-- `upsertTarget(calendar, subId, targetCalId, ev, forceUpdate)`. -/
def upsertTarget (cal : Cal) (digest : Json → String) (subId : Nat)
    (targetCalId : String) (ev : SEvent) (forceUpdate : Bool) (w : W) :
    Except Err RunCounts × W :=
  let existing := mappingGet w.db subId ev.id
  let payload := buildPayloadFromSource ev
  let fp := fingerprintOfPayload digest payload
  match existing with
  | some row =>
    let contentChanged := row.fingerprint != fp
    let etagChanged := row.etag != ev.etag
    if contentChanged || etagChanged || forceUpdate then
      match cal.updateEvent targetCalId row.target_id payload w.cal with
      | .error e => (.error e, w)
      | .ok (updatedId, c') =>
        (.ok ⟨0, 1, 0⟩, { w with
          cal := c'
          db := mappingUpsert w.db subId ev.id updatedId ev.etag fp
          logs := w.logs ++ [.updatedE subId ev.id] })
    else (.ok ⟨0, 0, 0⟩, w)
  | none =>
    match cal.insertEvent targetCalId payload w.cal with
    | .error e => (.error e, w)
    | .ok (createdId, c') =>
      (.ok ⟨1, 0, 0⟩, { w with
        cal := c'
        db := mappingInsert w.db subId ev.id createdId ev.etag fp
        logs := w.logs ++ [.createdE subId ev.id] })

/-- `removeTarget(calendar, subId, targetCalId, sourceId)`: only a 404
from the delete is tolerated; the mapping row is deleted afterwards. -/
def removeTarget (cal : Cal) (subId : Nat) (targetCalId : String)
    (sourceId : String) (w : W) : Except Err Nat × W :=
  match mappingGet w.db subId sourceId with
  | none => (.ok 0, w)
  | some row =>
    match cal.deleteEvent targetCalId row.target_id w.cal with
    | .error e =>
      if e.code ≠ 404 then (.error e, w)
      else (.ok 1, { w with
        db := mappingDelete w.db subId sourceId
        logs := w.logs ++ [.deletedE subId sourceId] })
    | .ok (_, c') =>
      (.ok 1, { w with
        cal := c'
        db := mappingDelete w.db subId sourceId
        logs := w.logs ++ [.deletedE subId sourceId] })

/-! ### Backfill / prune / dedupe passes -/

/-- Body of the backfill item loop. -/
def bfLoop (cal : Cal) (digest : Json → String) (sub : Subscription)
    (mtch : EvView → Bool) :
    List SEvent → Nat × Nat → W → (Except Err (Nat × Nat)) × W
  | [], acc, w => (.ok acc, w)
  | ev :: rest, acc, w =>
    if !isInstanceOrSingle ev then bfLoop cal digest sub mtch rest acc w
    else if mtch (viewOfS ev) then
      match upsertTarget cal digest sub.id sub.target_calendar_id ev false w with
      | (.error e, w) => (.error e, w)
      | (.ok res, w) =>
        bfLoop cal digest sub mtch rest
          (acc.1 + res.created, acc.2 + res.updated) w
    else bfLoop cal digest sub mtch rest acc w

/-- `backfillWindow(calendar, sub, match)`: list the window with
recurrence expansion, upsert every matching instance-or-single. -/
def backfillWindow (cal : Cal) (cfg : Config) (sub : Subscription)
    (mtch : EvView → Bool) (w : W) : (Except Err (Nat × Nat)) × W :=
  match cal.listEvents
    { calendarId := sub.source_calendar_id
      syncToken := none
      singleEvents := true
      showDeleted := false
      timeMin := some (windowTimeMin cfg)
      timeMax := some (windowTimeMax cfg) } w.cal with
  | .error e => (.error e, w)
  | .ok (resp, c') =>
    bfLoop cal cfg.digest sub mtch resp.items (0, 0) { w with cal := c' }

/-- Body of the prune loop over the mapped-rows snapshot. -/
def pruneLoop (cal : Cal) (sub : Subscription) (mtch : EvView → Bool) :
    List MapRow → Nat → W → (Except Err Nat) × W
  | [], removed, w => (.ok removed, w)
  | row :: rest, removed, w =>
    match cal.getEvent sub.source_calendar_id row.source_id w.cal with
    | .ok (ev, c') =>
      let w := { w with cal := c' }
      if ev.status == "cancelled" || isRecurringMaster ev
          || !mtch (viewOfS ev) then
        match removeTarget cal sub.id sub.target_calendar_id row.source_id w with
        | (.error e, w) => (.error e, w)
        | (.ok r, w) => pruneLoop cal sub mtch rest (removed + r) w
      else pruneLoop cal sub mtch rest removed w
    | .error e =>
      if e.code = 404 then
        match removeTarget cal sub.id sub.target_calendar_id row.source_id w with
        | (.error e2, w) => (.error e2, w)
        | (.ok r, w) => pruneLoop cal sub mtch rest (removed + r) w
      else (.error e, w)

/-- `pruneStaleMappings(calendar, sub, match)`. -/
def pruneStaleMappings (cal : Cal) (sub : Subscription)
    (mtch : EvView → Bool) (w : W) : (Except Err Nat) × W :=
  let mapped := mappingsBySub w.db sub.id
  pruneLoop cal sub mtch mapped 0 w

/-- Body of the dedup loop over the listed target events. -/
def dedupeLoop (cal : Cal) (cfg : Config) (sub : Subscription)
    (mtch : EvView → Bool) (valid : List Nat) :
    List TgtItem → Nat → W → (Except Err Nat) × W
  | [], removed, w => (.ok removed, w)
  | it :: rest, removed, w =>
    let isMapped := valid.contains it.id
    if !isMapped && (!cfg.dedupMatchFiltersOnly || mtch (viewOfPayload it.payload)) then
      match cal.deleteEvent sub.target_calendar_id it.id w.cal with
      | .ok (_, c') =>
        dedupeLoop cal cfg sub mtch valid rest (removed + 1)
          { w with
            cal := c'
            logs := w.logs ++ [.dedupRemovedE sub.id it.id] }
      | .error e =>
        if e.code ≠ 404 then (.error e, w)
        else dedupeLoop cal cfg sub mtch valid rest removed w
    else dedupeLoop cal cfg sub mtch valid rest removed w

/-- `dedupeTarget(calendar, sub, match)`: delete every unmapped target
event (restricted to filter-matching ones when
`DEDUP_MATCH_FILTERS_ONLY` is set). -/
def dedupeTarget (cal : Cal) (cfg : Config) (sub : Subscription)
    (mtch : EvView → Bool) (w : W) : (Except Err Nat) × W :=
  let valid := (mappingsBySub w.db sub.id).map (fun r => r.target_id)
  match cal.listTarget sub.target_calendar_id w.cal with
  | .error e => (.error e, w)
  | .ok (items, c') =>
    dedupeLoop cal cfg sub mtch valid items 0 { w with cal := c' }

/-! ### Master-change refresh -/

/-- Body of the instance loop of `refreshSeriesForMasterChange`. -/
def refreshLoop (cal : Cal) (cfg : Config) (sub : Subscription)
    (mtch : EvView → Bool) :
    List SEvent → RunCounts → W → (Except Err RunCounts) × W
  | [], acc, w => (.ok acc, w)
  | inst :: rest, acc, w =>
    if !isInstanceOrSingle inst then refreshLoop cal cfg sub mtch rest acc w
    else if mtch (viewOfS inst) then
      match upsertTarget cal cfg.digest sub.id sub.target_calendar_id inst true w with
      | (.error e, w) => (.error e, w)
      | (.ok res, w) =>
        refreshLoop cal cfg sub mtch rest
          ⟨acc.created + res.created, acc.updated + res.updated, acc.removed⟩ w
    else
      match removeTarget cal sub.id sub.target_calendar_id inst.id w with
      | (.error e, w) => (.error e, w)
      | (.ok r, w) =>
        refreshLoop cal cfg sub mtch rest
          ⟨acc.created, acc.updated, acc.removed + r⟩ w

/-- `refreshSeriesForMasterChange(calendar, sub, masterEv, match)`:
re-derive the master's instances within the window; matching instances
are force-upserted, the rest removed. -/
def refreshSeriesForMasterChange (cal : Cal) (cfg : Config)
    (sub : Subscription) (masterEv : SEvent) (mtch : EvView → Bool)
    (w : W) : (Except Err RunCounts) × W :=
  match cal.instancesOf sub.source_calendar_id masterEv.id
      (some (windowTimeMin cfg)) (some (windowTimeMax cfg)) w.cal with
  | .error e => (.error e, w)
  | .ok (insts, c') =>
    refreshLoop cal cfg sub mtch insts ⟨0, 0, 0⟩ { w with cal := c' }

/-! ### Subscription runner -/

/-- `listChanges(calendar, calId, params)`. -/
def listChanges (cal : Cal) (calId : String) (tok : Option String)
    (c : CalState) : Except Err (SrcListResp × CalState) :=
  cal.listEvents { calendarId := calId
                   syncToken := tok
                   singleEvents := false
                   showDeleted := true
                   timeMin := none
                   timeMax := none } c

/-- Body of the delta item loop:  cancelled ⇒ remove; recurring master
⇒ refresh series then remove the master's own mapping; matching
instance-or-single ⇒ upsert; anything else ⇒ remove. -/
def deltaItemsLoop (cal : Cal) (cfg : Config) (sub : Subscription)
    (mtch : EvView → Bool) :
    List SEvent → RunCounts → W → (Except Err RunCounts) × W
  | [], acc, w => (.ok acc, w)
  | ev :: rest, acc, w =>
    if ev.status == "cancelled" then
      match removeTarget cal sub.id sub.target_calendar_id ev.id w with
      | (.error e, w) => (.error e, w)
      | (.ok r, w) =>
        deltaItemsLoop cal cfg sub mtch rest
          ⟨acc.created, acc.updated, acc.removed + r⟩ w
    else if isRecurringMaster ev then
      match refreshSeriesForMasterChange cal cfg sub ev mtch w with
      | (.error e, w) => (.error e, w)
      | (.ok ref, w) =>
        match removeTarget cal sub.id sub.target_calendar_id ev.id w with
        | (.error e, w) => (.error e, w)
        | (.ok r, w) =>
          deltaItemsLoop cal cfg sub mtch rest
            ⟨acc.created + ref.created, acc.updated + ref.updated,
              acc.removed + ref.removed + r⟩ w
    else if isInstanceOrSingle ev && mtch (viewOfS ev) then
      match upsertTarget cal cfg.digest sub.id sub.target_calendar_id ev false w with
      | (.error e, w) => (.error e, w)
      | (.ok res, w) =>
        deltaItemsLoop cal cfg sub mtch rest
          ⟨acc.created + res.created, acc.updated + res.updated, acc.removed⟩ w
    else
      match removeTarget cal sub.id sub.target_calendar_id ev.id w with
      | (.error e, w) => (.error e, w)
      | (.ok r, w) =>
        deltaItemsLoop cal cfg sub mtch rest
          ⟨acc.created, acc.updated, acc.removed + r⟩ w

/-- The incremental pass: read the change feed with the stored cursor,
process the items, and persist the terminal `nextSyncToken` through
`saveState` when the feed reports one. -/
def deltaPass (cal : Cal) (cfg : Config) (sub : Subscription)
    (mtch : EvView → Bool) (tok : Option String) (w : W) :
    (Except Err RunCounts) × W :=
  match listChanges cal sub.source_calendar_id tok w.cal with
  | .error e => (.error e, w)
  | .ok (resp, c') =>
    match deltaItemsLoop cal cfg sub mtch resp.items ⟨0, 0, 0⟩
        { w with cal := c' } with
    | (.error e, w) => (.error e, w)
    | (.ok acc, w) =>
      match resp.nextSyncToken with
      | some t =>
        (.ok acc,
          { w with db := saveState w.db sub.id cfg.now (some t) none (some "ok") })
      | none => (.ok acc, w)

/-- The body of `runSubscription`'s `try` block: the four ordered
passes, aggregating counts the way the source does. -/
def runSubBody (cal : Cal) (cfg : Config) (sub : Subscription)
    (mtch : EvView → Bool) (tok : Option String) (w : W) :
    (Except Err RunCounts) × W :=
  match deltaPass cal cfg sub mtch tok w with
  | (.error e, w) => (.error e, w)
  | (.ok dc, w) =>
    match backfillWindow cal cfg sub mtch w with
    | (.error e, w) => (.error e, w)
    | (.ok bf, w) =>
      match pruneStaleMappings cal sub mtch w with
      | (.error e, w) => (.error e, w)
      | (.ok pr, w) =>
        match dedupeTarget cal cfg sub mtch w with
        | (.error e, w) => (.error e, w)
        | (.ok dr, w) =>
          (.ok ⟨dc.created + bf.1, dc.updated + bf.2,
            dc.removed + pr + dr⟩, w)

/-- `state?.sync_token ? {syncToken: state.sync_token} : {}`: the cursor
is passed only when truthy. -/
def subSyncTokenArg (st : Option StateRow) : Option String :=
  match st with
  | some r =>
    match r.sync_token with
    | some t => if t = "" then none else some t
    | none => none
  | none => none

/-- `runSubscription(sub)`: run the four passes; a 410 resets the
cursor and returns normally; any other error records
`last_status="error"` and re-raises; success records
`last_status="ok"`.  (Credential acquisition, which in the source
happens before the `try` block, is abstracted into the `cal`
parameter.) -/
def runSubscription (cal : Cal) (cfg : Config) (sub : Subscription)
    (w : W) : (Except Err Unit) × W :=
  let mtch := makeMatcher cfg.utbl cfg.regexTest sub.filter_type sub.filters_raw
  let tok := subSyncTokenArg (statesGet w.db sub.id)
  match runSubBody cal cfg sub mtch tok w with
  | (.ok c, w) =>
    let w := { w with logs := w.logs ++
      [LogEntry.deltaSummaryE sub.id c.created c.updated c.removed] }
    (.ok (), { w with db := saveState w.db sub.id cfg.now none none (some "ok") })
  | (.error e, w) =>
    if e.code = 410 then
      (.ok (), { w with
        db := nullSyncToken w.db sub.id
        logs := w.logs ++ [.tokenExpiredE sub.id] })
    else
      (.error e, { w with
        db := saveState w.db sub.id cfg.now none none (some "error")
        logs := w.logs ++ [.syncFailedE sub.id e.msg] })

/-- Body of the batch loop: run each subscription, swallow its failure
(`catch {}` — the error was already logged inside the run). -/
def runAllLoop (cal : Cal) (cfg : Config) :
    List Subscription → W → W
  | [], w => w
  | sub :: rest, w =>
    let w := { w with logs := w.logs ++
      [LogEntry.syncStartE sub.id sub.source_calendar_id sub.target_calendar_id] }
    match runSubscription cal cfg sub w with
    | (.ok _, w) =>
      runAllLoop cal cfg rest { w with logs := w.logs ++ [.syncOkE sub.id] }
    | (.error _, w) => runAllLoop cal cfg rest w

/-- `runAll()`: iterate the enabled subscriptions.  The source function
returns nothing (its `Promise` resolves with `undefined`). -/
def runAll (cal : Cal) (cfg : Config) (w : W) : (Except Err Unit) × W :=
  let subs := w.db.subscriptions.filter fun s => s.is_enabled == 1
  (.ok (), runAllLoop cal cfg subs w)

/-! ### The honest provider -/

/-- `timeMin ≤ event time ≤ timeMax` with absent bounds vacuous. -/
def inWinB (timeMin timeMax : Option Int) (ev : SEvent) : Bool :=
  (timeMin.all fun t => decide (t ≤ ev.timeKey)) &&
  (timeMax.all fun t => decide (ev.timeKey ≤ t))

/-- The documented Calendar-Provider semantics: a current sync token
yields an empty delta, a stale one a 410; listings without a token
return the whole (filtered) source; point reads find by id; target
writes allocate fresh ids / require the id to exist; absent ids give
404. -/
def honestCal (srcCalId tgtCalId : String) : Cal where
  listEvents ps c :=
    if ps.calendarId = srcCalId then
      match ps.syncToken with
      | some t =>
        if t = c.curTok then
          .ok ({ items := [], nextSyncToken := some c.curTok }, c)
        else .error ⟨410, "sync token expired"⟩
      | none =>
        let items := if ps.singleEvents then
            c.source.filter fun e =>
              isInstanceOrSingle e && inWinB ps.timeMin ps.timeMax e
          else c.source
        let items := if ps.showDeleted then items
          else items.filter fun e => e.status != "cancelled"
        .ok ({ items := items, nextSyncToken := some c.curTok }, c)
    else .error ⟨404, "calendar not found"⟩
  instancesOf calId masterId timeMin timeMax c :=
    if calId = srcCalId then
      .ok (c.source.filter fun e =>
        e.recurringEventId == some masterId && inWinB timeMin timeMax e &&
          e.status != "cancelled", c)
    else .error ⟨404, "calendar not found"⟩
  getEvent calId evId c :=
    if calId = srcCalId then
      match c.source.find? fun e => e.id == evId with
      | some e => .ok (e, c)
      | none => .error ⟨404, "event not found"⟩
    else .error ⟨404, "calendar not found"⟩
  insertEvent calId p c :=
    if calId = tgtCalId then
      .ok (c.nextId, { c with
        target := c.target ++ [(c.nextId, p)]
        nextId := c.nextId + 1 })
    else .error ⟨404, "calendar not found"⟩
  updateEvent calId tid p c :=
    if calId = tgtCalId then
      if c.target.any fun q => q.1 == tid then
        .ok (tid, { c with target := c.target.map fun q =>
          if q.1 == tid then (q.1, p) else q })
      else .error ⟨404, "event not found"⟩
    else .error ⟨404, "calendar not found"⟩
  deleteEvent calId tid c :=
    if calId = tgtCalId then
      if c.target.any fun q => q.1 == tid then
        .ok ((), { c with target := c.target.filter fun q => !(q.1 == tid) })
      else .error ⟨404, "event not found"⟩
    else .error ⟨404, "calendar not found"⟩
  listTarget calId c :=
    if calId = tgtCalId then
      .ok (c.target.map fun q => ⟨q.1, q.2⟩, c)
    else .error ⟨404, "calendar not found"⟩

/-! ### Run invariants (used by the convergence and idempotence
theorems) -/

/-- The target-calendar event ids. -/
def tgtIds (c : CalState) : List Nat := c.target.map Prod.fst

/-- The composite key of a mapping row. -/
def mapKey (r : MapRow) : Nat × String := (r.subscription_id, r.source_id)

/-- Well-formedness of the provider/persistence state for one
subscription's run: duplicate-free mapping keys and target ids, fresh
id counter above every existing target id, each of the subscription's
mapping rows pointing at an existing target event, and no two of its
rows sharing a target event. -/
structure Inv (sub : Subscription) (w : W) : Prop where
  mapNodup : (w.db.mappings.map mapKey).Nodup
  tgtNodup : (tgtIds w.cal).Nodup
  fresh : ∀ p ∈ w.cal.target, p.1 < w.cal.nextId
  linked : ∀ r ∈ w.db.mappings, r.subscription_id = sub.id →
    r.target_id ∈ tgtIds w.cal
  tgtDistinct : ∀ r1 ∈ w.db.mappings, ∀ r2 ∈ w.db.mappings,
    r1.subscription_id = sub.id → r2.subscription_id = sub.id →
    r1 ≠ r2 → r1.target_id ≠ r2.target_id

/-- Source events have duplicate-free ids. -/
def SrcWF (c : CalState) : Prop := (c.source.map SEvent.id).Nodup

/-- The source events the rule keeps mirrored: non-cancelled
instance-or-single events matching the rule. -/
def GoodEv (mtch : EvView → Bool) (ev : SEvent) : Prop :=
  ev.status ≠ "cancelled" ∧ isInstanceOrSingle ev = true ∧
    mtch (viewOfS ev) = true

/-- The subscription has a mapping row for `ev` whose stored etag and
fingerprint are current. -/
def GoodRow (digest : Json → String) (db : Db) (sid : Nat) (ev : SEvent) :
    Prop :=
  ∃ r, mappingGet db sid ev.id = some r ∧ r.etag = ev.etag ∧
    r.fingerprint = fingerprintOfPayload digest (buildPayloadFromSource ev)

/-- Facts every engine operation of a run preserves about the parts of
the world it never writes. -/
def Evolves (w w' : W) : Prop :=
  w'.cal.source = w.cal.source ∧ w'.cal.curTok = w.cal.curTok ∧
  w'.db.subscriptions = w.db.subscriptions

/-- Every target event is either mapped by the subscription or
protected by the `DEDUP_MATCH_FILTERS_ONLY` mode. -/
def TgtCovered (flag : Bool) (mtch : EvView → Bool) (w : W) (sid : Nat) :
    Prop :=
  ∀ p ∈ w.cal.target,
    (∃ r ∈ w.db.mappings, r.subscription_id = sid ∧ r.target_id = p.1) ∨
    (flag = true ∧ mtch (viewOfPayload p.2) = false)

/-- Point read of the source calendar by event id (the honest
provider's `getEvent`). -/
def findById (c : CalState) (evId : String) : Option SEvent :=
  c.source.find? fun e => e.id == evId

/-- The honest provider for a subscription's two calendars. -/
def subCal (sub : Subscription) : Cal :=
  honestCal sub.source_calendar_id sub.target_calendar_id

/-- The prune pass's removal condition for a mapped source id: gone,
cancelled, recurring master, or no longer matching. -/
def BadSrcB (c : CalState) (mtch : EvView → Bool) (srcId : String) : Bool :=
  match findById c srcId with
  | none => true
  | some ev =>
    ev.status == "cancelled" || isRecurringMaster ev || !mtch (viewOfS ev)

/-! ### Concrete instances used to exercise the engine -/

/-- ASCII-only Unicode tables (identity lowercase, trivial NFD, no
diacritics, space = `' '`). -/
def utblW : UTbl where
  lower := fun c => c
  nfd := fun c => [c]
  isDiacritic := fun _ => false
  isSpace := fun c => c == ' '

/-- A concrete configuration with a constant digest. -/
def cfgW : Config where
  now := 0
  backfillAheadDays := 180
  backfillBehindDays := 7
  dedupMatchFiltersOnly := false
  digest := fun _ => "d"
  utbl := utblW
  regexTest := fun _ _ => false

/-- `cfgW` with `DEDUP_MATCH_FILTERS_ONLY=1`. -/
def cfgW2 : Config := { cfgW with dedupMatchFiltersOnly := true }

/-- A plain confirmed single event titled "alpha". -/
def evA : SEvent where
  id := "sA"
  etag := "eA"
  status := "confirmed"
  summary := some "alpha"
  description := none
  location := none
  start := Json.null
  «end» := Json.null
  reminders := none
  transparency := none
  recurrence := none
  recurringEventId := none
  timeKey := 0

/-- A plain confirmed single event titled "beta". -/
def evB : SEvent := { evA with id := "sB", etag := "eB", summary := some "beta" }

/-- A cancelled source event. -/
def evCancelledW : SEvent := { evA with id := "s1", etag := "e1", status := "cancelled" }

/-- `evA` with a two-key `start` object. -/
def evP1 : SEvent :=
  { evA with start := .obj [("dateTime", .str "t"), ("timeZone", .str "z")] }

/-- `evA` with the same `start` in the opposite key order and another
etag. -/
def evP2 : SEvent :=
  { evA with
    start := .obj [("timeZone", .str "z"), ("dateTime", .str "t")]
    etag := "other" }

/-- A subscription used by the 410-on-delete scenario. -/
def subW : Subscription where
  id := 1
  is_enabled := 1
  source_calendar_id := "src"
  target_calendar_id := "tgt"
  filter_type := "keywords"
  filters_raw := "alpha"

/-- A mapping row linking `evCancelledW` to target event 5. -/
def rowW : MapRow := ⟨1, "s1", 5, "e0", "f0"⟩

/-- Calendar state for the 410-on-delete scenario. -/
def calStW : CalState where
  source := [evCancelledW]
  curTok := "T"
  target := [(5, buildPayloadFromSource evCancelledW)]
  nextId := 6

/-- Database for the 410-on-delete scenario: the mapped cancelled
event plus a perfectly valid stored sync token. -/
def dbW : Db := ⟨[rowW], [⟨1, some "T", none, some "ok"⟩], [subW]⟩

/-- World for the 410-on-delete scenario. -/
def wW : W := ⟨calStW, dbW, []⟩

/-- The honest provider except that every target delete fails with the
distinguished 410 code (the sync token itself being perfectly valid). -/
def cal410W : Cal := { honestCal "src" "tgt" with
  deleteEvent := fun _ _ _ => .error ⟨410, "gone"⟩ }

/-- A provider that fails every operation with a 410. -/
def calAll410 : Cal where
  listEvents := fun _ _ => .error ⟨410, "gone"⟩
  instancesOf := fun _ _ _ _ _ => .error ⟨410, "gone"⟩
  getEvent := fun _ _ _ => .error ⟨410, "gone"⟩
  insertEvent := fun _ _ _ => .error ⟨410, "gone"⟩
  updateEvent := fun _ _ _ _ => .error ⟨410, "gone"⟩
  deleteEvent := fun _ _ _ => .error ⟨410, "gone"⟩
  listTarget := fun _ _ => .error ⟨410, "gone"⟩

/-- A provider that fails every operation with a 503. -/
def calAll503 : Cal where
  listEvents := fun _ _ => .error ⟨503, "backend error"⟩
  instancesOf := fun _ _ _ _ _ => .error ⟨503, "backend error"⟩
  getEvent := fun _ _ _ => .error ⟨503, "backend error"⟩
  insertEvent := fun _ _ _ => .error ⟨503, "backend error"⟩
  updateEvent := fun _ _ _ _ => .error ⟨503, "backend error"⟩
  deleteEvent := fun _ _ _ => .error ⟨503, "backend error"⟩
  listTarget := fun _ _ => .error ⟨503, "backend error"⟩

/-- Does a log entry report exactly the counts `(c, u, r)`? -/
def isCountLog (c u r : Nat) : LogEntry → Bool
  | .deltaSummaryE _ c2 u2 r2 => c2 == c && u2 == u && r2 == r
  | _ => false

/-- Batch-counterexample subscription mirroring "alpha" events. -/
def sub1C : Subscription := { subW with id := 1, filters_raw := "alpha" }

/-- Batch-counterexample subscription mirroring "beta" events. -/
def sub2C : Subscription := { subW with id := 2, filters_raw := "beta" }

/-- World for the batch-counts counterexample: two enabled
subscriptions, each matching exactly one of the two source events. -/
def wC : W where
  cal := { source := [evA, evB], curTok := "T", target := [], nextId := 0 }
  db := ⟨[], [], [sub1C, sub2C]⟩
  logs := []

/-- A subscription whose source calendar the provider does not know. -/
def subX1 : Subscription := { subW with id := 1, source_calendar_id := "bad" }

/-- A good enabled subscription. -/
def subX2 : Subscription := { subW with id := 2 }

/-- A disabled subscription. -/
def subX3 : Subscription :=
  { subW with
    id := 3
    is_enabled := 0
    source_calendar_id := "s3x"
    target_calendar_id := "t3x" }

/-- World for the batch continues-past-failure run: a failing
subscription, a good one, and a disabled one. -/
def wD : W where
  cal := { source := [evA], curTok := "T", target := [], nextId := 0 }
  db := ⟨[], [], [subX1, subX2, subX3]⟩
  logs := []

/-- Initial world for the convergence / idempotence runs: one matching
source event, a fresh target calendar and an empty store. -/
def wE : W where
  cal := { source := [evA], curTok := "T", target := [], nextId := 0 }
  db := ⟨[], [], [subW]⟩
  logs := []

/-- A recurring master (an RRULE and no `recurringEventId`). -/
def evM : SEvent :=
  { evA with
    id := "sM"
    recurrence := some ["RRULE:FREQ=DAILY"]
    recurringEventId := none }

/-- `wE` with the master `evM` also in the source and a stale row
mapping the master. -/
def wM : W where
  cal := { source := [evA, evM]
           curTok := "T"
           target := [(3, buildPayloadFromSource evM)]
           nextId := 4 }
  db := ⟨[⟨1, "sM", 3, "eM", "fM"⟩], [], [subW]⟩
  logs := []

/-- The world `runSubscription` returns on a successful body: the
per-run summary logged and the ok status saved. -/
def finishOk (cfg : Config) (sub : Subscription) (c : RunCounts)
    (wb : W) : W :=
  ⟨wb.cal, saveState wb.db sub.id cfg.now none none (some "ok"),
    wb.logs ++ [.deltaSummaryE sub.id c.created c.updated c.removed]⟩

/-! ## Theorems -/

/-! ### Json canonicalization facts (towards C5) -/

theorem json_sizeOf_pos (a : Json) : 0 < sizeOf a := by
  cases a <;> simp

theorem jkeys_map_snd (l : List (String × Json)) (g : String × Json → Json) :
    jkeys (l.map fun p => (p.1, g p)) = jkeys l := by
  simp [jkeys, List.map_map, Function.comp]

theorem jequiv_refl : (a : Json) → JWF a → JEquiv a a
  | .null, _ => by simp [JEquiv]
  | .bool b, _ => by simp [JEquiv]
  | .num n, _ => by simp [JEquiv]
  | .str s, _ => by simp [JEquiv]
  | .arr xs, h => by
    rw [JWF] at h
    rw [JEquiv]
    refine ⟨rfl, ?_⟩
    intro i h1 h2
    exact jequiv_refl (xs.get ⟨i, h1⟩) (h _ (xs.get_mem _ _))
  | .obj l, h => by
    rw [JWF] at h
    rw [JEquiv]
    refine ⟨List.Perm.refl _, ?_⟩
    intro p hp q hq hpq
    have hpq2 : p = q := List.inj_on_of_nodup_map h.1 hp hq hpq
    subst hpq2
    exact jequiv_refl p.2 (h.2 p hp)
termination_by a => sizeOf a
decreasing_by
  · have := List.sizeOf_get xs ⟨i, h1⟩
    simp only [Json.arr.sizeOf_spec]
    omega
  · have hm := List.sizeOf_lt_of_mem hp
    have h2 : sizeOf p.2 < sizeOf p := by
      cases p with
      | mk a b => simp only [Prod.mk.sizeOf_spec]; omega
    simp only [Json.obj.sizeOf_spec]
    omega

/-- Two entry lists with permuted duplicate-free keys and equal values
at equal keys are permutations of one another. -/
theorem entry_perm_of_matched (u v : List (String × Json))
    (hk : (jkeys u).Perm (jkeys v)) (hn : (jkeys u).Nodup)
    (hm : ∀ p ∈ u, ∀ q ∈ v, p.1 = q.1 → p.2 = q.2) : u.Perm v := by
  have hnv : (jkeys v).Nodup := hk.nodup_iff.mp hn
  have hsub1 : u ⊆ v := by
    intro p hp
    have hkey : p.1 ∈ jkeys v := hk.mem_iff.mp (List.mem_map.mpr ⟨p, hp, rfl⟩)
    obtain ⟨q, hq, hq1⟩ := List.mem_map.mp hkey
    have hv : p.2 = q.2 := hm p hp q hq hq1.symm
    have hpq : p = q := by
      cases p
      cases q
      simp_all
    rw [hpq]
    exact hq
  have hsub2 : v ⊆ u := by
    intro q hq
    have hkey : q.1 ∈ jkeys u := hk.mem_iff.mpr (List.mem_map.mpr ⟨q, hq, rfl⟩)
    obtain ⟨p, hp, hp1⟩ := List.mem_map.mp hkey
    have hv : p.2 = q.2 := hm p hp q hq hp1
    have hpq : q = p := by
      cases p
      cases q
      simp_all
    rw [hpq]
    exact hp
  have hnu' : u.Nodup := hn.of_map
  have hnv' : v.Nodup := hnv.of_map
  exact (List.subperm_of_subset hnu' hsub1).antisymm
    (List.subperm_of_subset hnv' hsub2)

/-- Sorting by key is invariant under permutation when keys are
duplicate-free (sortedness plus strict key order pin the result). -/
theorem insertionSort_eq_of_perm (u v : List (String × Json))
    (hp : u.Perm v) (hn : (jkeys u).Nodup) :
    List.insertionSort keyLE u = List.insertionSort keyLE v := by
  have hperm : (List.insertionSort keyLE u).Perm (List.insertionSort keyLE v) :=
    (List.perm_insertionSort keyLE u).trans
      (hp.trans (List.perm_insertionSort keyLE v).symm)
  have hstrict : ∀ (l : List (String × Json)), (jkeys l).Nodup →
      List.Sorted keyLE l → List.Pairwise keyLT l := by
    intro l hnl hsl
    have hne : List.Pairwise (fun p q : String × Json => p.1 ≠ q.1) l :=
      List.pairwise_map.mp hnl
    exact (hsl.and hne).imp fun h => lt_of_le_of_ne h.1 h.2
  have hnu : (jkeys (List.insertionSort keyLE u)).Nodup := by
    have hmk : (jkeys (List.insertionSort keyLE u)).Perm (jkeys u) :=
      (List.perm_insertionSort keyLE u).map Prod.fst
    exact hmk.nodup_iff.mpr hn
  have hnv : (jkeys (List.insertionSort keyLE v)).Nodup := by
    have hmk : (jkeys (List.insertionSort keyLE v)).Perm (jkeys v) :=
      (List.perm_insertionSort keyLE v).map Prod.fst
    exact hmk.nodup_iff.mpr ((hp.map Prod.fst).nodup_iff.mp hn)
  exact List.eq_of_perm_of_sorted hperm
    (hstrict _ hnu (List.sorted_insertionSort keyLE u))
    (hstrict _ hnv (List.sorted_insertionSort keyLE v))

/-! ### Basic facts about the embedding -/

theorem sortDeep_arr (xs : List Json) :
    sortDeep (.arr xs) = .arr (xs.map sortDeep) := by
  rw [sortDeep]
  congr 1
  simp [List.map_attach]

theorem sortDeep_obj (kvs : List (String × Json)) :
    sortDeep (.obj kvs) = .obj (List.insertionSort keyLE
      (kvs.map fun p => (p.1, sortDeep p.2))) := by
  rw [sortDeep]
  congr 1
  simp [List.map_attach]

theorem sortDeep_null : sortDeep .null = .null := by rw [sortDeep]

theorem sortDeep_bool (b : Bool) : sortDeep (.bool b) = .bool b := by
  rw [sortDeep]

theorem sortDeep_num (n : Int) : sortDeep (.num n) = .num n := by
  rw [sortDeep]

theorem sortDeep_str (s : String) : sortDeep (.str s) = .str s := by
  rw [sortDeep]

/-- `sortDeep` maps logically equal values (`JEquiv`) to the same
canonical form — fuel-indexed induction workhorse. -/
theorem sortDeep_eq_of_jequiv_fuel :
    ∀ (n : Nat) (a b : Json), sizeOf a ≤ n → JWF a → JWF b → JEquiv a b →
      sortDeep a = sortDeep b := by
  intro n
  induction n with
  | zero =>
    intro a b hsz _ _ _
    exact absurd hsz (by have := json_sizeOf_pos a; omega)
  | succ n ih =>
    intro a b hsz hwa hwb heq
    cases a with
    | null =>
      cases b <;> simp_all [JEquiv, sortDeep_null]
    | bool x =>
      cases b <;> simp_all [JEquiv, sortDeep_bool]
    | num x =>
      cases b <;> simp_all [JEquiv, sortDeep_num]
    | str x =>
      cases b <;> simp_all [JEquiv, sortDeep_str]
    | arr xs =>
      cases b with
      | arr ys =>
        simp only [JEquiv] at heq
        obtain ⟨hlen, hpt⟩ := heq
        rw [JWF] at hwa hwb
        rw [sortDeep_arr, sortDeep_arr]
        congr 1
        apply List.ext_getElem (by simpa using hlen)
        intro i h1 h2
        have hx1 : i < xs.length := by simpa using h1
        have hx2 : i < ys.length := by simpa using h2
        simp only [List.getElem_map]
        have hszi : sizeOf xs[i] ≤ n := by
          have h3 := List.sizeOf_get xs ⟨i, hx1⟩
          have h4 : sizeOf (Json.arr xs) ≤ n + 1 := hsz
          simp only [Json.arr.sizeOf_spec] at h4
          simp only [List.get_eq_getElem] at h3
          omega
        apply ih xs[i] ys[i] hszi
        · exact hwa _ (List.getElem_mem _)
        · exact hwb _ (List.getElem_mem _)
        · have := hpt i hx1 hx2
          simpa [List.get_eq_getElem] using this
      | null => simp [JEquiv] at heq
      | bool _ => simp [JEquiv] at heq
      | num _ => simp [JEquiv] at heq
      | str _ => simp [JEquiv] at heq
      | obj _ => simp [JEquiv] at heq
    | obj l1 =>
      cases b with
      | obj l2 =>
        simp only [JEquiv] at heq
        obtain ⟨hkeys, hmatch⟩ := heq
        rw [JWF] at hwa hwb
        rw [sortDeep_obj, sortDeep_obj]
        congr 1
        apply insertionSort_eq_of_perm
        · apply entry_perm_of_matched
          · rw [jkeys_map_snd, jkeys_map_snd]
            exact hkeys
          · rw [jkeys_map_snd]
            exact hwa.1
          · intro p' hp' q' hq' hk
            obtain ⟨p, hp, rfl⟩ := List.mem_map.mp hp'
            obtain ⟨q, hq, rfl⟩ := List.mem_map.mp hq'
            simp only at hk
            show sortDeep p.2 = sortDeep q.2
            have hszp : sizeOf p.2 ≤ n := by
              have h3 := List.sizeOf_lt_of_mem hp
              have h4 : sizeOf p.2 < sizeOf p := by
                cases p with
                | mk u v => simp only [Prod.mk.sizeOf_spec]; omega
              have h5 : sizeOf (Json.obj l1) ≤ n + 1 := hsz
              simp only [Json.obj.sizeOf_spec] at h5
              omega
            exact ih p.2 q.2 hszp (hwa.2 p hp) (hwb.2 q hq) (hmatch p hp q hq hk)
        · rw [jkeys_map_snd]
          exact hwa.1
      | null => simp [JEquiv] at heq
      | bool _ => simp [JEquiv] at heq
      | num _ => simp [JEquiv] at heq
      | str _ => simp [JEquiv] at heq
      | arr _ => simp [JEquiv] at heq

/-- C5 workhorse, direction 1: logically equal well-formed values have
equal canonical forms. -/
theorem sortDeep_eq_of_jequiv (a b : Json) (hwa : JWF a) (hwb : JWF b)
    (heq : JEquiv a b) : sortDeep a = sortDeep b :=
  sortDeep_eq_of_jequiv_fuel (sizeOf a) a b le_rfl hwa hwb heq

/-- C5 workhorse, direction 2: equal canonical forms of well-formed
values force logical equality — fuel-indexed induction. -/
theorem jequiv_of_sortDeep_eq_fuel :
    ∀ (n : Nat) (a b : Json), sizeOf a ≤ n → JWF a → JWF b →
      sortDeep a = sortDeep b → JEquiv a b := by
  intro n
  induction n with
  | zero =>
    intro a b hsz _ _ _
    exact absurd hsz (by have := json_sizeOf_pos a; omega)
  | succ n ih =>
    intro a b hsz hwa hwb heq
    cases a with
    | null =>
      cases b <;>
        simp_all [JEquiv, sortDeep_null, sortDeep_bool, sortDeep_num,
          sortDeep_str, sortDeep_arr, sortDeep_obj]
    | bool x =>
      cases b <;>
        simp_all [JEquiv, sortDeep_null, sortDeep_bool, sortDeep_num,
          sortDeep_str, sortDeep_arr, sortDeep_obj]
    | num x =>
      cases b <;>
        simp_all [JEquiv, sortDeep_null, sortDeep_bool, sortDeep_num,
          sortDeep_str, sortDeep_arr, sortDeep_obj]
    | str x =>
      cases b <;>
        simp_all [JEquiv, sortDeep_null, sortDeep_bool, sortDeep_num,
          sortDeep_str, sortDeep_arr, sortDeep_obj]
    | arr xs =>
      cases b with
      | arr ys =>
        rw [sortDeep_arr, sortDeep_arr] at heq
        have hmap : xs.map sortDeep = ys.map sortDeep := by
          simpa using heq
        have hlen : xs.length = ys.length := by
          have := congrArg List.length hmap
          simpa using this
        simp only [JEquiv]
        refine ⟨hlen, ?_⟩
        intro i h1 h2
        have hszi : sizeOf (xs.get ⟨i, h1⟩) ≤ n := by
          have h3 := List.sizeOf_get xs ⟨i, h1⟩
          have h4 : sizeOf (Json.arr xs) ≤ n + 1 := hsz
          simp only [Json.arr.sizeOf_spec] at h4
          omega
        apply ih _ _ hszi
        · rw [JWF] at hwa
          exact hwa _ (xs.get_mem _ _)
        · rw [JWF] at hwb
          exact hwb _ (ys.get_mem _ _)
        · have := congrArg (fun l => l.get? i) hmap
          simp only [List.getElem?_map, List.get?_eq_getElem?] at this
          rw [List.getElem?_eq_getElem h1, List.getElem?_eq_getElem h2] at this
          simpa [List.get_eq_getElem] using this
      | null =>
        rw [sortDeep_arr] at heq
        simp [sortDeep_null] at heq
      | bool y =>
        rw [sortDeep_arr] at heq
        simp [sortDeep_bool] at heq
      | num y =>
        rw [sortDeep_arr] at heq
        simp [sortDeep_num] at heq
      | str y =>
        rw [sortDeep_arr] at heq
        simp [sortDeep_str] at heq
      | obj l2 =>
        rw [sortDeep_arr, sortDeep_obj] at heq
        simp at heq
    | obj l1 =>
      cases b with
      | obj l2 =>
        rw [sortDeep_obj, sortDeep_obj] at heq
        have heq' : List.insertionSort keyLE (l1.map fun p => (p.1, sortDeep p.2)) =
            List.insertionSort keyLE (l2.map fun p => (p.1, sortDeep p.2)) := by
          simpa using heq
        rw [JWF] at hwa hwb
        have h1 := List.perm_insertionSort keyLE
          (l1.map fun p => (p.1, sortDeep p.2))
        have h2 := List.perm_insertionSort keyLE
          (l2.map fun p => (p.1, sortDeep p.2))
        have hperm : (l1.map fun p => (p.1, sortDeep p.2)).Perm
            (l2.map fun p => (p.1, sortDeep p.2)) :=
          h1.symm.trans (heq' ▸ h2)
        have hkeys : (jkeys l1).Perm (jkeys l2) := by
          have := hperm.map Prod.fst
          rw [show (List.map Prod.fst (l1.map fun p => (p.1, sortDeep p.2))) =
            jkeys l1 from jkeys_map_snd l1 _,
            show (List.map Prod.fst (l2.map fun p => (p.1, sortDeep p.2))) =
            jkeys l2 from jkeys_map_snd l2 _] at this
          exact this
        simp only [JEquiv]
        refine ⟨hkeys, ?_⟩
        intro p hp q hq hk
        have hp' : (p.1, sortDeep p.2) ∈ l2.map fun r => (r.1, sortDeep r.2) :=
          hperm.subset (List.mem_map.mpr ⟨p, hp, rfl⟩)
        obtain ⟨q', hq', heq2⟩ := List.mem_map.mp hp'
        obtain ⟨hq'1, hq'2⟩ : q'.1 = p.1 ∧ sortDeep q'.2 = sortDeep p.2 := by
          simpa [Prod.ext_iff] using heq2
        have hqq : q' = q :=
          List.inj_on_of_nodup_map hwb.1 hq' hq (by rw [hq'1, hk])
        subst hqq
        have hszp : sizeOf p.2 ≤ n := by
          have h3 := List.sizeOf_lt_of_mem hp
          have h4 : sizeOf p.2 < sizeOf p := by
            cases p with
            | mk u v => simp only [Prod.mk.sizeOf_spec]; omega
          have h5 : sizeOf (Json.obj l1) ≤ n + 1 := hsz
          simp only [Json.obj.sizeOf_spec] at h5
          omega
        exact ih p.2 q'.2 hszp (hwa.2 p hp) (hwb.2 q' hq) hq'2.symm
      | null =>
        rw [sortDeep_obj] at heq
        simp [sortDeep_null] at heq
      | bool y =>
        rw [sortDeep_obj] at heq
        simp [sortDeep_bool] at heq
      | num y =>
        rw [sortDeep_obj] at heq
        simp [sortDeep_num] at heq
      | str y =>
        rw [sortDeep_obj] at heq
        simp [sortDeep_str] at heq
      | arr ys =>
        rw [sortDeep_obj, sortDeep_arr] at heq
        simp at heq

/-- C5 workhorse, direction 2, wrapper. -/
theorem jequiv_of_sortDeep_eq (a b : Json) (hwa : JWF a) (hwb : JWF b)
    (heq : sortDeep a = sortDeep b) : JEquiv a b :=
  jequiv_of_sortDeep_eq_fuel (sizeOf a) a b le_rfl hwa hwb heq

/-- Logically equal mirrored fields give logically equal payload
objects. -/
theorem payloadToJson_jequiv (p1 p2 : Payload) (h : PayloadEquiv p1 p2) :
    JEquiv (payloadToJson p1) (payloadToJson p2) := by
  obtain ⟨h1, h2, h3, h4, h5, h6, h7⟩ := h
  cases hr1 : p1.reminders with
  | some r1 =>
    cases hr2 : p2.reminders with
    | some r2 =>
      rw [hr1, hr2] at h6
      simp only [payloadToJson, hr1, hr2, List.cons_append, List.nil_append]
      rw [JEquiv]
      refine ⟨List.Perm.refl _, ?_⟩
      intro p hp q hq hk
      simp only [List.mem_cons, List.not_mem_nil, or_false] at hp hq
      rcases hp with rfl | rfl | rfl | rfl | rfl | rfl | rfl <;>
        rcases hq with rfl | rfl | rfl | rfl | rfl | rfl | rfl <;>
        simp_all
    | none =>
      rw [hr1, hr2] at h6
      exact h6.elim
  | none =>
    cases hr2 : p2.reminders with
    | some r2 =>
      rw [hr1, hr2] at h6
      exact h6.elim
    | none =>
      simp only [payloadToJson, hr1, hr2, List.cons_append, List.nil_append]
      rw [JEquiv]
      refine ⟨List.Perm.refl _, ?_⟩
      intro p hp q hq hk
      simp only [List.mem_cons, List.not_mem_nil, or_false] at hp hq
      rcases hp with rfl | rfl | rfl | rfl | rfl | rfl <;>
        rcases hq with rfl | rfl | rfl | rfl | rfl | rfl <;>
        simp_all

/-- Logically equal payload objects give logically equal mirrored
fields. -/
theorem payloadEquiv_of_jequiv (p1 p2 : Payload)
    (h : JEquiv (payloadToJson p1) (payloadToJson p2)) :
    PayloadEquiv p1 p2 := by
  cases hr1 : p1.reminders with
  | some r1 =>
    cases hr2 : p2.reminders with
    | some r2 =>
      simp only [payloadToJson, hr1, hr2, List.cons_append, List.nil_append] at h
      rw [JEquiv] at h
      obtain ⟨hk, hm⟩ := h
      refine ⟨?_, ?_, ?_, ?_, ?_, ?_, ?_⟩
      · exact hm ("summary", p1.summary) (by simp) ("summary", p2.summary) (by simp) rfl
      · exact hm ("description", p1.description) (by simp) ("description", p2.description) (by simp) rfl
      · exact hm ("location", p1.location) (by simp) ("location", p2.location) (by simp) rfl
      · exact hm ("start", p1.start) (by simp) ("start", p2.start) (by simp) rfl
      · exact hm ("end", p1.«end») (by simp) ("end", p2.«end») (by simp) rfl
      · rw [hr1, hr2]
        exact hm ("reminders", r1) (by simp) ("reminders", r2) (by simp) rfl
      · exact hm ("transparency", p1.transparency) (by simp) ("transparency", p2.transparency) (by simp) rfl
    | none =>
      simp only [payloadToJson, hr1, hr2, List.cons_append, List.nil_append] at h
      rw [JEquiv] at h
      have := h.1.length_eq
      simp [jkeys] at this
  | none =>
    cases hr2 : p2.reminders with
    | some r2 =>
      simp only [payloadToJson, hr1, hr2, List.cons_append, List.nil_append] at h
      rw [JEquiv] at h
      have := h.1.length_eq
      simp [jkeys] at this
    | none =>
      simp only [payloadToJson, hr1, hr2, List.cons_append, List.nil_append] at h
      rw [JEquiv] at h
      obtain ⟨hk, hm⟩ := h
      refine ⟨?_, ?_, ?_, ?_, ?_, ?_, ?_⟩
      · exact hm ("summary", p1.summary) (by simp) ("summary", p2.summary) (by simp) rfl
      · exact hm ("description", p1.description) (by simp) ("description", p2.description) (by simp) rfl
      · exact hm ("location", p1.location) (by simp) ("location", p2.location) (by simp) rfl
      · exact hm ("start", p1.start) (by simp) ("start", p2.start) (by simp) rfl
      · exact hm ("end", p1.«end») (by simp) ("end", p2.«end») (by simp) rfl
      · rw [hr1, hr2]
        exact trivial
      · exact hm ("transparency", p1.transparency) (by simp) ("transparency", p2.transparency) (by simp) rfl

/-! ### C5: fingerprint stability -/

/-- C5: with the platform serialize-and-hash pair abstracted as an
injective digest (the spec treats the digest as an opaque content
identity), the fingerprint of `buildPayloadFromSource` is equal for two
source events exactly when their mirrored-field projections are equal
as logical values — same fields under arbitrary object key order
(`PayloadEquiv`) — so key order never changes the fingerprint while a
difference in any mirrored field of the projection does; and changing
only the (non-mirrored) etag never changes the fingerprint.  The
well-formedness hypotheses say the payloads are JavaScript objects
(duplicate-free keys at every object node). -/
theorem c5_fingerprint_stability {α : Type} (digest : Json → α)
    (hinj : Function.Injective digest) (e1 e2 : SEvent)
    (hw1 : JWF (payloadToJson (buildPayloadFromSource e1)))
    (hw2 : JWF (payloadToJson (buildPayloadFromSource e2))) :
    (fingerprintWith digest (buildPayloadFromSource e1) =
       fingerprintWith digest (buildPayloadFromSource e2) ↔
     PayloadEquiv (buildPayloadFromSource e1) (buildPayloadFromSource e2)) ∧
    ∀ t, fingerprintWith digest (buildPayloadFromSource e1) =
      fingerprintWith digest (buildPayloadFromSource { e1 with etag := t }) := by
  constructor
  · constructor
    · intro h
      exact payloadEquiv_of_jequiv _ _
        (jequiv_of_sortDeep_eq _ _ hw1 hw2 (hinj h))
    · intro h
      exact congrArg digest
        (sortDeep_eq_of_jequiv _ _ hw1 hw2 (payloadToJson_jequiv _ _ h))
  · intro t
    rfl

/-- Witness for C5: identity digest, two events whose `start` objects
carry the same two entries in opposite order (and different etags). -/
theorem c5_witness :
    (fingerprintWith (fun j => j) (buildPayloadFromSource evP1) =
       fingerprintWith (fun j => j) (buildPayloadFromSource evP2) ↔
     PayloadEquiv (buildPayloadFromSource evP1) (buildPayloadFromSource evP2)) ∧
    ∀ t, fingerprintWith (fun j => j) (buildPayloadFromSource evP1) =
      fingerprintWith (fun j => j) (buildPayloadFromSource { evP1 with etag := t }) :=
  c5_fingerprint_stability (fun j => j) (fun _ _ h => h) evP1 evP2
    (by
      simp only [payloadToJson, buildPayloadFromSource, evP1, evA]
      rw [JWF]
      constructor
      · simp only [jkeys]
        decide
      · intro p hp
        simp only [List.cons_append, List.nil_append, List.mem_cons,
          List.not_mem_nil, or_false] at hp
        rcases hp with rfl | rfl | rfl | rfl | rfl | rfl <;>
          simp [JWF, optStrJson, jsOrStr, jkeys])
    (by
      simp only [payloadToJson, buildPayloadFromSource, evP2, evA]
      rw [JWF]
      constructor
      · simp only [jkeys]
        decide
      · intro p hp
        simp only [List.cons_append, List.nil_append, List.mem_cons,
          List.not_mem_nil, or_false] at hp
        rcases hp with rfl | rfl | rfl | rfl | rfl | rfl <;>
          simp [JWF, optStrJson, jsOrStr, jkeys])

theorem isInstanceOrSingle_eq_not_master (ev : SEvent) :
    isInstanceOrSingle ev = !isRecurringMaster ev := by
  simp [isInstanceOrSingle, isRecurringMaster]

/-! ### Subscription-state store lemmas -/

theorem statesGet_nullSyncToken (db : Db) (sid : Nat) :
    statesGet (nullSyncToken db sid) sid =
      (statesGet db sid).map fun r => { r with sync_token := none } := by
  unfold statesGet nullSyncToken
  rw [List.find?_map]
  have hpf : ((fun r : StateRow => r.subscription_id == sid) ∘
      fun r : StateRow =>
        if r.subscription_id == sid then { r with sync_token := none } else r) =
      fun r : StateRow => r.subscription_id == sid := by
    funext r
    by_cases h : r.subscription_id = sid
    · simp [beq_iff_eq, h]
    · simp [beq_iff_eq, h]
  rw [hpf]
  cases hf : db.states.find? fun r => r.subscription_id == sid with
  | none => rfl
  | some r =>
    have hr := List.find?_some hf
    have hr' : r.subscription_id = sid := by simpa using hr
    simp [beq_iff_eq, hr']

theorem statesGet_saveState (db : Db) (sid : Nat) (now : Int)
    (ptok : Option String) (prun : Option Int) (pstat : Option String) :
    statesGet (saveState db sid now ptok prun pstat) sid =
      some (match statesGet db sid with
        | some r =>
          { r with sync_token := ptok.or r.sync_token,
                   last_run_at := some (prun.getD now),
                   last_status := some (pstat.getD "ok") }
        | none => ⟨sid, ptok, some (prun.getD now), some (pstat.getD "ok")⟩) := by
  unfold statesGet saveState
  by_cases h : (db.states.any fun r => r.subscription_id == sid) = true
  · rw [if_pos h]
    simp only
    rw [List.find?_map]
    have hpf : ((fun r : StateRow => r.subscription_id == sid) ∘
        fun r : StateRow =>
          if r.subscription_id == sid then
            { r with sync_token := ptok.or r.sync_token,
                     last_run_at := some (prun.getD now),
                     last_status := some (pstat.getD "ok") }
          else r) =
        fun r : StateRow => r.subscription_id == sid := by
      funext r
      by_cases hh : r.subscription_id = sid
      · simp [beq_iff_eq, hh]
      · simp [beq_iff_eq, hh]
    rw [hpf]
    obtain ⟨x, hx, hpx⟩ := List.any_eq_true.mp h
    cases hf : db.states.find? fun r => r.subscription_id == sid with
    | none =>
      exact absurd (List.find?_eq_none.mp hf x hx) (by simp [hpx])
    | some r =>
      have hr := List.find?_some hf
      have hr' : r.subscription_id = sid := by simpa using hr
      simp [beq_iff_eq, hr']
  · rw [if_neg h]
    simp only
    have hnone : (db.states.find? fun r => r.subscription_id == sid) = none := by
      rw [List.find?_eq_none]
      intro x hx
      intro hpx
      exact h (List.any_eq_true.mpr ⟨x, hx, hpx⟩)
    rw [List.find?_append, hnone]
    simp [hnone]

/-! ### Mapping-store lemmas -/

theorem mKey_iff (sid : Nat) (srcId : String) (r : MapRow) :
    mKey sid srcId r = true ↔
      r.subscription_id = sid ∧ r.source_id = srcId := by
  simp [mKey]

theorem mappingGet_mem {db : Db} {sid : Nat} {srcId : String} {r : MapRow}
    (h : mappingGet db sid srcId = some r) :
    r ∈ db.mappings ∧ r.subscription_id = sid ∧ r.source_id = srcId := by
  refine ⟨List.mem_of_find?_eq_some h, ?_⟩
  have := List.find?_some h
  simpa [mKey] using this

theorem mappingGet_eq_none {db : Db} {sid : Nat} {srcId : String} :
    mappingGet db sid srcId = none ↔
      ∀ r ∈ db.mappings, ¬(r.subscription_id = sid ∧ r.source_id = srcId) := by
  unfold mappingGet
  rw [List.find?_eq_none]
  constructor
  · intro h r hr
    have := h r hr
    simpa [mKey] using this
  · intro h r hr
    have := h r hr
    simpa [mKey] using this

theorem mappingGet_of_mem {db : Db} {r : MapRow}
    (hn : (db.mappings.map mapKey).Nodup) (hr : r ∈ db.mappings) :
    mappingGet db r.subscription_id r.source_id = some r := by
  cases hf : mappingGet db r.subscription_id r.source_id with
  | none =>
    exact absurd (mappingGet_eq_none.mp hf r hr) (by simp)
  | some r' =>
    obtain ⟨hmem, hk1, hk2⟩ := mappingGet_mem hf
    have : r' = r := by
      apply List.inj_on_of_nodup_map hn hmem hr
      simp [mapKey, hk1, hk2]
    rw [this]

theorem states_mappingUpsert (db : Db) (sid : Nat) (srcId : String)
    (tid : Nat) (e f : String) :
    (mappingUpsert db sid srcId tid e f).states = db.states := by
  unfold mappingUpsert
  by_cases h : db.mappings.any (mKey sid srcId) = true <;> simp [h]

theorem subs_mappingUpsert (db : Db) (sid : Nat) (srcId : String)
    (tid : Nat) (e f : String) :
    (mappingUpsert db sid srcId tid e f).subscriptions = db.subscriptions := by
  unfold mappingUpsert
  by_cases h : db.mappings.any (mKey sid srcId) = true <;> simp [h]

theorem mappingGet_upsert_self (db : Db) (sid : Nat) (srcId : String)
    (tid : Nat) (e f : String) :
    ∃ r', mappingGet (mappingUpsert db sid srcId tid e f) sid srcId = some r' ∧
      r'.subscription_id = sid ∧ r'.source_id = srcId ∧ r'.target_id = tid ∧
      r'.etag = e ∧ r'.fingerprint = f := by
  unfold mappingGet mappingUpsert
  by_cases h : db.mappings.any (mKey sid srcId) = true
  · rw [if_pos h]
    simp only
    rw [List.find?_map]
    have hpf : (mKey sid srcId ∘ fun r =>
        if mKey sid srcId r then
          { r with target_id := tid, etag := e, fingerprint := f }
        else r) = mKey sid srcId := by
      funext r
      by_cases hh : mKey sid srcId r = true
      · have := (mKey_iff sid srcId r).mp hh
        simp [Function.comp, hh, mKey, this.1, this.2]
      · simp [Function.comp, hh]
    rw [hpf]
    obtain ⟨x, hx, hpx⟩ := List.any_eq_true.mp h
    cases hf : db.mappings.find? (mKey sid srcId) with
    | none => exact absurd (List.find?_eq_none.mp hf x hx) (by simp [hpx])
    | some r =>
      have hr := List.find?_some hf
      obtain ⟨h1, h2⟩ := (mKey_iff sid srcId r).mp hr
      refine ⟨{ r with target_id := tid, etag := e, fingerprint := f },
        ?_, h1, h2, rfl, rfl, rfl⟩
      simp [hr]
  · rw [if_neg h]
    simp only
    have hnone : db.mappings.find? (mKey sid srcId) = none := by
      rw [List.find?_eq_none]
      intro x hx hpx
      exact h (List.any_eq_true.mpr ⟨x, hx, hpx⟩)
    rw [List.find?_append, hnone]
    refine ⟨⟨sid, srcId, tid, e, f⟩, ?_, rfl, rfl, rfl, rfl, rfl⟩
    simp [mKey]

theorem mappingGet_upsert_ne (db : Db) (sid : Nat) (srcId : String)
    (tid : Nat) (e f : String) (sid' : Nat) (srcId' : String)
    (hne : ¬(sid' = sid ∧ srcId' = srcId)) :
    mappingGet (mappingUpsert db sid srcId tid e f) sid' srcId' =
      mappingGet db sid' srcId' := by
  unfold mappingGet mappingUpsert
  by_cases h : db.mappings.any (mKey sid srcId) = true
  · rw [if_pos h]
    simp only
    rw [List.find?_map]
    have hpf : (mKey sid' srcId' ∘ fun r =>
        if mKey sid srcId r then
          { r with target_id := tid, etag := e, fingerprint := f }
        else r) = mKey sid' srcId' := by
      funext r
      by_cases hh : mKey sid srcId r = true
      · have hr := (mKey_iff sid srcId r).mp hh
        simp [Function.comp, hh, mKey, hr.1, hr.2]
      · simp [Function.comp, hh]
    rw [hpf]
    cases hf : db.mappings.find? (mKey sid' srcId') with
    | none => rfl
    | some r =>
      have hr := List.find?_some hf
      obtain ⟨h1, h2⟩ := (mKey_iff sid' srcId' r).mp hr
      have hnk : mKey sid srcId r = false := by
        rw [Bool.eq_false_iff]
        intro hk
        obtain ⟨h3, h4⟩ := (mKey_iff sid srcId r).mp hk
        exact hne ⟨h1.symm.trans h3, h2.symm.trans h4⟩
      simp [hnk]
  · rw [if_neg h]
    simp only
    rw [List.find?_append]
    have : ([(⟨sid, srcId, tid, e, f⟩ : MapRow)].find? (mKey sid' srcId')) = none := by
      simp only [List.find?]
      have : mKey sid' srcId' ⟨sid, srcId, tid, e, f⟩ = false := by
        rw [Bool.eq_false_iff]
        intro hk
        obtain ⟨h3, h4⟩ := (mKey_iff sid' srcId' _).mp hk
        have h3' : sid' = sid := by simpa using h3.symm
        have h4' : srcId' = srcId := by simpa using h4.symm
        exact hne ⟨h3', h4'⟩
      simp [this]
    rw [this]
    simp

theorem mappingGet_insert_self (db : Db) (sid : Nat) (srcId : String)
    (tid : Nat) (e f : String) (h : mappingGet db sid srcId = none) :
    mappingGet (mappingInsert db sid srcId tid e f) sid srcId =
      some ⟨sid, srcId, tid, e, f⟩ := by
  unfold mappingGet mappingInsert
  unfold mappingGet at h
  simp only
  rw [List.find?_append, h]
  simp [mKey]

theorem mappingGet_insert_ne (db : Db) (sid : Nat) (srcId : String)
    (tid : Nat) (e f : String) (sid' : Nat) (srcId' : String)
    (hne : ¬(sid' = sid ∧ srcId' = srcId)) :
    mappingGet (mappingInsert db sid srcId tid e f) sid' srcId' =
      mappingGet db sid' srcId' := by
  unfold mappingGet mappingInsert
  simp only
  rw [List.find?_append]
  have : ([(⟨sid, srcId, tid, e, f⟩ : MapRow)].find? (mKey sid' srcId')) = none := by
    simp only [List.find?]
    have : mKey sid' srcId' ⟨sid, srcId, tid, e, f⟩ = false := by
      rw [Bool.eq_false_iff]
      intro hk
      obtain ⟨h3, h4⟩ := (mKey_iff sid' srcId' _).mp hk
      have h3' : sid' = sid := by simpa using h3.symm
      have h4' : srcId' = srcId := by simpa using h4.symm
      exact hne ⟨h3', h4'⟩
    simp [this]
  rw [this]
  simp

theorem find?_filter_of_imp {α : Type} (l : List α) (p q : α → Bool)
    (h : ∀ x, p x = true → q x = true) :
    (l.filter q).find? p = l.find? p := by
  induction l with
  | nil => rfl
  | cons x rest ih =>
    by_cases hq : q x = true
    · rw [List.filter_cons_of_pos hq]
      by_cases hp : p x = true
      · simp [List.find?, hp]
      · simp only [List.find?, hp]
        simpa [Bool.not_eq_true] using ih
    · have hp : p x = false := by
        rw [Bool.eq_false_iff]
        intro hpx
        exact hq (h x hpx)
      rw [List.filter_cons_of_neg (by simp [hq])]
      simp only [List.find?, hp]
      exact ih

theorem mappingGet_delete_self (db : Db) (sid : Nat) (srcId : String) :
    mappingGet (mappingDelete db sid srcId) sid srcId = none := by
  unfold mappingGet mappingDelete
  simp only
  rw [List.find?_eq_none]
  intro x hx
  have := List.of_mem_filter hx
  simp only [Bool.not_eq_true] at this ⊢
  simpa using this

theorem mappingGet_delete_ne (db : Db) (sid : Nat) (srcId : String)
    (sid' : Nat) (srcId' : String)
    (hne : ¬(sid' = sid ∧ srcId' = srcId)) :
    mappingGet (mappingDelete db sid srcId) sid' srcId' =
      mappingGet db sid' srcId' := by
  unfold mappingGet mappingDelete
  simp only
  apply find?_filter_of_imp
  intro r hp
  obtain ⟨h1, h2⟩ := (mKey_iff sid' srcId' r).mp hp
  cases hk : mKey sid srcId r with
  | false => simp
  | true =>
    obtain ⟨h3, h4⟩ := (mKey_iff sid srcId r).mp hk
    exact absurd ⟨h1.symm.trans h3, h2.symm.trans h4⟩ hne

theorem mem_mappingUpsert {db : Db} {sid : Nat} {srcId : String}
    {tid : Nat} {e f : String} {r' : MapRow}
    (h : r' ∈ (mappingUpsert db sid srcId tid e f).mappings) :
    (∃ r ∈ db.mappings, mapKey r' = mapKey r) ∨
      (r'.subscription_id = sid ∧ r'.source_id = srcId) := by
  unfold mappingUpsert at h
  by_cases hc : db.mappings.any (mKey sid srcId) = true
  · rw [if_pos hc] at h
    simp only [List.mem_map] at h
    obtain ⟨r, hr, hmap⟩ := h
    left
    refine ⟨r, hr, ?_⟩
    subst hmap
    by_cases hk : mKey sid srcId r = true <;> simp [hk, mapKey]
  · rw [if_neg hc] at h
    simp only [List.mem_append, List.mem_cons, List.not_mem_nil,
      or_false] at h
    rcases h with h | h
    · exact Or.inl ⟨r', h, rfl⟩
    · subst h
      exact Or.inr ⟨rfl, rfl⟩

theorem mem_mappingInsert {db : Db} {sid : Nat} {srcId : String}
    {tid : Nat} {e f : String} {r' : MapRow}
    (h : r' ∈ (mappingInsert db sid srcId tid e f).mappings) :
    r' ∈ db.mappings ∨ (r'.subscription_id = sid ∧ r'.source_id = srcId) := by
  unfold mappingInsert at h
  simp only [List.mem_append, List.mem_cons, List.not_mem_nil, or_false] at h
  rcases h with h | h
  · exact Or.inl h
  · subst h
    exact Or.inr ⟨rfl, rfl⟩

theorem mem_mappingDelete {db : Db} {sid : Nat} {srcId : String} {r' : MapRow}
    (h : r' ∈ (mappingDelete db sid srcId).mappings) : r' ∈ db.mappings := by
  unfold mappingDelete at h
  exact List.mem_of_mem_filter h

theorem mapNodup_mappingUpsert {db : Db} (sid : Nat) (srcId : String)
    (tid : Nat) (e f : String)
    (hn : (db.mappings.map mapKey).Nodup) :
    ((mappingUpsert db sid srcId tid e f).mappings.map mapKey).Nodup := by
  unfold mappingUpsert
  by_cases hc : db.mappings.any (mKey sid srcId) = true
  · rw [if_pos hc]
    simp only
    have : (db.mappings.map fun r =>
        if mKey sid srcId r then
          { r with target_id := tid, etag := e, fingerprint := f }
        else r).map mapKey = db.mappings.map mapKey := by
      rw [List.map_map]
      apply List.map_congr_left
      intro r _
      by_cases hk : mKey sid srcId r = true <;> simp [Function.comp, hk, mapKey]
    rw [this]
    exact hn
  · rw [if_neg hc]
    simp only [List.map_append]
    rw [List.nodup_append]
    refine ⟨hn, by simp, ?_⟩
    intro k hk hk2
    simp only [List.map_cons, List.map_nil, List.mem_cons,
      List.not_mem_nil, or_false] at hk2
    subst hk2
    obtain ⟨r, hr, hmap⟩ := List.mem_map.mp hk
    have : mKey sid srcId r = true := by
      rw [mKey_iff]
      have h1 := congrArg Prod.fst hmap
      have h2 := congrArg Prod.snd hmap
      simp [mapKey] at h1 h2
      exact ⟨h1, h2⟩
    exact hc (List.any_eq_true.mpr ⟨r, hr, this⟩)

theorem mapNodup_mappingInsert {db : Db} (sid : Nat) (srcId : String)
    (tid : Nat) (e f : String)
    (hn : (db.mappings.map mapKey).Nodup)
    (habs : mappingGet db sid srcId = none) :
    ((mappingInsert db sid srcId tid e f).mappings.map mapKey).Nodup := by
  unfold mappingInsert
  simp only [List.map_append]
  rw [List.nodup_append]
  refine ⟨hn, by simp, ?_⟩
  intro k hk hk2
  simp only [List.map_cons, List.map_nil, List.mem_cons,
    List.not_mem_nil, or_false] at hk2
  subst hk2
  obtain ⟨r, hr, hmap⟩ := List.mem_map.mp hk
  have h1 := congrArg Prod.fst hmap
  have h2 := congrArg Prod.snd hmap
  simp [mapKey] at h1 h2
  exact mappingGet_eq_none.mp habs r hr ⟨h1, h2⟩

theorem mapNodup_mappingDelete {db : Db} (sid : Nat) (srcId : String)
    (hn : (db.mappings.map mapKey).Nodup) :
    ((mappingDelete db sid srcId).mappings.map mapKey).Nodup := by
  unfold mappingDelete
  simp only
  exact (List.filter_sublist _).map mapKey |>.nodup hn

theorem states_mappingInsert (db : Db) (sid : Nat) (srcId : String)
    (tid : Nat) (e f : String) :
    (mappingInsert db sid srcId tid e f).states = db.states := rfl

theorem states_mappingDelete (db : Db) (sid : Nat) (srcId : String) :
    (mappingDelete db sid srcId).states = db.states := rfl

theorem subs_mappingInsert (db : Db) (sid : Nat) (srcId : String)
    (tid : Nat) (e f : String) :
    (mappingInsert db sid srcId tid e f).subscriptions = db.subscriptions := rfl

theorem subs_mappingDelete (db : Db) (sid : Nat) (srcId : String) :
    (mappingDelete db sid srcId).subscriptions = db.subscriptions := rfl

/-! ### Honest-provider operation lemmas -/

theorem honest_insert (S T : String) (p : Payload) (c : CalState) :
    (honestCal S T).insertEvent T p c =
      .ok (c.nextId, ⟨c.source, c.curTok, c.target ++ [(c.nextId, p)],
        c.nextId + 1⟩) := by
  simp [honestCal]

theorem honest_update_ok (S T : String) (tid : Nat) (p : Payload)
    (c : CalState) (h : tid ∈ tgtIds c) :
    (honestCal S T).updateEvent T tid p c =
      .ok (tid, ⟨c.source, c.curTok,
        c.target.map fun q => if q.1 == tid then (q.1, p) else q,
        c.nextId⟩) := by
  obtain ⟨q, hq, hq1⟩ := List.mem_map.mp h
  have hany : (c.target.any fun q => q.1 == tid) = true :=
    List.any_eq_true.mpr ⟨q, hq, by simp [hq1]⟩
  simp [honestCal, hany]

theorem honest_delete_ok (S T : String) (tid : Nat) (c : CalState)
    (h : tid ∈ tgtIds c) :
    (honestCal S T).deleteEvent T tid c =
      .ok ((), ⟨c.source, c.curTok,
        c.target.filter fun q => !(q.1 == tid), c.nextId⟩) := by
  obtain ⟨q, hq, hq1⟩ := List.mem_map.mp h
  have hany : (c.target.any fun q => q.1 == tid) = true :=
    List.any_eq_true.mpr ⟨q, hq, by simp [hq1]⟩
  simp [honestCal, hany]

theorem honest_delete_404 (S T : String) (tid : Nat) (c : CalState)
    (h : tid ∉ tgtIds c) :
    (honestCal S T).deleteEvent T tid c = .error ⟨404, "event not found"⟩ := by
  have hany : (c.target.any fun q => q.1 == tid) = false := by
    rw [Bool.eq_false_iff]
    intro hx
    obtain ⟨q, hq, hq1⟩ := List.any_eq_true.mp hx
    exact h (List.mem_map.mpr ⟨q, hq, by simpa using hq1⟩)
  simp [honestCal, hany]

theorem honest_getEvent (S T : String) (evId : String) (c : CalState) :
    (honestCal S T).getEvent S evId c =
      (match findById c evId with
       | some e => .ok (e, c)
       | none => .error ⟨404, "event not found"⟩) := by
  have h : (honestCal S T).getEvent S evId c =
      (match c.source.find? (fun e => e.id == evId) with
       | some e => .ok (e, c)
       | none => .error ⟨404, "event not found"⟩) := by
    simp [honestCal]
  rw [h]
  rfl

theorem honest_listTarget (S T : String) (c : CalState) :
    (honestCal S T).listTarget T c =
      .ok (c.target.map fun q => ⟨q.1, q.2⟩, c) := by
  simp [honestCal]

/-! ### Operation specifications over the honest provider -/

/-- `upsertTarget` on the honest provider always succeeds, preserves
the run invariant and the untouched parts of the world, leaves the
subscription with a current row for the event, and changes no other
mapping. -/
theorem upsert_spec (d : Json → String) (sub : Subscription) (ev : SEvent)
    (force : Bool) (w : W) (hInv : Inv sub w) :
    ∃ cnt w', upsertTarget (subCal sub) d sub.id sub.target_calendar_id
        ev force w = (.ok cnt, w') ∧
      Inv sub w' ∧ Evolves w w' ∧ w'.db.states = w.db.states ∧
      GoodRow d w'.db sub.id ev ∧
      (∀ sid2 srcId2, ¬(sid2 = sub.id ∧ srcId2 = ev.id) →
        mappingGet w'.db sid2 srcId2 = mappingGet w.db sid2 srcId2) ∧
      (∀ r' ∈ w'.db.mappings, (∃ r ∈ w.db.mappings, mapKey r' = mapKey r) ∨
        (r'.subscription_id = sub.id ∧ r'.source_id = ev.id)) := by
  unfold upsertTarget
  dsimp only
  cases hg : mappingGet w.db sub.id ev.id with
  | none =>
    dsimp only
    rw [show (subCal sub).insertEvent = (honestCal sub.source_calendar_id
      sub.target_calendar_id).insertEvent from rfl, honest_insert]
    refine ⟨⟨1, 0, 0⟩, _, rfl, ?_, ⟨rfl, rfl, rfl⟩, rfl, ?_, ?_, ?_⟩
    · constructor
      · exact mapNodup_mappingInsert _ _ _ _ _ hInv.mapNodup hg
      · show (tgtIds ⟨_, _, w.cal.target ++ _, _⟩).Nodup
        simp only [tgtIds, List.map_append]
        rw [List.nodup_append]
        refine ⟨hInv.tgtNodup, by simp, ?_⟩
        intro k hk hk2
        simp only [List.map_cons, List.map_nil, List.mem_cons,
          List.not_mem_nil, or_false] at hk2
        subst hk2
        obtain ⟨q, hq, hq1⟩ := List.mem_map.mp hk
        have := hInv.fresh q hq
        omega
      · intro p hp
        simp only [List.mem_append, List.mem_cons, List.not_mem_nil,
          or_false] at hp
        rcases hp with hp | hp
        · have := hInv.fresh p hp
          simp only
          omega
        · subst hp
          simp
      · intro r hr hrs
        rcases mem_mappingInsert hr with hr' | hr'
        · have := hInv.linked r hr' hrs
          simp only [tgtIds, List.map_append] at this ⊢
          exact List.mem_append.mpr (Or.inl this)
        · unfold mappingInsert at hr
          simp only [List.mem_append, List.mem_cons, List.not_mem_nil,
            or_false] at hr
          rcases hr with hr2 | hr2
          · have := hInv.linked r hr2 hrs
            simp only [tgtIds, List.map_append] at this ⊢
            exact List.mem_append.mpr (Or.inl this)
          · subst hr2
            simp [tgtIds]
      · intro r1 hr1 r2 hr2 hs1 hs2 hne
        unfold mappingInsert at hr1 hr2
        simp only [List.mem_append, List.mem_cons, List.not_mem_nil,
          or_false] at hr1 hr2
        rcases hr1 with hr1 | hr1 <;> rcases hr2 with hr2 | hr2
        · exact hInv.tgtDistinct r1 hr1 r2 hr2 hs1 hs2 hne
        · subst hr2
          have h1 := hInv.linked r1 hr1 hs1
          obtain ⟨q, hq, hq1⟩ := List.mem_map.mp h1
          have := hInv.fresh q hq
          simp only
          omega
        · subst hr1
          have h2 := hInv.linked r2 hr2 hs2
          obtain ⟨q, hq, hq1⟩ := List.mem_map.mp h2
          have := hInv.fresh q hq
          simp only
          omega
        · subst hr1
          subst hr2
          exact absurd rfl hne
    · exact ⟨⟨sub.id, ev.id, w.cal.nextId, ev.etag, _⟩,
        mappingGet_insert_self _ _ _ _ _ _ hg, rfl, rfl⟩
    · intro sid2 srcId2 hne
      exact mappingGet_insert_ne _ _ _ _ _ _ _ _ hne
    · intro r' hr'
      rcases mem_mappingInsert hr' with h | h
      · exact Or.inl ⟨r', h, rfl⟩
      · exact Or.inr h
  | some row =>
    have hmem := mappingGet_mem hg
    by_cases hcond : (row.fingerprint !=
        fingerprintOfPayload d (buildPayloadFromSource ev) ||
        row.etag != ev.etag || force) = true
    · dsimp only
      rw [hcond]
      simp only [if_true]
      have hlink := hInv.linked row hmem.1 hmem.2.1
      rw [show (subCal sub).updateEvent = (honestCal sub.source_calendar_id
        sub.target_calendar_id).updateEvent from rfl,
        honest_update_ok _ _ _ _ _ hlink]
      have hany : w.db.mappings.any (mKey sub.id ev.id) = true :=
        List.any_eq_true.mpr ⟨row, hmem.1, by
          rw [mKey_iff]
          exact ⟨hmem.2.1, hmem.2.2⟩⟩
      refine ⟨⟨0, 1, 0⟩, _, rfl, ?_,
        ⟨rfl, rfl, subs_mappingUpsert _ _ _ _ _ _⟩,
        states_mappingUpsert _ _ _ _ _ _, ?_, ?_, ?_⟩
      · have htgt : tgtIds ⟨w.cal.source, w.cal.curTok,
            w.cal.target.map fun q =>
              if q.1 == row.target_id then (q.1, buildPayloadFromSource ev)
              else q, w.cal.nextId⟩ = tgtIds w.cal := by
          simp only [tgtIds, List.map_map]
          apply List.map_congr_left
          intro q _
          by_cases hq : q.1 == row.target_id <;> simp [Function.comp, hq]
        have hrows : (mappingUpsert w.db sub.id ev.id row.target_id ev.etag
            (fingerprintOfPayload d (buildPayloadFromSource ev))).mappings =
            w.db.mappings.map fun r =>
              if mKey sub.id ev.id r then
                { r with
                  target_id := row.target_id
                  etag := ev.etag
                  fingerprint :=
                    fingerprintOfPayload d (buildPayloadFromSource ev) }
              else r := by
          unfold mappingUpsert
          rw [if_pos hany]
        have hfields : ∀ r ∈ w.db.mappings,
            ((fun r =>
              if mKey sub.id ev.id r then
                { r with
                  target_id := row.target_id
                  etag := ev.etag
                  fingerprint :=
                    fingerprintOfPayload d (buildPayloadFromSource ev) }
              else r) r).subscription_id = r.subscription_id ∧
            ((fun r =>
              if mKey sub.id ev.id r then
                { r with
                  target_id := row.target_id
                  etag := ev.etag
                  fingerprint :=
                    fingerprintOfPayload d (buildPayloadFromSource ev) }
              else r) r).target_id = r.target_id := by
          intro r hr
          by_cases hk : mKey sub.id ev.id r = true
          · have hkk := (mKey_iff _ _ _).mp hk
            have : r = row := by
              apply List.inj_on_of_nodup_map hInv.mapNodup hr hmem.1
              simp [mapKey, hkk.1, hkk.2, hmem.2.1, hmem.2.2]
            subst this
            simp [hk]
          · simp [hk]
        constructor
        · exact mapNodup_mappingUpsert _ _ _ _ _ hInv.mapNodup
        · rw [htgt]
          exact hInv.tgtNodup
        · intro p hp
          simp only [List.mem_map] at hp
          obtain ⟨q, hq, hqe⟩ := hp
          have := hInv.fresh q hq
          subst hqe
          by_cases hq1 : q.1 == row.target_id <;> simp [hq1] <;> omega
        · intro r hr hrs
          rw [htgt]
          rw [hrows] at hr
          simp only [List.mem_map] at hr
          obtain ⟨r0, hr0, hre⟩ := hr
          have hf := hfields r0 hr0
          subst hre
          rw [hf.2]
          apply hInv.linked r0 hr0
          rw [← hf.1]
          exact hrs
        · intro r1 hr1 r2 hr2 hs1 hs2 hne
          rw [hrows] at hr1 hr2
          simp only [List.mem_map] at hr1 hr2
          obtain ⟨r10, hr10, hre1⟩ := hr1
          obtain ⟨r20, hr20, hre2⟩ := hr2
          have hf1 := hfields r10 hr10
          have hf2 := hfields r20 hr20
          subst hre1
          subst hre2
          rw [hf1.2, hf2.2]
          apply hInv.tgtDistinct r10 hr10 r20 hr20
          · rw [← hf1.1]; exact hs1
          · rw [← hf2.1]; exact hs2
          · intro hcontra
            exact hne (by rw [hcontra])
      · obtain ⟨r', hr', _, _, _, he', hf'⟩ :=
          mappingGet_upsert_self w.db sub.id ev.id row.target_id ev.etag
            (fingerprintOfPayload d (buildPayloadFromSource ev))
        exact ⟨r', hr', he', hf'⟩
      · intro sid2 srcId2 hne
        exact mappingGet_upsert_ne _ _ _ _ _ _ _ _ hne
      · intro r' hr'
        exact mem_mappingUpsert hr'
    · have hfalse : (row.fingerprint !=
          fingerprintOfPayload d (buildPayloadFromSource ev) ||
          row.etag != ev.etag || force) = false :=
        Bool.eq_false_iff.mpr hcond
      obtain ⟨⟨hfp, hetag⟩, _⟩ :
          (row.fingerprint =
            fingerprintOfPayload d (buildPayloadFromSource ev) ∧
          row.etag = ev.etag) ∧ force = false := by
        simpa [bne] using hfalse
      dsimp only
      rw [hfalse]
      simp only [Bool.false_eq_true, if_false]
      exact ⟨⟨0, 0, 0⟩, w, rfl, hInv, ⟨rfl, rfl, rfl⟩, rfl,
        ⟨row, hg, hetag, hfp⟩, fun _ _ _ => rfl,
        fun r' hr' => Or.inl ⟨r', hr', rfl⟩⟩

/-- `upsertTarget` is a strict no-op (identical world, zero counts)
when the event is already mapped with current etag and fingerprint and
no force flag is set. -/
theorem upsert_noop (cal : Cal) (d : Json → String) (sid : Nat)
    (tgtCal : String) (ev : SEvent) (w : W)
    (hrow : GoodRow d w.db sid ev) :
    upsertTarget cal d sid tgtCal ev false w = (.ok ⟨0, 0, 0⟩, w) := by
  obtain ⟨r, hg, he, hf⟩ := hrow
  unfold upsertTarget
  dsimp only
  rw [hg]
  dsimp only
  have : (r.fingerprint !=
      fingerprintOfPayload d (buildPayloadFromSource ev) ||
      r.etag != ev.etag || false) = false := by
    simp [bne, he, hf]
  rw [this]
  simp

/-- `removeTarget` on the honest provider always succeeds under the run
invariant, preserves it, deletes the mapping for the key (if any) and
nothing else, and leaves states untouched. -/
theorem remove_spec (sub : Subscription) (srcId : String) (w : W)
    (hInv : Inv sub w) :
    ∃ n w', removeTarget (subCal sub) sub.id sub.target_calendar_id
        srcId w = (.ok n, w') ∧
      Inv sub w' ∧ Evolves w w' ∧ w'.db.states = w.db.states ∧
      mappingGet w'.db sub.id srcId = none ∧
      (∀ sid2 srcId2, ¬(sid2 = sub.id ∧ srcId2 = srcId) →
        mappingGet w'.db sid2 srcId2 = mappingGet w.db sid2 srcId2) ∧
      (∀ r' ∈ w'.db.mappings, r' ∈ w.db.mappings) := by
  unfold removeTarget
  cases hg : mappingGet w.db sub.id srcId with
  | none =>
    exact ⟨0, w, rfl, hInv, ⟨rfl, rfl, rfl⟩, rfl, hg,
      fun _ _ _ => rfl, fun _ h => h⟩
  | some row =>
    dsimp only
    have hmem := mappingGet_mem hg
    have hlink := hInv.linked row hmem.1 hmem.2.1
    rw [show (subCal sub).deleteEvent = (honestCal sub.source_calendar_id
      sub.target_calendar_id).deleteEvent from rfl,
      honest_delete_ok _ _ _ _ hlink]
    refine ⟨1, _, rfl, ?_, ⟨rfl, rfl, subs_mappingDelete _ _ _⟩,
      states_mappingDelete _ _ _, mappingGet_delete_self _ _ _,
      fun sid2 srcId2 hne => mappingGet_delete_ne _ _ _ _ _ hne,
      fun r' hr' => mem_mappingDelete hr'⟩
    constructor
    · exact mapNodup_mappingDelete _ _ hInv.mapNodup
    · show (tgtIds ⟨_, _, w.cal.target.filter _, _⟩).Nodup
      simp only [tgtIds]
      exact ((List.filter_sublist _).map Prod.fst).nodup hInv.tgtNodup
    · intro p hp
      exact hInv.fresh p (List.mem_of_mem_filter hp)
    · intro r hr hrs
      have hrmem := mem_mappingDelete hr
      have hlk := hInv.linked r hrmem hrs
      obtain ⟨q, hq, hq1⟩ := List.mem_map.mp hlk
      have hrne : r ≠ row := by
        intro hcontra
        subst hcontra
        unfold mappingDelete at hr
        have hnk := List.of_mem_filter hr
        have hkey : mKey sub.id srcId r = true :=
          (mKey_iff _ _ _).mpr ⟨hmem.2.1, hmem.2.2⟩
        simp [hkey] at hnk
      have hdt := hInv.tgtDistinct r hrmem row hmem.1 hrs hmem.2.1 hrne
      show r.target_id ∈ tgtIds ⟨_, _, w.cal.target.filter _, _⟩
      simp only [tgtIds]
      apply List.mem_map.mpr
      refine ⟨q, List.mem_filter.mpr ⟨hq, ?_⟩, hq1⟩
      simp [hq1, hdt]
    · intro r1 hr1 r2 hr2 hs1 hs2 hne
      exact hInv.tgtDistinct r1 (mem_mappingDelete hr1) r2
        (mem_mappingDelete hr2) hs1 hs2 hne

theorem evolves_refl (w : W) : Evolves w w := ⟨rfl, rfl, rfl⟩

theorem evolves_trans {w1 w2 w3 : W} (h1 : Evolves w1 w2)
    (h2 : Evolves w2 w3) : Evolves w1 w3 :=
  ⟨h2.1.trans h1.1, h2.2.1.trans h1.2.1, h2.2.2.trans h1.2.2⟩

theorem mappings_saveState (db : Db) (sid : Nat) (now : Int)
    (ptok : Option String) (prun : Option Int) (pstat : Option String) :
    (saveState db sid now ptok prun pstat).mappings = db.mappings := by
  unfold saveState
  by_cases h : (db.states.any fun r => r.subscription_id == sid) = true <;>
    simp [h]

theorem subs_saveState (db : Db) (sid : Nat) (now : Int)
    (ptok : Option String) (prun : Option Int) (pstat : Option String) :
    (saveState db sid now ptok prun pstat).subscriptions =
      db.subscriptions := by
  unfold saveState
  by_cases h : (db.states.any fun r => r.subscription_id == sid) = true <;>
    simp [h]

theorem honest_instancesOf (S T : String) (mid : String)
    (tmin tmax : Option Int) (c : CalState) :
    (honestCal S T).instancesOf S mid tmin tmax c =
      .ok (c.source.filter fun e =>
        e.recurringEventId == some mid && inWinB tmin tmax e &&
          e.status != "cancelled", c) := by
  simp [honestCal]

theorem honest_listChanges_full (S T : String) (c : CalState) :
    listChanges (honestCal S T) S none c =
      .ok ({ items := c.source, nextSyncToken := some c.curTok }, c) := by
  simp [listChanges, honestCal]

theorem honest_listChanges_tok (S T : String) (c : CalState) :
    listChanges (honestCal S T) S (some c.curTok) c =
      .ok ({ items := [], nextSyncToken := some c.curTok }, c) := by
  simp [listChanges, honestCal]

theorem honest_listWindow (S T : String) (tmin tmax : Int) (c : CalState) :
    (honestCal S T).listEvents
      { calendarId := S
        syncToken := none
        singleEvents := true
        showDeleted := false
        timeMin := some tmin
        timeMax := some tmax } c =
      .ok
        ({ items :=
              List.filter (fun e => e.status != "cancelled")
                (List.filter
                  (fun e =>
                    isInstanceOrSingle e && inWinB (some tmin) (some tmax) e)
                  c.source)
           nextSyncToken := some c.curTok }, c) := by
  simp [honestCal]

/-! ### Loop specifications -/

/-- The master-refresh instance loop: succeeds under the invariant,
preserves it, and adds rows only for listed instance-or-single
instances. -/
theorem refreshLoop_spec (cfg : Config) (sub : Subscription)
    (mtch : EvView → Bool) :
    ∀ (insts : List SEvent) (acc : RunCounts) (w : W), Inv sub w →
    ∃ acc' w', refreshLoop (subCal sub) cfg sub mtch insts acc w =
        (.ok acc', w') ∧
      Inv sub w' ∧ Evolves w w' ∧ w'.db.states = w.db.states ∧
      (∀ r' ∈ w'.db.mappings, (∃ r ∈ w.db.mappings, mapKey r' = mapKey r) ∨
        (r'.subscription_id = sub.id ∧ ∃ ev ∈ insts,
          ev.id = r'.source_id ∧ isInstanceOrSingle ev = true)) := by
  intro insts
  induction insts with
  | nil =>
    intro acc w hInv
    exact ⟨acc, w, rfl, hInv, evolves_refl w, rfl,
      fun r' hr' => Or.inl ⟨r', hr', rfl⟩⟩
  | cons inst rest ih =>
    intro acc w hInv
    unfold refreshLoop
    by_cases hios : isInstanceOrSingle inst = true
    · rw [if_neg (by simp [hios])]
      by_cases hm : mtch (viewOfS inst) = true
      · rw [if_pos hm]
        obtain ⟨cnt1, w1, heq1, hInv1, hev1, hst1, hgood1, hgetne1, horig1⟩ :=
          upsert_spec cfg.digest sub inst true w hInv
        rw [heq1]
        dsimp only
        obtain ⟨acc', w2, heq2, hInv2, hev2, hst2, horig2⟩ :=
          ih ⟨acc.created + cnt1.created, acc.updated + cnt1.updated,
            acc.removed⟩ w1 hInv1
        rw [heq2]
        refine ⟨acc', w2, rfl, hInv2, evolves_trans hev1 hev2,
          hst2.trans hst1, ?_⟩
        intro r' hr'
        rcases horig2 r' hr' with ⟨r1, hr1, hk1⟩ | ⟨hs, ev, hev, hevid, hios2⟩
        · rcases horig1 r1 hr1 with ⟨r0, hr0, hk0⟩ | ⟨hs1, hsrc1⟩
          · exact Or.inl ⟨r0, hr0, hk1.trans hk0⟩
          · right
            have h1 : r'.subscription_id = sub.id := by
              have := congrArg Prod.fst hk1
              simp [mapKey] at this
              rw [this, hs1]
            have h2 : r'.source_id = inst.id := by
              have := congrArg Prod.snd hk1
              simp [mapKey] at this
              rw [this, hsrc1]
            exact ⟨h1, inst, List.mem_cons_self _ _, h2.symm, hios⟩
        · exact Or.inr ⟨hs, ev, List.mem_cons_of_mem _ hev, hevid, hios2⟩
      · rw [if_neg hm]
        obtain ⟨n1, w1, heq1, hInv1, hev1, hst1, hnone1, hget1, hsub1⟩ :=
          remove_spec sub inst.id w hInv
        rw [heq1]
        dsimp only
        obtain ⟨acc', w2, heq2, hInv2, hev2, hst2, horig2⟩ :=
          ih ⟨acc.created, acc.updated, acc.removed + n1⟩ w1 hInv1
        rw [heq2]
        refine ⟨acc', w2, rfl, hInv2, evolves_trans hev1 hev2,
          hst2.trans hst1, ?_⟩
        intro r' hr'
        rcases horig2 r' hr' with ⟨r1, hr1, hk1⟩ | hnew
        · exact Or.inl ⟨r1, hsub1 r1 hr1, hk1⟩
        · obtain ⟨hs, ev, hev, hevid, hios2⟩ := hnew
          exact Or.inr ⟨hs, ev, List.mem_cons_of_mem _ hev, hevid, hios2⟩
    · rw [if_pos (by simp [Bool.eq_false_iff.mpr hios])]
      obtain ⟨acc', w2, heq2, hInv2, hev2, hst2, horig2⟩ := ih acc w hInv
      rw [heq2]
      refine ⟨acc', w2, rfl, hInv2, hev2, hst2, ?_⟩
      intro r' hr'
      rcases horig2 r' hr' with h | ⟨hs, ev, hev, hevid, hios2⟩
      · exact Or.inl h
      · exact Or.inr ⟨hs, ev, List.mem_cons_of_mem _ hev, hevid, hios2⟩

/-- `refreshSeriesForMasterChange` on the honest provider: succeeds,
preserves the invariant, and adds rows only for instance-or-single
source events. -/
theorem refreshSeries_spec (cfg : Config) (sub : Subscription)
    (mtch : EvView → Bool) (masterEv : SEvent) (w : W) (hInv : Inv sub w) :
    ∃ acc' w', refreshSeriesForMasterChange (subCal sub) cfg sub masterEv
        mtch w = (.ok acc', w') ∧
      Inv sub w' ∧ Evolves w w' ∧ w'.db.states = w.db.states ∧
      (∀ r' ∈ w'.db.mappings, (∃ r ∈ w.db.mappings, mapKey r' = mapKey r) ∨
        (r'.subscription_id = sub.id ∧ ∃ ev ∈ w.cal.source,
          ev.id = r'.source_id ∧ isInstanceOrSingle ev = true)) := by
  unfold refreshSeriesForMasterChange
  rw [show (subCal sub).instancesOf = (honestCal sub.source_calendar_id
    sub.target_calendar_id).instancesOf from rfl, honest_instancesOf]
  dsimp only
  obtain ⟨acc', w', heq, hInv', hev, hst, horig⟩ :=
    refreshLoop_spec cfg sub mtch
      (List.filter (fun e => e.recurringEventId == some masterEv.id &&
        inWinB (some (windowTimeMin cfg)) (some (windowTimeMax cfg)) e &&
        e.status != "cancelled") w.cal.source) ⟨0, 0, 0⟩ w hInv
  rw [heq]
  refine ⟨acc', w', rfl, hInv', hev, hst, ?_⟩
  intro r' hr'
  rcases horig r' hr' with h | ⟨hs, ev, hev2, hevid, hios⟩
  · exact Or.inl h
  · exact Or.inr ⟨hs, ev, List.mem_of_mem_filter hev2, hevid, hios⟩

/-! ### Small transport lemmas -/

theorem mappingGet_congr {db1 db2 : Db} (h : db1.mappings = db2.mappings)
    (sid : Nat) (srcId : String) :
    mappingGet db1 sid srcId = mappingGet db2 sid srcId := by
  unfold mappingGet
  rw [h]

theorem statesGet_congr {db1 db2 : Db} (h : db1.states = db2.states)
    (sid : Nat) : statesGet db1 sid = statesGet db2 sid := by
  unfold statesGet
  rw [h]

theorem goodRow_congr {d : Json → String} {db1 db2 : Db}
    (h : db1.mappings = db2.mappings) {sid : Nat} {ev : SEvent}
    (hg : GoodRow d db1 sid ev) : GoodRow d db2 sid ev := by
  obtain ⟨r, hr, he, hf⟩ := hg
  exact ⟨r, (mappingGet_congr h.symm _ _).trans hr, he, hf⟩

theorem srcWF_congr {c1 c2 : CalState} (h : c1.source = c2.source)
    (hs : SrcWF c1) : SrcWF c2 := by
  unfold SrcWF at hs ⊢
  rw [← h]
  exact hs

theorem inv_congr {sub : Subscription} {w w' : W} (hInv : Inv sub w)
    (hcal : w'.cal = w.cal) (hmap : w'.db.mappings = w.db.mappings) :
    Inv sub w' := by
  constructor
  · rw [hmap]
    exact hInv.mapNodup
  · rw [hcal]
    exact hInv.tgtNodup
  · rw [hcal]
    exact hInv.fresh
  · intro r hr hs
    rw [hcal]
    exact hInv.linked r (hmap ▸ hr) hs
  · intro r1 hr1 r2 hr2
    exact hInv.tgtDistinct r1 (hmap ▸ hr1) r2 (hmap ▸ hr2)

theorem tgtCovered_congr {flag : Bool} {mtch : EvView → Bool} {w w' : W}
    {sid : Nat} (hcal : w'.cal = w.cal)
    (hmap : w'.db.mappings = w.db.mappings)
    (h : TgtCovered flag mtch w sid) : TgtCovered flag mtch w' sid := by
  intro p hp
  rcases h p (hcal ▸ hp) with ⟨r, hr, h1, h2⟩ | hprot
  · exact Or.inl ⟨r, hmap ▸ hr, h1, h2⟩
  · exact Or.inr hprot

theorem find_id_of_nodup (ev : SEvent) :
    ∀ (l : List SEvent), (l.map SEvent.id).Nodup → ev ∈ l →
      l.find? (fun e => e.id == ev.id) = some ev
  | [], _, hm => absurd hm (List.not_mem_nil _)
  | a :: l, hn, hm => by
    rcases List.mem_cons.mp hm with h | h
    · subst h
      rw [List.find?_cons_of_pos _ (by simp)]
    · have hnd : ((a :: l).map SEvent.id).Nodup := hn
      simp only [List.map_cons, List.nodup_cons] at hnd
      have hne : ¬(a.id == ev.id) = true := by
        simp only [beq_iff_eq]
        intro hcontra
        exact hnd.1 (hcontra ▸ List.mem_map.mpr ⟨ev, h, rfl⟩)
      rw [@List.find?_cons_of_neg _ (fun e => e.id == ev.id) a l hne]
      exact find_id_of_nodup ev l hnd.2 h

theorem findById_of_mem {c : CalState} (hs : SrcWF c) {ev : SEvent}
    (h : ev ∈ c.source) : findById c ev.id = some ev :=
  find_id_of_nodup ev c.source hs h

theorem src_id_inj {c : CalState} (hs : SrcWF c) {e1 e2 : SEvent}
    (h1 : e1 ∈ c.source) (h2 : e2 ∈ c.source) (h : e1.id = e2.id) :
    e1 = e2 :=
  List.inj_on_of_nodup_map hs h1 h2 h

theorem badSrcB_congr {c1 c2 : CalState} (h : c1.source = c2.source)
    (mtch : EvView → Bool) (srcId : String) :
    BadSrcB c1 mtch srcId = BadSrcB c2 mtch srcId := by
  unfold BadSrcB findById
  rw [h]

theorem mappingGet_none_of_subset {db1 db2 : Db}
    (hsub : ∀ r ∈ db2.mappings, r ∈ db1.mappings) {sid : Nat}
    {srcId : String} (h : mappingGet db1 sid srcId = none) :
    mappingGet db2 sid srcId = none :=
  mappingGet_eq_none.mpr fun r hr => mappingGet_eq_none.mp h r (hsub r hr)

theorem mappingGet_isSome_of_mem {db : Db} {r : MapRow}
    (hr : r ∈ db.mappings) {sid : Nat} {srcId : String}
    (h1 : r.subscription_id = sid) (h2 : r.source_id = srcId) :
    mappingGet db sid srcId ≠ none := fun h =>
  mappingGet_eq_none.mp h r hr ⟨h1, h2⟩

theorem badSrcB_false_elim {c : CalState} {mtch : EvView → Bool}
    {srcId : String} (h : BadSrcB c mtch srcId = false) :
    ∃ ev, findById c srcId = some ev ∧ ev ∈ c.source ∧ ev.id = srcId ∧
      GoodEv mtch ev := by
  unfold BadSrcB at h
  cases hf : findById c srcId with
  | none =>
    rw [hf] at h
    simp at h
  | some ev =>
    rw [hf] at h
    simp only [Bool.or_eq_false_iff, Bool.not_eq_false] at h
    obtain ⟨⟨hc, hmast⟩, hmm⟩ := h
    have hmem : ev ∈ c.source := List.mem_of_find?_eq_some hf
    have hid : ev.id = srcId := by
      have := List.find?_some hf
      simpa using this
    refine ⟨ev, rfl, hmem, hid, ?_, ?_, ?_⟩
    · intro hcontra
      simp [hcontra] at hc
    · rw [isInstanceOrSingle_eq_not_master, hmast]
      rfl
    · simpa using hmm

theorem badSrcB_false_of_good {c : CalState} {mtch : EvView → Bool}
    (hs : SrcWF c) {ev : SEvent} (hmem : ev ∈ c.source)
    (hg : GoodEv mtch ev) : BadSrcB c mtch ev.id = false := by
  obtain ⟨h1, h2, h3⟩ := hg
  have hmast : isRecurringMaster ev = false := by
    rw [isInstanceOrSingle_eq_not_master] at h2
    cases hm : isRecurringMaster ev
    · rfl
    · rw [hm] at h2
      exact absurd h2 (by simp)
  unfold BadSrcB
  rw [findById_of_mem hs hmem]
  simp [h1, hmast, h3]

/-- The backfill item loop: succeeds under the invariant, preserves it,
touches no mapping key outside the listed events, leaves a current row
for every listed matching instance-or-single (given duplicate-free
listed ids), and adds rows only for listed instance-or-single
events. -/
theorem bfLoop_spec (d : Json → String) (sub : Subscription)
    (mtch : EvView → Bool) :
    ∀ (items : List SEvent), (items.map SEvent.id).Nodup →
    ∀ (acc : Nat × Nat) (w : W), Inv sub w →
    ∃ acc' w', bfLoop (subCal sub) d sub mtch items acc w =
        (.ok acc', w') ∧
      Inv sub w' ∧ Evolves w w' ∧ w'.db.states = w.db.states ∧
      (∀ sid2 srcId2, (∀ ev ∈ items, ¬(sid2 = sub.id ∧ srcId2 = ev.id)) →
        mappingGet w'.db sid2 srcId2 = mappingGet w.db sid2 srcId2) ∧
      (∀ ev ∈ items, isInstanceOrSingle ev = true →
        mtch (viewOfS ev) = true → GoodRow d w'.db sub.id ev) ∧
      (∀ r' ∈ w'.db.mappings, (∃ r ∈ w.db.mappings, mapKey r' = mapKey r) ∨
        (r'.subscription_id = sub.id ∧ ∃ ev ∈ items,
          ev.id = r'.source_id ∧ isInstanceOrSingle ev = true)) := by
  intro items
  induction items with
  | nil =>
    intro _ acc w hInv
    exact ⟨acc, w, rfl, hInv, evolves_refl w, rfl, fun _ _ _ => rfl,
      fun _ h => absurd h (List.not_mem_nil _),
      fun r' hr' => Or.inl ⟨r', hr', rfl⟩⟩
  | cons ev rest ih =>
    intro hnd acc w hInv
    have hnd' : (rest.map SEvent.id).Nodup := by
      simp only [List.map_cons, List.nodup_cons] at hnd
      exact hnd.2
    have hidne : ev.id ∉ rest.map SEvent.id := by
      simp only [List.map_cons, List.nodup_cons] at hnd
      exact hnd.1
    unfold bfLoop
    by_cases hios : isInstanceOrSingle ev = true
    · rw [if_neg (by simp [hios])]
      by_cases hm : mtch (viewOfS ev) = true
      · rw [if_pos hm]
        obtain ⟨cnt1, w1, heq1, hInv1, hev1, hst1, hgood1, hgetne1, horig1⟩ :=
          upsert_spec d sub ev false w hInv
        rw [heq1]
        dsimp only
        obtain ⟨acc', w2, heq2, hInv2, hev2, hst2, hget2, hgr2, horig2⟩ :=
          ih hnd' (acc.1 + cnt1.created, acc.2 + cnt1.updated) w1 hInv1
        rw [heq2]
        refine ⟨acc', w2, rfl, hInv2, evolves_trans hev1 hev2,
          hst2.trans hst1, ?_, ?_, ?_⟩
        · intro sid2 srcId2 hni
          have h2 := hget2 sid2 srcId2
            (fun e he => hni e (List.mem_cons_of_mem _ he))
          have h1 := hgetne1 sid2 srcId2 (hni ev (List.mem_cons_self _ _))
          exact h2.trans h1
        · intro e he hi hmm
          rcases List.mem_cons.mp he with he | he
          · subst he
            obtain ⟨r, hr, hre, hrf⟩ := hgood1
            refine ⟨r, ?_, hre, hrf⟩
            rw [hget2 sub.id e.id ?_]
            · exact hr
            · intro e2 he2 hcon
              exact hidne (hcon.2 ▸ List.mem_map.mpr ⟨e2, he2, rfl⟩)
          · exact hgr2 e he hi hmm
        · intro r' hr'
          rcases horig2 r' hr' with ⟨r1, hr1, hk1⟩ | ⟨hs, e, hee, heid, hi⟩
          · rcases horig1 r1 hr1 with ⟨r0, hr0, hk0⟩ | ⟨hs1, hsrc1⟩
            · exact Or.inl ⟨r0, hr0, hk1.trans hk0⟩
            · right
              have h1 : r'.subscription_id = sub.id := by
                have := congrArg Prod.fst hk1
                simp [mapKey] at this
                rw [this, hs1]
              have h2 : r'.source_id = ev.id := by
                have := congrArg Prod.snd hk1
                simp [mapKey] at this
                rw [this, hsrc1]
              exact ⟨h1, ev, List.mem_cons_self _ _, h2.symm, hios⟩
          · exact Or.inr ⟨hs, e, List.mem_cons_of_mem _ hee, heid, hi⟩
      · rw [if_neg hm]
        obtain ⟨acc', w2, heq2, hInv2, hev2, hst2, hget2, hgr2, horig2⟩ :=
          ih hnd' acc w hInv
        refine ⟨acc', w2, heq2, hInv2, hev2, hst2, ?_, ?_, ?_⟩
        · intro sid2 srcId2 hni
          exact hget2 sid2 srcId2
            (fun e he => hni e (List.mem_cons_of_mem _ he))
        · intro e he hi hmm
          rcases List.mem_cons.mp he with he | he
          · subst he
            exact absurd hmm hm
          · exact hgr2 e he hi hmm
        · intro r' hr'
          rcases horig2 r' hr' with h | ⟨hs, e, hee, heid, hi⟩
          · exact Or.inl h
          · exact Or.inr ⟨hs, e, List.mem_cons_of_mem _ hee, heid, hi⟩
    · rw [if_pos (by simp [Bool.eq_false_iff.mpr hios])]
      obtain ⟨acc', w2, heq2, hInv2, hev2, hst2, hget2, hgr2, horig2⟩ :=
        ih hnd' acc w hInv
      refine ⟨acc', w2, heq2, hInv2, hev2, hst2, ?_, ?_, ?_⟩
      · intro sid2 srcId2 hni
        exact hget2 sid2 srcId2
          (fun e he => hni e (List.mem_cons_of_mem _ he))
      · intro e he hi hmm
        rcases List.mem_cons.mp he with he | he
        · subst he
          exact absurd hi hios
        · exact hgr2 e he hi hmm
      · intro r' hr'
        rcases horig2 r' hr' with h | ⟨hs, e, hee, heid, hi⟩
        · exact Or.inl h
        · exact Or.inr ⟨hs, e, List.mem_cons_of_mem _ hee, heid, hi⟩

/-- When every listed matching instance already has a current row, the
backfill loop does nothing. -/
theorem bfLoop_noop (d : Json → String) (sub : Subscription)
    (mtch : EvView → Bool) :
    ∀ (items : List SEvent) (acc : Nat × Nat) (w : W),
    (∀ ev ∈ items, isInstanceOrSingle ev = true →
      mtch (viewOfS ev) = true → GoodRow d w.db sub.id ev) →
    bfLoop (subCal sub) d sub mtch items acc w = (.ok acc, w)
  | [], acc, w, _ => rfl
  | ev :: rest, acc, w, h => by
    unfold bfLoop
    by_cases hios : isInstanceOrSingle ev = true
    · rw [if_neg (by simp [hios])]
      by_cases hm : mtch (viewOfS ev) = true
      · rw [if_pos hm, upsert_noop (subCal sub) d sub.id
          sub.target_calendar_id ev w (h ev (List.mem_cons_self _ _) hios hm)]
        dsimp only
        rw [bfLoop_noop d sub mtch rest (acc.1 + 0, acc.2 + 0) w
          (fun e he => h e (List.mem_cons_of_mem _ he))]
        simp
      · rw [if_neg hm]
        exact bfLoop_noop d sub mtch rest acc w
          (fun e he => h e (List.mem_cons_of_mem _ he))
    · rw [if_pos (by simp [Bool.eq_false_iff.mpr hios])]
      exact bfLoop_noop d sub mtch rest acc w
        (fun e he => h e (List.mem_cons_of_mem _ he))

/-- `backfillWindow` on the honest provider: succeeds, preserves the
invariant, leaves a current row for every non-cancelled matching
instance-or-single source event inside the window, and adds rows only
for instance-or-single source events. -/
theorem backfillWindow_spec (cfg : Config) (sub : Subscription)
    (mtch : EvView → Bool) (w : W) (hInv : Inv sub w)
    (hs : SrcWF w.cal) :
    ∃ p w', backfillWindow (subCal sub) cfg sub mtch w = (.ok p, w') ∧
      Inv sub w' ∧ Evolves w w' ∧ w'.db.states = w.db.states ∧
      (∀ ev ∈ w.cal.source, GoodEv mtch ev →
        inWinB (some (windowTimeMin cfg)) (some (windowTimeMax cfg)) ev =
          true →
        GoodRow cfg.digest w'.db sub.id ev) ∧
      (∀ r' ∈ w'.db.mappings, (∃ r ∈ w.db.mappings, mapKey r' = mapKey r) ∨
        (r'.subscription_id = sub.id ∧ ∃ ev ∈ w.cal.source,
          ev.id = r'.source_id ∧ isInstanceOrSingle ev = true)) := by
  unfold backfillWindow
  rw [show (subCal sub).listEvents = (honestCal sub.source_calendar_id
    sub.target_calendar_id).listEvents from rfl, honest_listWindow]
  dsimp only
  have hnd : ((List.filter (fun e => e.status != "cancelled")
      (List.filter (fun e => isInstanceOrSingle e &&
        inWinB (some (windowTimeMin cfg)) (some (windowTimeMax cfg)) e)
        w.cal.source)).map SEvent.id).Nodup := by
    refine List.Sublist.nodup (List.Sublist.map SEvent.id ?_) hs
    exact (List.filter_sublist _).trans (List.filter_sublist _)
  obtain ⟨acc', w', heq, hInv', hev, hst, hget, hgr, horig⟩ :=
    bfLoop_spec cfg.digest sub mtch
      (List.filter (fun e => e.status != "cancelled")
        (List.filter (fun e => isInstanceOrSingle e &&
          inWinB (some (windowTimeMin cfg)) (some (windowTimeMax cfg)) e)
          w.cal.source)) hnd (0, 0) w hInv
  rw [heq]
  have hmemItems : ∀ ev ∈ w.cal.source, GoodEv mtch ev →
      inWinB (some (windowTimeMin cfg)) (some (windowTimeMax cfg)) ev =
        true →
      ev ∈ List.filter (fun e => e.status != "cancelled")
        (List.filter (fun e => isInstanceOrSingle e &&
          inWinB (some (windowTimeMin cfg)) (some (windowTimeMax cfg)) e)
          w.cal.source) := by
    intro ev hev hg hw
    obtain ⟨h1, h2, h3⟩ := hg
    refine List.mem_filter.mpr ⟨List.mem_filter.mpr ⟨hev, ?_⟩, ?_⟩
    · rw [h2, hw]
      rfl
    · simp only [bne_iff_ne, ne_eq, decide_not]
      simpa using h1
  refine ⟨acc', w', rfl, hInv', hev, hst, ?_, ?_⟩
  · intro ev hev2 hg hw
    exact hgr ev (hmemItems ev hev2 hg hw) hg.2.1 hg.2.2
  · intro r' hr'
    rcases horig r' hr' with h | ⟨hsid, e, hee, heid, hi⟩
    · exact Or.inl h
    · exact Or.inr ⟨hsid, e,
        List.mem_of_mem_filter (List.mem_of_mem_filter hee), heid, hi⟩

/-- When every matching in-window source event already has a current
row, the backfill pass does nothing. -/
theorem backfillWindow_noop (cfg : Config) (sub : Subscription)
    (mtch : EvView → Bool) (w : W)
    (h : ∀ ev ∈ w.cal.source, GoodEv mtch ev →
      inWinB (some (windowTimeMin cfg)) (some (windowTimeMax cfg)) ev =
        true →
      GoodRow cfg.digest w.db sub.id ev) :
    backfillWindow (subCal sub) cfg sub mtch w = (.ok (0, 0), w) := by
  unfold backfillWindow
  rw [show (subCal sub).listEvents = (honestCal sub.source_calendar_id
    sub.target_calendar_id).listEvents from rfl, honest_listWindow]
  dsimp only
  apply bfLoop_noop
  intro ev hev hi hm
  have h2 := List.mem_filter.mp hev
  have h3 := List.mem_filter.mp h2.1
  have hcond := h3.2
  rw [Bool.and_eq_true] at hcond
  refine h ev h3.1 ⟨?_, hi, hm⟩ hcond.2
  have := h2.2
  simp only [bne_iff_ne, ne_eq, decide_not] at this
  simpa using this

/-- The prune loop over a snapshot of mapping rows: succeeds under the
invariant, preserves it, only ever deletes rows, removes the mapping of
every processed row whose source is gone/cancelled/a recurring
master/no longer matching, and leaves the subscription's other keys
untouched. -/
theorem pruneLoop_spec (sub : Subscription) (mtch : EvView → Bool) :
    ∀ (rows : List MapRow) (n : Nat) (w : W), Inv sub w →
    ∃ n' w', pruneLoop (subCal sub) sub mtch rows n w = (.ok n', w') ∧
      Inv sub w' ∧ Evolves w w' ∧ w'.db.states = w.db.states ∧
      (∀ r' ∈ w'.db.mappings, r' ∈ w.db.mappings) ∧
      (∀ r ∈ rows, BadSrcB w.cal mtch r.source_id = true →
        mappingGet w'.db sub.id r.source_id = none) ∧
      (∀ srcId, BadSrcB w.cal mtch srcId = false →
        mappingGet w'.db sub.id srcId = mappingGet w.db sub.id srcId) := by
  intro rows
  induction rows with
  | nil =>
    intro n w hInv
    exact ⟨n, w, rfl, hInv, evolves_refl w, rfl, fun _ h => h,
      fun _ h => absurd h (List.not_mem_nil _), fun _ _ => rfl⟩
  | cons row rest ih =>
    intro n w hInv
    unfold pruneLoop
    rw [show (subCal sub).getEvent = (honestCal sub.source_calendar_id
      sub.target_calendar_id).getEvent from rfl, honest_getEvent]
    cases hfind : findById w.cal row.source_id with
    | some ev =>
      dsimp only
      have hbadEq : BadSrcB w.cal mtch row.source_id =
          (ev.status == "cancelled" || isRecurringMaster ev ||
            !mtch (viewOfS ev)) := by
        unfold BadSrcB
        rw [hfind]
      by_cases hbad : (ev.status == "cancelled" || isRecurringMaster ev ||
          !mtch (viewOfS ev)) = true
      · rw [if_pos hbad]
        obtain ⟨n1, w1, heq1, hInv1, hev1, hst1, hnone1, hget1, hsub1⟩ :=
          remove_spec sub row.source_id w hInv
        rw [heq1]
        dsimp only
        obtain ⟨n', w2, heq2, hInv2, hev2, hst2, hsub2, hgone2, hkeep2⟩ :=
          ih (n + n1) w1 hInv1
        rw [heq2]
        refine ⟨n', w2, rfl, hInv2, evolves_trans hev1 hev2,
          hst2.trans hst1, fun r' hr' => hsub1 r' (hsub2 r' hr'), ?_, ?_⟩
        · intro r hr hb
          rcases List.mem_cons.mp hr with hr | hr
          · subst hr
            exact mappingGet_none_of_subset hsub2 hnone1
          · exact hgone2 r hr
              ((badSrcB_congr hev1.1 mtch r.source_id).trans hb)
        · intro srcId hgd
          have hne : srcId ≠ row.source_id := by
            intro hcontra
            rw [hcontra, hbadEq] at hgd
            rw [hgd] at hbad
            exact Bool.false_ne_true hbad
          have hk1 := hget1 sub.id srcId (fun hc => hne hc.2)
          have hk2 := hkeep2 srcId
            ((badSrcB_congr hev1.1 mtch srcId).trans hgd)
          exact hk2.trans hk1
      · rw [if_neg hbad]
        obtain ⟨n', w2, heq2, hInv2, hev2, hst2, hsub2, hgone2, hkeep2⟩ :=
          ih n w hInv
        refine ⟨n', w2, heq2, hInv2, hev2, hst2, hsub2, ?_, hkeep2⟩
        intro r hr hb
        rcases List.mem_cons.mp hr with hr | hr
        · subst hr
          rw [hbadEq] at hb
          exact absurd hb hbad
        · exact hgone2 r hr hb
    | none =>
      dsimp only
      rw [if_pos rfl]
      have hbadEq : BadSrcB w.cal mtch row.source_id = true := by
        unfold BadSrcB
        rw [hfind]
      obtain ⟨n1, w1, heq1, hInv1, hev1, hst1, hnone1, hget1, hsub1⟩ :=
        remove_spec sub row.source_id w hInv
      rw [heq1]
      dsimp only
      obtain ⟨n', w2, heq2, hInv2, hev2, hst2, hsub2, hgone2, hkeep2⟩ :=
        ih (n + n1) w1 hInv1
      rw [heq2]
      refine ⟨n', w2, rfl, hInv2, evolves_trans hev1 hev2,
        hst2.trans hst1, fun r' hr' => hsub1 r' (hsub2 r' hr'), ?_, ?_⟩
      · intro r hr hb
        rcases List.mem_cons.mp hr with hr | hr
        · subst hr
          exact mappingGet_none_of_subset hsub2 hnone1
        · exact hgone2 r hr
            ((badSrcB_congr hev1.1 mtch r.source_id).trans hb)
      · intro srcId hgd
        have hne : srcId ≠ row.source_id := by
          intro hcontra
          rw [hcontra, hbadEq] at hgd
          exact absurd hgd (by simp)
        have hk1 := hget1 sub.id srcId (fun hc => hne hc.2)
        have hk2 := hkeep2 srcId
          ((badSrcB_congr hev1.1 mtch srcId).trans hgd)
        exact hk2.trans hk1

/-- `pruneStaleMappings` on the honest provider: succeeds, preserves
the invariant, only deletes rows, after it every surviving row of the
subscription has a live matching instance-or-single source event, every
previously mapped bad source id is unmapped, and good keys are
untouched. -/
theorem pruneStale_spec (sub : Subscription) (mtch : EvView → Bool)
    (w : W) (hInv : Inv sub w) :
    ∃ n w', pruneStaleMappings (subCal sub) sub mtch w = (.ok n, w') ∧
      Inv sub w' ∧ Evolves w w' ∧ w'.db.states = w.db.states ∧
      (∀ r' ∈ w'.db.mappings, r' ∈ w.db.mappings) ∧
      (∀ r' ∈ w'.db.mappings, r'.subscription_id = sub.id →
        BadSrcB w.cal mtch r'.source_id = false) ∧
      (∀ srcId, BadSrcB w.cal mtch srcId = false →
        mappingGet w'.db sub.id srcId = mappingGet w.db sub.id srcId) ∧
      (∀ r ∈ w.db.mappings, r.subscription_id = sub.id →
        BadSrcB w.cal mtch r.source_id = true →
        mappingGet w'.db sub.id r.source_id = none) := by
  obtain ⟨n, w', heq, hInv', hev, hst, hsub, hgone, hkeep⟩ :=
    pruneLoop_spec sub mtch (mappingsBySub w.db sub.id) 0 w hInv
  have heq' : pruneStaleMappings (subCal sub) sub mtch w = (.ok n, w') := by
    unfold pruneStaleMappings
    exact heq
  have hsnap : ∀ r ∈ w.db.mappings, r.subscription_id = sub.id →
      r ∈ mappingsBySub w.db sub.id := by
    intro r hr hrs
    unfold mappingsBySub
    exact List.mem_filter.mpr ⟨hr, by simp [hrs]⟩
  refine ⟨n, w', heq', hInv', hev, hst, hsub, ?_, hkeep, ?_⟩
  · intro r' hr' hrs
    by_contra hb
    have hb' : BadSrcB w.cal mtch r'.source_id = true := by
      cases h : BadSrcB w.cal mtch r'.source_id
      · exact absurd h hb
      · rfl
    have hnone := hgone r' (hsnap r' (hsub r' hr') hrs) hb'
    exact mappingGet_isSome_of_mem hr' hrs rfl hnone
  · intro r hr hrs hb
    exact hgone r (hsnap r hr hrs) hb

/-- When every mapped source of the subscription is still live and
matching, the prune pass does nothing. -/
theorem pruneLoop_noop (sub : Subscription) (mtch : EvView → Bool) :
    ∀ (rows : List MapRow) (n : Nat) (w : W),
    (∀ r ∈ rows, BadSrcB w.cal mtch r.source_id = false) →
    pruneLoop (subCal sub) sub mtch rows n w = (.ok n, w)
  | [], _, _, _ => rfl
  | row :: rest, n, w, h => by
    unfold pruneLoop
    rw [show (subCal sub).getEvent = (honestCal sub.source_calendar_id
      sub.target_calendar_id).getEvent from rfl, honest_getEvent]
    have hb := h row (List.mem_cons_self _ _)
    unfold BadSrcB at hb
    cases hfind : findById w.cal row.source_id with
    | none =>
      rw [hfind] at hb
      simp at hb
    | some ev =>
      rw [hfind] at hb
      simp only at hb
      dsimp only
      rw [if_neg (by simp [hb])]
      exact pruneLoop_noop sub mtch rest n w
        (fun r hr => h r (List.mem_cons_of_mem _ hr))

theorem pruneStale_noop (sub : Subscription) (mtch : EvView → Bool)
    (w : W) (h : ∀ r ∈ w.db.mappings, r.subscription_id = sub.id →
      BadSrcB w.cal mtch r.source_id = false) :
    pruneStaleMappings (subCal sub) sub mtch w = (.ok 0, w) := by
  unfold pruneStaleMappings
  apply pruneLoop_noop
  intro r hr
  have hr' : r ∈ w.db.mappings.filter
      (fun r => r.subscription_id == sub.id) := hr
  obtain ⟨h1, h2⟩ := List.mem_filter.mp hr'
  exact h r h1 (by simpa using h2)

theorem contains_iff_mem_nat {l : List Nat} {a : Nat} :
    l.contains a = true ↔ a ∈ l := by
  simp [List.contains]

/-- The dedup loop over the listed target events: always succeeds on
the honest provider, preserves the invariant (it never deletes a target
event some row of the subscription points at), never touches the
database, and afterwards every surviving target event is either mapped
(its id is in `valid`) or protected by the match-only flag. -/
theorem dedupeLoop_spec (cfg : Config) (sub : Subscription)
    (mtch : EvView → Bool) (valid : List Nat) :
    ∀ (items : List TgtItem) (n : Nat) (w : W), Inv sub w →
    (∀ r ∈ w.db.mappings, r.subscription_id = sub.id →
      r.target_id ∈ valid) →
    (∀ p ∈ w.cal.target, (∃ it ∈ items, it.id = p.1 ∧ it.payload = p.2) ∨
      p.1 ∈ valid ∨ (cfg.dedupMatchFiltersOnly = true ∧
        mtch (viewOfPayload p.2) = false)) →
    ∃ n' w', dedupeLoop (subCal sub) cfg sub mtch valid items n w =
        (.ok n', w') ∧
      Inv sub w' ∧ Evolves w w' ∧ w'.db = w.db ∧
      (∀ p ∈ w'.cal.target, p.1 ∈ valid ∨
        (cfg.dedupMatchFiltersOnly = true ∧
          mtch (viewOfPayload p.2) = false)) := by
  intro items
  induction items with
  | nil =>
    intro n w hInv hvalid hitems
    refine ⟨n, w, rfl, hInv, evolves_refl w, rfl, ?_⟩
    intro p hp
    rcases hitems p hp with ⟨it, hit, _⟩ | h | h
    · exact absurd hit (List.not_mem_nil _)
    · exact Or.inl h
    · exact Or.inr h
  | cons it rest ih =>
    intro n w hInv hvalid hitems
    unfold dedupeLoop
    dsimp only
    by_cases hc : (!valid.contains it.id &&
        (!cfg.dedupMatchFiltersOnly ||
          mtch (viewOfPayload it.payload))) = true
    · rw [if_pos hc]
      have hc' : it.id ∉ valid ∧ (cfg.dedupMatchFiltersOnly = false ∨
          mtch (viewOfPayload it.payload) = true) := by simpa using hc
      have hnm : it.id ∉ valid := hc'.1
      by_cases htgt : it.id ∈ tgtIds w.cal
      · rw [show (subCal sub).deleteEvent = (honestCal sub.source_calendar_id
          sub.target_calendar_id).deleteEvent from rfl,
          honest_delete_ok _ _ _ _ htgt]
        dsimp only
        have hInv1 : Inv sub ⟨⟨w.cal.source, w.cal.curTok,
            w.cal.target.filter fun q => !(q.1 == it.id), w.cal.nextId⟩,
            w.db, w.logs ++ [.dedupRemovedE sub.id it.id]⟩ := by
          constructor
          · exact hInv.mapNodup
          · show (tgtIds ⟨_, _, w.cal.target.filter _, _⟩).Nodup
            simp only [tgtIds]
            exact ((List.filter_sublist _).map Prod.fst).nodup hInv.tgtNodup
          · intro p hp
            exact hInv.fresh p (List.mem_of_mem_filter hp)
          · intro r hr hrs
            have hlk := hInv.linked r hr hrs
            obtain ⟨q, hq, hq1⟩ := List.mem_map.mp hlk
            have hrne : r.target_id ≠ it.id := by
              intro hcontra
              exact hnm (hcontra ▸ hvalid r hr hrs)
            show r.target_id ∈ tgtIds ⟨_, _, w.cal.target.filter _, _⟩
            simp only [tgtIds]
            refine List.mem_map.mpr ⟨q, List.mem_filter.mpr ⟨hq, ?_⟩, hq1⟩
            simp [hq1, hrne]
          · intro r1 hr1 r2 hr2 hs1 hs2 hne
            exact hInv.tgtDistinct r1 hr1 r2 hr2 hs1 hs2 hne
        have hitems1 : ∀ p ∈ (⟨⟨w.cal.source, w.cal.curTok,
            w.cal.target.filter fun q => !(q.1 == it.id), w.cal.nextId⟩,
            w.db, w.logs ++ [.dedupRemovedE sub.id it.id]⟩ : W).cal.target,
            (∃ it' ∈ rest, it'.id = p.1 ∧ it'.payload = p.2) ∨
            p.1 ∈ valid ∨ (cfg.dedupMatchFiltersOnly = true ∧
              mtch (viewOfPayload p.2) = false) := by
          intro p hp
          have hpne : ¬(p.1 == it.id) = true := by
            have := List.of_mem_filter hp
            simpa using this
          rcases hitems p (List.mem_of_mem_filter hp) with
            ⟨it', hit', h1, h2⟩ | h | h
          · rcases List.mem_cons.mp hit' with hit' | hit'
            · subst hit'
              exact absurd (by simp [h1]) hpne
            · exact Or.inl ⟨it', hit', h1, h2⟩
          · exact Or.inr (Or.inl h)
          · exact Or.inr (Or.inr h)
        obtain ⟨n', w', heq2, hInv', hev2, hdb2, hcov⟩ :=
          ih (n + 1) _ hInv1 hvalid hitems1
        rw [heq2]
        exact ⟨n', w', rfl, hInv', evolves_trans ⟨rfl, rfl, rfl⟩ hev2,
          hdb2, hcov⟩
      · rw [show (subCal sub).deleteEvent = (honestCal sub.source_calendar_id
          sub.target_calendar_id).deleteEvent from rfl,
          honest_delete_404 _ _ _ _ htgt]
        dsimp only
        rw [if_neg (by simp)]
        have hitems1 : ∀ p ∈ w.cal.target,
            (∃ it' ∈ rest, it'.id = p.1 ∧ it'.payload = p.2) ∨
            p.1 ∈ valid ∨ (cfg.dedupMatchFiltersOnly = true ∧
              mtch (viewOfPayload p.2) = false) := by
          intro p hp
          rcases hitems p hp with ⟨it', hit', h1, h2⟩ | h | h
          · rcases List.mem_cons.mp hit' with hit' | hit'
            · subst hit'
              exact absurd (h1 ▸ List.mem_map.mpr ⟨p, hp, rfl⟩) htgt
            · exact Or.inl ⟨it', hit', h1, h2⟩
          · exact Or.inr (Or.inl h)
          · exact Or.inr (Or.inr h)
        exact ih n w hInv hvalid hitems1
    · rw [if_neg hc]
      have hcov0 : it.id ∈ valid ∨ (cfg.dedupMatchFiltersOnly = true ∧
          mtch (viewOfPayload it.payload) = false) := by
        by_cases hmem : valid.contains it.id = true
        · exact Or.inl (contains_iff_mem_nat.mp hmem)
        · right
          have hmem' : (!valid.contains it.id) = true := by
            simp [Bool.not_eq_true] at hmem ⊢
            exact hmem
          rw [hmem'] at hc
          simp only [Bool.true_and] at hc
          constructor
          · cases hflag : cfg.dedupMatchFiltersOnly
            · rw [hflag] at hc
              simp at hc
            · rfl
          · cases hmm : mtch (viewOfPayload it.payload)
            · rfl
            · rw [hmm] at hc
              simp at hc
      have hitems1 : ∀ p ∈ w.cal.target,
          (∃ it' ∈ rest, it'.id = p.1 ∧ it'.payload = p.2) ∨
          p.1 ∈ valid ∨ (cfg.dedupMatchFiltersOnly = true ∧
            mtch (viewOfPayload p.2) = false) := by
        intro p hp
        rcases hitems p hp with ⟨it', hit', h1, h2⟩ | h | h
        · rcases List.mem_cons.mp hit' with hit' | hit'
          · subst hit'
            rcases hcov0 with hv | ⟨hf, hm⟩
            · exact Or.inr (Or.inl (h1 ▸ hv))
            · exact Or.inr (Or.inr ⟨hf, h2 ▸ hm⟩)
          · exact Or.inl ⟨it', hit', h1, h2⟩
        · exact Or.inr (Or.inl h)
        · exact Or.inr (Or.inr h)
      exact ih n w hInv hvalid hitems1

/-- `dedupeTarget` on the honest provider: succeeds, preserves the
invariant and the database, and afterwards every target event is mapped
by the subscription or protected by `DEDUP_MATCH_FILTERS_ONLY`. -/
theorem dedupeTarget_spec (cfg : Config) (sub : Subscription)
    (mtch : EvView → Bool) (w : W) (hInv : Inv sub w) :
    ∃ n w', dedupeTarget (subCal sub) cfg sub mtch w = (.ok n, w') ∧
      Inv sub w' ∧ Evolves w w' ∧ w'.db = w.db ∧
      TgtCovered cfg.dedupMatchFiltersOnly mtch w' sub.id := by
  unfold dedupeTarget
  dsimp only
  rw [show (subCal sub).listTarget = (honestCal sub.source_calendar_id
    sub.target_calendar_id).listTarget from rfl, honest_listTarget]
  dsimp only
  have hvalid : ∀ r ∈ w.db.mappings, r.subscription_id = sub.id →
      r.target_id ∈ (mappingsBySub w.db sub.id).map
        (fun r => r.target_id) := by
    intro r hr hrs
    refine List.mem_map.mpr ⟨r, ?_, rfl⟩
    unfold mappingsBySub
    exact List.mem_filter.mpr ⟨hr, by simp [hrs]⟩
  have hitems : ∀ p ∈ w.cal.target,
      (∃ it ∈ w.cal.target.map (fun q => (⟨q.1, q.2⟩ : TgtItem)),
        it.id = p.1 ∧ it.payload = p.2) ∨
      p.1 ∈ (mappingsBySub w.db sub.id).map (fun r => r.target_id) ∨
      (cfg.dedupMatchFiltersOnly = true ∧
        mtch (viewOfPayload p.2) = false) := by
    intro p hp
    exact Or.inl ⟨⟨p.1, p.2⟩, List.mem_map.mpr ⟨p, hp, rfl⟩, rfl, rfl⟩
  obtain ⟨n, w', heq, hInv', hev, hdb, hcov⟩ :=
    dedupeLoop_spec cfg sub mtch
      ((mappingsBySub w.db sub.id).map (fun r => r.target_id))
      (w.cal.target.map fun q => ⟨q.1, q.2⟩) 0 w hInv hvalid hitems
  rw [heq]
  refine ⟨n, w', rfl, hInv', hev, hdb, ?_⟩
  intro p hp
  rcases hcov p hp with hmem | hprot
  · left
    obtain ⟨r, hr, hrt⟩ := List.mem_map.mp hmem
    have hr' : r ∈ w.db.mappings.filter
        (fun r => r.subscription_id == sub.id) := hr
    obtain ⟨h1, h2⟩ := List.mem_filter.mp hr'
    exact ⟨r, hdb ▸ h1, by simpa using h2, hrt⟩
  · exact Or.inr hprot

/-- When every target event is mapped or protected, the dedup pass does
nothing. -/
theorem dedupeLoop_noop (cfg : Config) (sub : Subscription)
    (mtch : EvView → Bool) (valid : List Nat) :
    ∀ (items : List TgtItem) (n : Nat) (w : W),
    (∀ it ∈ items, it.id ∈ valid ∨ (cfg.dedupMatchFiltersOnly = true ∧
      mtch (viewOfPayload it.payload) = false)) →
    dedupeLoop (subCal sub) cfg sub mtch valid items n w = (.ok n, w)
  | [], _, _, _ => rfl
  | it :: rest, n, w, h => by
    unfold dedupeLoop
    dsimp only
    have hcond : (!valid.contains it.id &&
        (!cfg.dedupMatchFiltersOnly ||
          mtch (viewOfPayload it.payload))) = false := by
      rcases h it (List.mem_cons_self _ _) with hmem | ⟨hf, hm⟩
      · rw [show valid.contains it.id = true from
          contains_iff_mem_nat.mpr hmem]
        rfl
      · rw [hf, hm]
        exact Bool.and_false _
    rw [if_neg (by rw [hcond]; simp)]
    exact dedupeLoop_noop cfg sub mtch valid rest n w
      (fun x hx => h x (List.mem_cons_of_mem _ hx))

theorem dedupeTarget_noop (cfg : Config) (sub : Subscription)
    (mtch : EvView → Bool) (w : W)
    (hcov : TgtCovered cfg.dedupMatchFiltersOnly mtch w sub.id) :
    dedupeTarget (subCal sub) cfg sub mtch w = (.ok 0, w) := by
  unfold dedupeTarget
  dsimp only
  rw [show (subCal sub).listTarget = (honestCal sub.source_calendar_id
    sub.target_calendar_id).listTarget from rfl, honest_listTarget]
  dsimp only
  apply dedupeLoop_noop
  intro it hit
  obtain ⟨p, hp, hpe⟩ := List.mem_map.mp hit
  rcases hcov p hp with ⟨r, hr, hrs, hrt⟩ | ⟨hf, hm⟩
  · left
    rw [← hpe]
    refine List.mem_map.mpr ⟨r, ?_, hrt⟩
    unfold mappingsBySub
    exact List.mem_filter.mpr ⟨hr, by simp [hrs]⟩
  · right
    rw [← hpe]
    exact ⟨hf, hm⟩

/-- The delta item loop on the honest provider: always succeeds under
the invariant, preserves it, and leaves the state store untouched. -/
theorem deltaItemsLoop_spec (cfg : Config) (sub : Subscription)
    (mtch : EvView → Bool) :
    ∀ (items : List SEvent) (acc : RunCounts) (w : W), Inv sub w →
    ∃ acc' w', deltaItemsLoop (subCal sub) cfg sub mtch items acc w =
        (.ok acc', w') ∧
      Inv sub w' ∧ Evolves w w' ∧ w'.db.states = w.db.states := by
  intro items
  induction items with
  | nil =>
    intro acc w hInv
    exact ⟨acc, w, rfl, hInv, evolves_refl w, rfl⟩
  | cons ev rest ih =>
    intro acc w hInv
    unfold deltaItemsLoop
    by_cases hcanc : (ev.status == "cancelled") = true
    · rw [if_pos hcanc]
      obtain ⟨n1, w1, heq1, hInv1, hev1, hst1, _, _, _⟩ :=
        remove_spec sub ev.id w hInv
      rw [heq1]
      dsimp only
      obtain ⟨acc', w2, heq2, hInv2, hev2, hst2⟩ :=
        ih ⟨acc.created, acc.updated, acc.removed + n1⟩ w1 hInv1
      rw [heq2]
      exact ⟨acc', w2, rfl, hInv2, evolves_trans hev1 hev2,
        hst2.trans hst1⟩
    · rw [if_neg hcanc]
      by_cases hmast : isRecurringMaster ev = true
      · rw [if_pos hmast]
        obtain ⟨rc, w1, heq1, hInv1, hev1, hst1, _⟩ :=
          refreshSeries_spec cfg sub mtch ev w hInv
        rw [heq1]
        dsimp only
        obtain ⟨n2, w2, heq2, hInv2, hev2, hst2, _, _, _⟩ :=
          remove_spec sub ev.id w1 hInv1
        rw [heq2]
        dsimp only
        obtain ⟨acc', w3, heq3, hInv3, hev3, hst3⟩ :=
          ih ⟨acc.created + rc.created, acc.updated + rc.updated,
            acc.removed + rc.removed + n2⟩ w2 hInv2
        rw [heq3]
        exact ⟨acc', w3, rfl, hInv3,
          evolves_trans hev1 (evolves_trans hev2 hev3),
          (hst3.trans hst2).trans hst1⟩
      · rw [if_neg hmast]
        by_cases hup : (isInstanceOrSingle ev && mtch (viewOfS ev)) = true
        · rw [if_pos hup]
          obtain ⟨cnt1, w1, heq1, hInv1, hev1, hst1, _, _, _⟩ :=
            upsert_spec cfg.digest sub ev false w hInv
          rw [heq1]
          dsimp only
          obtain ⟨acc', w2, heq2, hInv2, hev2, hst2⟩ :=
            ih ⟨acc.created + cnt1.created, acc.updated + cnt1.updated,
              acc.removed⟩ w1 hInv1
          rw [heq2]
          exact ⟨acc', w2, rfl, hInv2, evolves_trans hev1 hev2,
            hst2.trans hst1⟩
        · rw [if_neg hup]
          obtain ⟨n1, w1, heq1, hInv1, hev1, hst1, _, _, _⟩ :=
            remove_spec sub ev.id w hInv
          rw [heq1]
          dsimp only
          obtain ⟨acc', w2, heq2, hInv2, hev2, hst2⟩ :=
            ih ⟨acc.created, acc.updated, acc.removed + n1⟩ w1 hInv1
          rw [heq2]
          exact ⟨acc', w2, rfl, hInv2, evolves_trans hev1 hev2,
            hst2.trans hst1⟩

/-- The delta pass with the current cursor: the honest feed is empty,
the counts are zero, and only the stored sync token / run status are
rewritten. -/
theorem deltaPass_token_noop (cfg : Config) (sub : Subscription)
    (mtch : EvView → Bool) (w : W) :
    deltaPass (subCal sub) cfg sub mtch (some w.cal.curTok) w =
      (.ok ⟨0, 0, 0⟩, { w with
        db := saveState w.db sub.id cfg.now (some w.cal.curTok) none
          (some "ok") }) := by
  unfold deltaPass
  rw [show listChanges (subCal sub) sub.source_calendar_id
      (some w.cal.curTok) w.cal =
      .ok ({ items := [], nextSyncToken := some w.cal.curTok }, w.cal) from
    honest_listChanges_tok _ _ _]
  simp only [deltaItemsLoop]

/-- The delta pass under a valid (or absent) cursor: succeeds, preserves
the invariant, and stores the feed's terminal sync token. -/
theorem deltaPass_spec (cfg : Config) (sub : Subscription)
    (mtch : EvView → Bool) (tok : Option String) (w : W) (hInv : Inv sub w)
    (htok : tok = none ∨ tok = some w.cal.curTok) :
    ∃ cnt w', deltaPass (subCal sub) cfg sub mtch tok w = (.ok cnt, w') ∧
      Inv sub w' ∧ Evolves w w' ∧
      (∃ st, statesGet w'.db sub.id = some st ∧
        st.sync_token = some w.cal.curTok) := by
  rcases htok with htok | htok
  · subst htok
    unfold deltaPass
    rw [show listChanges (subCal sub) sub.source_calendar_id none w.cal =
        .ok ({ items := w.cal.source, nextSyncToken := some w.cal.curTok },
          w.cal) from honest_listChanges_full _ _ _]
    dsimp only
    obtain ⟨acc, w1, heq1, hInv1, hev1, hst1⟩ :=
      deltaItemsLoop_spec cfg sub mtch w.cal.source ⟨0, 0, 0⟩ w hInv
    rw [heq1]
    dsimp only
    refine ⟨acc, _, rfl, ?_, ?_, ?_⟩
    · exact inv_congr hInv1 rfl (mappings_saveState _ _ _ _ _ _)
    · exact ⟨hev1.1, hev1.2.1, (subs_saveState _ _ _ _ _ _).trans hev1.2.2⟩
    · refine ⟨_, statesGet_saveState _ _ _ _ _ _, ?_⟩
      cases statesGet w1.db sub.id with
      | none => rfl
      | some r => simp
  · subst htok
    rw [deltaPass_token_noop]
    refine ⟨⟨0, 0, 0⟩, _, rfl, ?_, ?_, ?_⟩
    · exact inv_congr hInv rfl (mappings_saveState _ _ _ _ _ _)
    · exact ⟨rfl, rfl, subs_saveState _ _ _ _ _ _⟩
    · refine ⟨_, statesGet_saveState _ _ _ _ _ _, ?_⟩
      cases statesGet w.db sub.id with
      | none => rfl
      | some r => simp

/-- The four ordered passes on the honest provider under a valid (or
absent) cursor: they succeed, preserve the invariant, store the
provider's current sync token, leave a current row for every good
in-window source event, leave no row of the subscription without a
live good source event, and leave every target event mapped or
flag-protected. -/
theorem runSubBody_spec (cfg : Config) (sub : Subscription)
    (mtch : EvView → Bool) (tok : Option String) (w : W)
    (hInv : Inv sub w) (hs : SrcWF w.cal)
    (htok : tok = none ∨ tok = some w.cal.curTok) :
    ∃ cnt w', runSubBody (subCal sub) cfg sub mtch tok w =
        (.ok cnt, w') ∧
      Inv sub w' ∧ Evolves w w' ∧
      (∃ st, statesGet w'.db sub.id = some st ∧
        st.sync_token = some w.cal.curTok) ∧
      (∀ ev ∈ w.cal.source, GoodEv mtch ev →
        inWinB (some (windowTimeMin cfg)) (some (windowTimeMax cfg)) ev =
          true →
        GoodRow cfg.digest w'.db sub.id ev) ∧
      (∀ r' ∈ w'.db.mappings, r'.subscription_id = sub.id →
        BadSrcB w.cal mtch r'.source_id = false) ∧
      TgtCovered cfg.dedupMatchFiltersOnly mtch w' sub.id := by
  unfold runSubBody
  obtain ⟨dc, w1, heq1, hInv1, hev1, hstTok⟩ :=
    deltaPass_spec cfg sub mtch tok w hInv htok
  rw [heq1]
  dsimp only
  have hs1 : SrcWF w1.cal := srcWF_congr hev1.1.symm hs
  obtain ⟨bf, w2, heq2, hInv2, hev2, hst2, hgood2, horig2⟩ :=
    backfillWindow_spec cfg sub mtch w1 hInv1 hs1
  rw [heq2]
  dsimp only
  obtain ⟨pr, w3, heq3, hInv3, hev3, hst3, hsub3, hgoodrows3, hkeep3,
    hgone3⟩ := pruneStale_spec sub mtch w2 hInv2
  rw [heq3]
  dsimp only
  obtain ⟨dd, w4, heq4, hInv4, hev4, hdb4, hcov4⟩ :=
    dedupeTarget_spec cfg sub mtch w3 hInv3
  rw [heq4]
  dsimp only
  have hsrc1 : w1.cal.source = w.cal.source := hev1.1
  have hsrc2 : w2.cal.source = w.cal.source := hev2.1.trans hsrc1
  refine ⟨⟨dc.created + bf.1, dc.updated + bf.2, dc.removed + pr + dd⟩,
    w4, rfl, hInv4, evolves_trans hev1 (evolves_trans hev2
      (evolves_trans hev3 hev4)), ?_, ?_, ?_, hcov4⟩
  · obtain ⟨st, hst, hsttok⟩ := hstTok
    refine ⟨st, ?_, hsttok⟩
    rw [statesGet_congr (congrArg Db.states hdb4) sub.id,
      statesGet_congr hst3 sub.id, statesGet_congr hst2 sub.id]
    exact hst
  · intro ev hev hg hw
    have hev1mem : ev ∈ w1.cal.source := by
      rw [hsrc1]
      exact hev
    have hg2 : GoodRow cfg.digest w2.db sub.id ev :=
      hgood2 ev hev1mem hg hw
    have hev2mem : ev ∈ w2.cal.source := by
      rw [hsrc2]
      exact hev
    have hs2 : SrcWF w2.cal := srcWF_congr hsrc2.symm hs
    have hbad : BadSrcB w2.cal mtch ev.id = false :=
      badSrcB_false_of_good hs2 hev2mem hg
    obtain ⟨r, hr, hre, hrf⟩ := hg2
    have hg3 : GoodRow cfg.digest w3.db sub.id ev :=
      ⟨r, (hkeep3 ev.id hbad).trans hr, hre, hrf⟩
    exact goodRow_congr (congrArg Db.mappings hdb4).symm hg3
  · intro r' hr' hrs
    have hr3 : r' ∈ w3.db.mappings := by
      rw [← hdb4]
      exact hr'
    have hb3 := hgoodrows3 r' hr3 hrs
    exact (badSrcB_congr hsrc2.symm mtch r'.source_id).trans hb3

/-! ### C4: keywords matcher -/

/-- C4: for every event view and every `keywords` rule, the matcher
returns true iff some keyword — obtained by splitting the raw pattern
on commas, normalizing each piece (lowercase, diacritic strip,
whitespace collapse, trim — all inside `normalize`) and dropping empty
results — is a substring of the same normalization applied to the
(space-separated) concatenation of the event's summary, description and
location, missing fields taken as empty strings.  The same `normalize`
is applied to keywords and event text. -/
theorem c4_keywords_matcher_spec (u : UTbl) (rt : String → String → Bool)
    (raw : String) (v : EvView) :
    makeMatcher u rt "keywords" raw v = true ↔
    ∃ k ∈ ((splitComma raw).map (normalize u)).filter (fun s => s ≠ ""),
      strIncludes (normalize u (v.summary.getD "" ++ " " ++
        v.description.getD "" ++ " " ++ v.location.getD "")) k = true := by
  unfold makeMatcher
  rw [if_neg (by decide)]
  simp only [keywordList, searchBlob, List.any_eq_true]

/-! ### C6: 410 self-healing -/

/-- C6: if the four-pass body raises an error carrying the
distinguished 410 code, `runSubscription` nulls the stored
`sync_token`, stops right there (the final state is the state at the
throw point plus the token reset and the warning log), returns
normally instead of re-raising, leaves `last_status` untouched (so it
is never set to "error" by this path), and the cursor the next run's
delta pass would send is `none`, i.e. a full change-feed request. -/
theorem c6_run_410_self_heals (cal : Cal) (cfg : Config)
    (sub : Subscription) (w w' : W) (e : Err)
    (hbody : runSubBody cal cfg sub
        (makeMatcher cfg.utbl cfg.regexTest sub.filter_type sub.filters_raw)
        (subSyncTokenArg (statesGet w.db sub.id)) w = (.error e, w'))
    (hcode : e.code = 410) :
    runSubscription cal cfg sub w =
      (.ok (), { w' with
        db := nullSyncToken w'.db sub.id
        logs := w'.logs ++ [.tokenExpiredE sub.id] }) ∧
    subSyncTokenArg (statesGet (nullSyncToken w'.db sub.id) sub.id) = none ∧
    (statesGet (nullSyncToken w'.db sub.id) sub.id).bind
        (fun r => r.last_status) =
      (statesGet w'.db sub.id).bind fun r => r.last_status := by
  refine ⟨?_, ?_, ?_⟩
  · simp only [runSubscription]
    rw [hbody]
    simp [hcode]
  · rw [statesGet_nullSyncToken]
    cases statesGet w'.db sub.id <;> simp [subSyncTokenArg]
  · rw [statesGet_nullSyncToken]
    cases statesGet w'.db sub.id <;> simp

/-- Witness for C6 at a concrete 410-throwing provider. -/
theorem c6_witness :
    runSubscription calAll410 cfgW subW wW =
      (.ok (), { wW with
        db := nullSyncToken wW.db subW.id
        logs := wW.logs ++ [.tokenExpiredE subW.id] }) ∧
    subSyncTokenArg (statesGet (nullSyncToken wW.db subW.id) subW.id) = none ∧
    (statesGet (nullSyncToken wW.db subW.id) subW.id).bind
        (fun r => r.last_status) =
      (statesGet wW.db subW.id).bind fun r => r.last_status :=
  c6_run_410_self_heals calAll410 cfgW subW wW wW ⟨410, "gone"⟩ rfl rfl

/-! ### C7: other errors are surfaced -/

/-- C7: if the four-pass body raises an error whose code is not 410,
`runSubscription` logs the failure, records `last_status = "error"`,
re-raises the same error, and performs nothing else (so passes after
the failing point stay unexecuted); the error-status write passes a
null `sync_token` whose `COALESCE` keeps the stored value, so a cursor
already advanced during pass 1 survives. -/
theorem c7_run_error_records_status (cal : Cal) (cfg : Config)
    (sub : Subscription) (w w' : W) (e : Err)
    (hbody : runSubBody cal cfg sub
        (makeMatcher cfg.utbl cfg.regexTest sub.filter_type sub.filters_raw)
        (subSyncTokenArg (statesGet w.db sub.id)) w = (.error e, w'))
    (hcode : e.code ≠ 410) :
    runSubscription cal cfg sub w =
      (.error e, { w' with
        db := saveState w'.db sub.id cfg.now none none (some "error")
        logs := w'.logs ++ [.syncFailedE sub.id e.msg] }) ∧
    (statesGet (saveState w'.db sub.id cfg.now none none (some "error"))
        sub.id).bind (fun r => r.sync_token) =
      (statesGet w'.db sub.id).bind (fun r => r.sync_token) ∧
    (statesGet (saveState w'.db sub.id cfg.now none none (some "error"))
        sub.id).bind (fun r => r.last_status) = some "error" := by
  refine ⟨?_, ?_, ?_⟩
  · simp only [runSubscription]
    rw [hbody]
    simp [hcode]
  · rw [statesGet_saveState]
    cases statesGet w'.db sub.id <;> simp [Option.or]
  · rw [statesGet_saveState]
    cases statesGet w'.db sub.id <;> simp

/-- Witness for C7 at a concrete 503-throwing provider. -/
theorem c7_witness :
    runSubscription calAll503 cfgW subW wW =
      (.error ⟨503, "backend error"⟩, { wW with
        db := saveState wW.db subW.id cfgW.now none none (some "error")
        logs := wW.logs ++ [.syncFailedE subW.id "backend error"] }) ∧
    (statesGet (saveState wW.db subW.id cfgW.now none none (some "error"))
        subW.id).bind (fun r => r.sync_token) =
      (statesGet wW.db subW.id).bind (fun r => r.sync_token) ∧
    (statesGet (saveState wW.db subW.id cfgW.now none none (some "error"))
        subW.id).bind (fun r => r.last_status) = some "error" :=
  c7_run_error_records_status calAll503 cfgW subW wW wW ⟨503, "backend error"⟩
    rfl (by decide)

/-! ### C10: a 410 from a delete reaches the run-level handler -/

/-- C10: `removeTarget` and `dedupeLoop` tolerate only 404 on a target
delete, so a 410 from a delete propagates out of them unchanged (first
two conjuncts; note the mapping row survives, because the source throws
before its `DELETE`); end to end (last conjunct), with a provider whose
deletes answer 410 while the sync token is perfectly valid, the run
ends early through the 410 handler: result ok, `sync_token` nulled,
`last_status` still "ok" (never "error"), the token-expired warning
logged, and the mapping row still present. -/
theorem c10_delete_410_reaches_handler :
    (∀ (cal : Cal) (subId : Nat) (tgtCal srcId : String) (w : W)
      (row : MapRow) (e : Err),
      mappingGet w.db subId srcId = some row →
      cal.deleteEvent tgtCal row.target_id w.cal = .error e →
      e.code ≠ 404 →
      removeTarget cal subId tgtCal srcId w = (.error e, w)) ∧
    (∀ (cal : Cal) (cfg : Config) (sub : Subscription) (mtch : EvView → Bool)
      (valid : List Nat) (it : TgtItem) (rest : List TgtItem)
      (removed : Nat) (w : W) (e : Err),
      valid.contains it.id = false →
      cfg.dedupMatchFiltersOnly = false →
      cal.deleteEvent sub.target_calendar_id it.id w.cal = .error e →
      e.code ≠ 404 →
      dedupeLoop cal cfg sub mtch valid (it :: rest) removed w = (.error e, w)) ∧
    ((runSubscription cal410W cfgW subW wW).1 = .ok () ∧
     subSyncTokenArg (statesGet (runSubscription cal410W cfgW subW wW).2.db
       subW.id) = none ∧
     (statesGet (runSubscription cal410W cfgW subW wW).2.db subW.id).bind
       (fun r => r.last_status) = some "ok" ∧
     ((runSubscription cal410W cfgW subW wW).2.logs.any
       fun l => l == .tokenExpiredE subW.id) = true ∧
     mappingGet (runSubscription cal410W cfgW subW wW).2.db subW.id "s1" =
       some rowW) := by
  refine ⟨?_, ?_, rfl, rfl, rfl, rfl, rfl⟩
  · intro cal subId tgtCal srcId w row e hmap hdel hcode
    simp [removeTarget, hmap, hdel, hcode]
  · intro cal cfg sub mtch valid it rest removed w e hcont hflag hdel hcode
    have hmem : it.id ∉ valid := by simpa using hcont
    simp [dedupeLoop, hmem, hflag, hdel, hcode]

/-- Witness for C10, exercising the `removeTarget` conjunct at a
concrete 410-answering delete. -/
theorem c10_witness :
    removeTarget cal410W subW.id "tgt" "s1" wW = (.error ⟨410, "gone"⟩, wW) :=
  c10_delete_410_reaches_handler.1 cal410W subW.id "tgt" "s1" wW rowW
    ⟨410, "gone"⟩ rfl rfl (by decide)

/-! ### C3: upsert semantics -/

/-- C3: via `upsertTarget` (honest provider): an unmapped event is
created in the target and a mapping row inserted; a mapped event is
updated — and its mapping's `target_id`, `etag`, `fingerprint`
rewritten — precisely when the stored fingerprint differs from the
payload's, or the stored etag differs from the event's, or the
`forceUpdate` flag (the one `refreshSeriesForMasterChange` passes as
`true`) is set; otherwise neither the target calendar nor the mapping
row changes and the returned counts are all zero. -/
theorem c3_upsert_semantics (digest : Json → String) (srcCal tgtCal : String)
    (subId : Nat) (ev : SEvent) (force : Bool) (w : W) :
    (mappingGet w.db subId ev.id = none →
      upsertTarget (honestCal srcCal tgtCal) digest subId tgtCal ev force w =
        (.ok ⟨1, 0, 0⟩, { w with
          cal := { w.cal with
            target := w.cal.target ++ [(w.cal.nextId, buildPayloadFromSource ev)]
            nextId := w.cal.nextId + 1 }
          db := mappingInsert w.db subId ev.id w.cal.nextId ev.etag
            (fingerprintOfPayload digest (buildPayloadFromSource ev))
          logs := w.logs ++ [.createdE subId ev.id] })) ∧
    (∀ row, mappingGet w.db subId ev.id = some row →
      (row.fingerprint ≠ fingerprintOfPayload digest (buildPayloadFromSource ev) ∨
        row.etag ≠ ev.etag ∨ force = true) →
      (w.cal.target.any fun q => q.1 == row.target_id) = true →
      upsertTarget (honestCal srcCal tgtCal) digest subId tgtCal ev force w =
        (.ok ⟨0, 1, 0⟩, { w with
          cal := { w.cal with
            target := w.cal.target.map fun q =>
              if q.1 == row.target_id then (q.1, buildPayloadFromSource ev) else q }
          db := mappingUpsert w.db subId ev.id row.target_id ev.etag
            (fingerprintOfPayload digest (buildPayloadFromSource ev))
          logs := w.logs ++ [.updatedE subId ev.id] })) ∧
    (∀ row, mappingGet w.db subId ev.id = some row →
      row.fingerprint = fingerprintOfPayload digest (buildPayloadFromSource ev) →
      row.etag = ev.etag → force = false →
      upsertTarget (honestCal srcCal tgtCal) digest subId tgtCal ev force w =
        (.ok ⟨0, 0, 0⟩, w)) := by
  refine ⟨?_, ?_, ?_⟩
  · intro h
    simp [upsertTarget, h, honestCal]
  · intro row hmap hchange hany
    have hcond : (row.fingerprint !=
        fingerprintOfPayload digest (buildPayloadFromSource ev) ||
        row.etag != ev.etag || force) = true := by
      rcases hchange with h | h | h <;> simp [bne_iff_ne, h]
    simp [upsertTarget, hmap, hcond, honestCal, hany]
  · intro row hmap hfp hetag hforce
    simp [upsertTarget, hmap, hfp, hetag, hforce]

/-- Witness for C3: creation of an unmapped event on an empty world. -/
theorem c3_witness :
    upsertTarget (honestCal "src" "tgt") cfgW.digest 1 "tgt" evA false
      ⟨⟨[evA], "T", [], 0⟩, ⟨[], [], []⟩, []⟩ =
      (.ok ⟨1, 0, 0⟩, { (⟨⟨[evA], "T", [], 0⟩, ⟨[], [], []⟩, []⟩ : W) with
        cal := { (⟨[evA], "T", [], 0⟩ : CalState) with
          target := [(0, buildPayloadFromSource evA)]
          nextId := 1 }
        db := mappingInsert ⟨[], [], []⟩ 1 evA.id 0 evA.etag
          (fingerprintOfPayload cfgW.digest (buildPayloadFromSource evA))
        logs := [.createdE 1 evA.id] }) :=
  (c3_upsert_semantics cfgW.digest "src" "tgt" 1 evA false
    ⟨⟨[evA], "T", [], 0⟩, ⟨[], [], []⟩, []⟩).1 rfl

/-! ### C9: batch entry point -/

/-- C9 counterexample: a batch of two enabled subscriptions, each
mirroring one event, so the batch-aggregate counts would be
`(2, 0, 0)`.  The batch entry point returns plain `()` (no counts) and
its log stream reports only the two per-subscription `(1, 0, 0)`
summaries — no entry carries the aggregate `(2, 0, 0)`.  The claim's
"reports aggregate created/updated/removed counts for the batch" is
false on the code. -/
theorem c9_counterexample :
    (runAll (honestCal "src" "tgt") cfgW2 wC).1 = .ok () ∧
    (runAll (honestCal "src" "tgt") cfgW2 wC).2.db.mappings.length = 2 ∧
    ((runAll (honestCal "src" "tgt") cfgW2 wC).2.logs.any
      (isCountLog 1 0 0)) = true ∧
    ((runAll (honestCal "src" "tgt") cfgW2 wC).2.logs.any
      (isCountLog 2 0 0)) = false :=
  ⟨rfl, rfl, rfl, rfl⟩

/-- C9 amended: the batch entry point iterates exactly the enabled
subscriptions in sequence, never aborts the batch when one
subscription's run throws (the next subscription still runs and can
succeed), and reports counts only per subscription through each run's
summary log — it returns no value and aggregates nothing. -/
theorem c9_batch_amended :
    (∀ (cal : Cal) (cfg : Config) (w : W), (runAll cal cfg w).1 = .ok ()) ∧
    ((runAll (honestCal "src" "tgt") cfgW wD).2.logs.any
      fun l => l == .syncFailedE 1 "calendar not found") = true ∧
    ((runAll (honestCal "src" "tgt") cfgW wD).2.logs.any
      fun l => l == .syncOkE 2) = true ∧
    ((runAll (honestCal "src" "tgt") cfgW wD).2.logs.any
      (isCountLog 1 0 0)) = true ∧
    ((runAll (honestCal "src" "tgt") cfgW wD).2.logs.any
      fun l => l == .syncStartE 3 "s3x" "t3x") = false :=
  ⟨fun _ _ _ => rfl, rfl, rfl, rfl, rfl⟩

/-! ### C1: convergence of one full run -/

/-- C1: one full four-pass reconciliation run on the honest provider —
under a well-formed initial state, a window covering every source
event, and a valid (or absent) stored cursor — succeeds, and
afterwards: a source event's id has a mapping row exactly when the
event is a non-cancelled instance-or-single matching the rule; every
such good event's row stores the event's current etag and the
fingerprint of its mirrored-field projection; and every row of the
subscription belongs to some good source event. -/
theorem c1_convergence (cfg : Config) (sub : Subscription)
    (mtch : EvView → Bool)
    (hm : mtch = makeMatcher cfg.utbl cfg.regexTest sub.filter_type
      sub.filters_raw)
    (w : W) (hInv : Inv sub w) (hs : SrcWF w.cal)
    (hwin : ∀ ev ∈ w.cal.source, inWinB (some (windowTimeMin cfg))
      (some (windowTimeMax cfg)) ev = true)
    (htok : subSyncTokenArg (statesGet w.db sub.id) = none ∨
      subSyncTokenArg (statesGet w.db sub.id) = some w.cal.curTok) :
    ∃ w', runSubscription (subCal sub) cfg sub w = (.ok (), w') ∧
      (∀ ev ∈ w.cal.source,
        ((∃ r, mappingGet w'.db sub.id ev.id = some r) ↔
          GoodEv mtch ev)) ∧
      (∀ ev ∈ w.cal.source, GoodEv mtch ev →
        GoodRow cfg.digest w'.db sub.id ev) ∧
      (∀ r ∈ w'.db.mappings, r.subscription_id = sub.id →
        ∃ ev ∈ w.cal.source, ev.id = r.source_id ∧ GoodEv mtch ev) := by
  subst hm
  obtain ⟨cnt, w', heq, hInv', hev', hstTok, hgood, hA, hcov⟩ :=
    runSubBody_spec cfg sub _ (subSyncTokenArg (statesGet w.db sub.id)) w
      hInv hs htok
  simp only [runSubscription]
  rw [heq]
  dsimp only
  have hmq : (saveState w'.db sub.id cfg.now none none
      (some "ok")).mappings = w'.db.mappings :=
    mappings_saveState _ _ _ _ _ _
  refine ⟨_, rfl, ?_, ?_, ?_⟩
  · intro ev hev
    constructor
    · rintro ⟨r, hr⟩
      rw [mappingGet_congr hmq sub.id ev.id] at hr
      have hmem := mappingGet_mem hr
      have hbad := hA r hmem.1 hmem.2.1
      obtain ⟨ev2, _, hmem2, hid2, hg2⟩ := badSrcB_false_elim hbad
      have hee : ev2 = ev :=
        src_id_inj hs hmem2 hev (by rw [hid2, hmem.2.2])
      rw [← hee]
      exact hg2
    · intro hg
      obtain ⟨r, hr, _, _⟩ := hgood ev hev hg (hwin ev hev)
      exact ⟨r, (mappingGet_congr hmq sub.id ev.id).trans hr⟩
  · intro ev hev hg
    exact goodRow_congr hmq.symm (hgood ev hev hg (hwin ev hev))
  · intro r hr hrs
    rw [hmq] at hr
    have hbad := hA r hr hrs
    obtain ⟨ev2, _, hmem2, hid2, hg2⟩ := badSrcB_false_elim hbad
    exact ⟨ev2, hmem2, hid2, hg2⟩

/-- A successful body makes `runSubscription` log the summary and save
the ok status. -/
theorem runSubscription_ok_of_body (cal : Cal) (cfg : Config)
    (sub : Subscription) (w wb : W) (c : RunCounts)
    (hbody : runSubBody cal cfg sub
      (makeMatcher cfg.utbl cfg.regexTest sub.filter_type sub.filters_raw)
      (subSyncTokenArg (statesGet w.db sub.id)) w = (.ok c, wb)) :
    runSubscription cal cfg sub w = (.ok (), finishOk cfg sub c wb) := by
  simp only [runSubscription]
  rw [hbody]
  rfl

/-- A second run over a converged world performs zero creates, updates
and removes: the body returns counts `⟨0, 0, 0⟩` and only refreshes the
stored token and status. -/
theorem runSubBody_noop (cfg : Config) (sub : Subscription)
    (mtch : EvView → Bool) (u : W) (hInvU : Inv sub u)
    (htokU : subSyncTokenArg (statesGet u.db sub.id) =
      some u.cal.curTok)
    (hgoodU : ∀ ev ∈ u.cal.source, GoodEv mtch ev →
      inWinB (some (windowTimeMin cfg)) (some (windowTimeMax cfg)) ev =
        true →
      GoodRow cfg.digest u.db sub.id ev)
    (hAU : ∀ r ∈ u.db.mappings, r.subscription_id = sub.id →
      BadSrcB u.cal mtch r.source_id = false)
    (hcovU : TgtCovered cfg.dedupMatchFiltersOnly mtch u sub.id) :
    runSubBody (subCal sub) cfg sub mtch
      (subSyncTokenArg (statesGet u.db sub.id)) u =
      (.ok ⟨0, 0, 0⟩, { u with
        db := saveState u.db sub.id cfg.now (some u.cal.curTok) none
          (some "ok") }) := by
  have hbf2 : ∀ ev ∈ ({ u with
      db := saveState u.db sub.id cfg.now (some u.cal.curTok) none
        (some "ok") } : W).cal.source,
      GoodEv mtch ev →
      inWinB (some (windowTimeMin cfg)) (some (windowTimeMax cfg)) ev =
        true →
      GoodRow cfg.digest ({ u with
        db := saveState u.db sub.id cfg.now (some u.cal.curTok) none
          (some "ok") } : W).db sub.id ev := by
    intro ev hev hg hw
    exact goodRow_congr (mappings_saveState _ _ _ _ _ _).symm
      (hgoodU ev hev hg hw)
  have hpr2 : ∀ r ∈ ({ u with
      db := saveState u.db sub.id cfg.now (some u.cal.curTok) none
        (some "ok") } : W).db.mappings, r.subscription_id = sub.id →
      BadSrcB ({ u with
        db := saveState u.db sub.id cfg.now (some u.cal.curTok) none
          (some "ok") } : W).cal mtch r.source_id = false := by
    intro r hr hrs
    rw [show ({ u with
      db := saveState u.db sub.id cfg.now (some u.cal.curTok) none
        (some "ok") } : W).db.mappings = u.db.mappings from
      mappings_saveState _ _ _ _ _ _] at hr
    exact hAU r hr hrs
  have hcov2 : TgtCovered cfg.dedupMatchFiltersOnly mtch ({ u with
      db := saveState u.db sub.id cfg.now (some u.cal.curTok) none
        (some "ok") } : W) sub.id :=
    tgtCovered_congr (show ({ u with
        db := saveState u.db sub.id cfg.now (some u.cal.curTok) none
          (some "ok") } : W).cal = u.cal from rfl)
      (mappings_saveState _ _ _ _ _ _) hcovU
  unfold runSubBody
  rw [htokU, deltaPass_token_noop]
  dsimp only
  rw [backfillWindow_noop cfg sub mtch _ hbf2]
  dsimp only
  rw [pruneStale_noop sub mtch _ hpr2]
  dsimp only
  rw [dedupeTarget_noop cfg sub mtch _ hcov2]

/-- Witness for C1: a concrete world with one matching source event, an
empty store and no cursor; each hypothesis holds by computation. -/
theorem c1_witness :
    Inv subW wE ∧ SrcWF wE.cal ∧
    (∀ ev ∈ wE.cal.source, inWinB (some (windowTimeMin cfgW))
      (some (windowTimeMax cfgW)) ev = true) ∧
    (∃ w', runSubscription (subCal subW) cfgW subW wE = (.ok (), w') ∧
      (∀ ev ∈ wE.cal.source,
        ((∃ r, mappingGet w'.db subW.id ev.id = some r) ↔
          GoodEv (makeMatcher cfgW.utbl cfgW.regexTest subW.filter_type
            subW.filters_raw) ev)) ∧
      (∀ ev ∈ wE.cal.source,
        GoodEv (makeMatcher cfgW.utbl cfgW.regexTest subW.filter_type
          subW.filters_raw) ev →
        GoodRow cfgW.digest w'.db subW.id ev) ∧
      (∀ r ∈ w'.db.mappings, r.subscription_id = subW.id →
        ∃ ev ∈ wE.cal.source, ev.id = r.source_id ∧
          GoodEv (makeMatcher cfgW.utbl cfgW.regexTest subW.filter_type
            subW.filters_raw) ev)) := by
  have hInvE : Inv subW wE :=
    ⟨by decide, by decide, by decide, by decide, by decide⟩
  have hsE : SrcWF wE.cal := by
    unfold SrcWF
    decide
  have hwinE : ∀ ev ∈ wE.cal.source, inWinB (some (windowTimeMin cfgW))
      (some (windowTimeMax cfgW)) ev = true := by decide
  exact ⟨hInvE, hsE, hwinE,
    c1_convergence cfgW subW _ rfl wE hInvE hsE hwinE (Or.inl rfl)⟩

/-! ### C2: idempotence of a second run -/

/-- C2: after one successful full four-pass run on the honest provider
(well-formed state, valid or absent cursor, non-empty provider token),
a second full run with the source unchanged performs
zero creates, zero updates and zero removes: its body returns counts
`⟨0, 0, 0⟩` and the second run's own summary log entry reports
`0 created / 0 updated / 0 removed`. -/
theorem c2_idempotence (cfg : Config) (sub : Subscription)
    (mtch : EvView → Bool)
    (hm : mtch = makeMatcher cfg.utbl cfg.regexTest sub.filter_type
      sub.filters_raw)
    (w : W) (hInv : Inv sub w) (hs : SrcWF w.cal)
    (htok : subSyncTokenArg (statesGet w.db sub.id) = none ∨
      subSyncTokenArg (statesGet w.db sub.id) = some w.cal.curTok)
    (hct : w.cal.curTok ≠ "") :
    ∃ w1 w2, runSubscription (subCal sub) cfg sub w = (.ok (), w1) ∧
      (∃ wb, runSubBody (subCal sub) cfg sub mtch
        (subSyncTokenArg (statesGet w1.db sub.id)) w1 =
          (.ok ⟨0, 0, 0⟩, wb)) ∧
      runSubscription (subCal sub) cfg sub w1 = (.ok (), w2) ∧
      w2.logs = w1.logs ++ [.deltaSummaryE sub.id 0 0 0] := by
  subst hm
  obtain ⟨cnt, w', heq, hInv', hevw, hstEx, hgood, hA, hcov⟩ :=
    runSubBody_spec cfg sub _ (subSyncTokenArg (statesGet w.db sub.id)) w
      hInv hs htok
  obtain ⟨st, hst, hsttok⟩ := hstEx
  have hrun1 := runSubscription_ok_of_body (subCal sub) cfg sub w w' cnt heq
  have hW1map : (finishOk cfg sub cnt w').db.mappings =
      w'.db.mappings := mappings_saveState _ _ _ _ _ _
  have hW1cal : (finishOk cfg sub cnt w').cal = w'.cal := rfl
  have hInv1 : Inv sub (finishOk cfg sub cnt w') :=
    inv_congr hInv' hW1cal hW1map
  have htok2 : subSyncTokenArg
      (statesGet (finishOk cfg sub cnt w').db sub.id) =
      some (finishOk cfg sub cnt w').cal.curTok := by
    show subSyncTokenArg (statesGet (saveState w'.db sub.id cfg.now none
      none (some "ok")) sub.id) = some w'.cal.curTok
    rw [statesGet_saveState, hst]
    dsimp only
    unfold subSyncTokenArg
    dsimp only
    rw [Option.none_or, hsttok]
    dsimp only
    rw [if_neg hct, hevw.2.1]
  have hgood1 : ∀ ev ∈ (finishOk cfg sub cnt w').cal.source,
      GoodEv (makeMatcher cfg.utbl cfg.regexTest sub.filter_type
        sub.filters_raw) ev →
      inWinB (some (windowTimeMin cfg)) (some (windowTimeMax cfg)) ev =
        true →
      GoodRow cfg.digest (finishOk cfg sub cnt w').db sub.id ev := by
    intro ev hev hg hw
    have hmem : ev ∈ w.cal.source := by
      rw [← hevw.1]
      exact hev
    exact goodRow_congr hW1map.symm (hgood ev hmem hg hw)
  have hA1 : ∀ r ∈ (finishOk cfg sub cnt w').db.mappings,
      r.subscription_id = sub.id →
      BadSrcB (finishOk cfg sub cnt w').cal
        (makeMatcher cfg.utbl cfg.regexTest sub.filter_type
          sub.filters_raw) r.source_id = false := by
    intro r hr hrs
    rw [hW1map] at hr
    exact (badSrcB_congr hevw.1 _ r.source_id).trans (hA r hr hrs)
  have hcov1 : TgtCovered cfg.dedupMatchFiltersOnly
      (makeMatcher cfg.utbl cfg.regexTest sub.filter_type sub.filters_raw)
      (finishOk cfg sub cnt w') sub.id :=
    tgtCovered_congr hW1cal hW1map hcov
  have hbody2 := runSubBody_noop cfg sub
    (makeMatcher cfg.utbl cfg.regexTest sub.filter_type sub.filters_raw)
    (finishOk cfg sub cnt w') hInv1 htok2 hgood1 hA1 hcov1
  have hrun2 := runSubscription_ok_of_body (subCal sub) cfg sub
    (finishOk cfg sub cnt w') _ ⟨0, 0, 0⟩ hbody2
  exact ⟨finishOk cfg sub cnt w', _, hrun1, ⟨_, hbody2⟩, hrun2, rfl⟩

/-- Witness for C2 at the concrete one-event world. -/
theorem c2_witness :
    Inv subW wE ∧ wE.cal.curTok ≠ "" ∧
    (∃ w1 w2, runSubscription (subCal subW) cfgW subW wE = (.ok (), w1) ∧
      (∃ wb, runSubBody (subCal subW) cfgW subW
        (makeMatcher cfgW.utbl cfgW.regexTest subW.filter_type
          subW.filters_raw)
        (subSyncTokenArg (statesGet w1.db subW.id)) w1 =
          (.ok ⟨0, 0, 0⟩, wb)) ∧
      runSubscription (subCal subW) cfgW subW w1 = (.ok (), w2) ∧
      w2.logs = w1.logs ++ [.deltaSummaryE subW.id 0 0 0]) := by
  have hInvE : Inv subW wE :=
    ⟨by decide, by decide, by decide, by decide, by decide⟩
  refine ⟨hInvE, by decide, ?_⟩
  exact c2_idempotence cfgW subW _ rfl wE hInvE (by unfold SrcWF; decide)
    (Or.inl rfl) (by decide)

/-! ### C8: recurring masters are never mapped -/

/-- C8: recurring masters never end up in the mapping store.  (i) After
a successful full run, no row of the subscription carries the id of a
recurring-master source event.  (ii) The delta loop, on a changed
non-cancelled master, refreshes the series — adding rows only for
instance-or-single source events — and removes the master's own
mapping.  (iii) The backfill pass adds rows only for instance-or-single
source events (it skips every non-instance).  (iv) The prune pass
unmaps every mapped source id that now belongs to a recurring
master. -/
theorem c8_master_never_mapped (cfg : Config) (sub : Subscription)
    (mtch : EvView → Bool) :
    (∀ (w : W), mtch = makeMatcher cfg.utbl cfg.regexTest sub.filter_type
        sub.filters_raw →
      Inv sub w → SrcWF w.cal →
      (∀ ev ∈ w.cal.source, inWinB (some (windowTimeMin cfg))
        (some (windowTimeMax cfg)) ev = true) →
      (subSyncTokenArg (statesGet w.db sub.id) = none ∨
        subSyncTokenArg (statesGet w.db sub.id) = some w.cal.curTok) →
      ∃ w', runSubscription (subCal sub) cfg sub w = (.ok (), w') ∧
        ∀ r ∈ w'.db.mappings, r.subscription_id = sub.id →
          ∀ ev ∈ w.cal.source, ev.id = r.source_id →
            isRecurringMaster ev = false) ∧
    (∀ (ev : SEvent) (acc : RunCounts) (w : W), Inv sub w →
      isRecurringMaster ev = true → (ev.status == "cancelled") = false →
      ∃ acc' w', deltaItemsLoop (subCal sub) cfg sub mtch [ev] acc w =
          (.ok acc', w') ∧
        mappingGet w'.db sub.id ev.id = none ∧
        (∀ r' ∈ w'.db.mappings,
          (∃ r ∈ w.db.mappings, mapKey r' = mapKey r) ∨
          (r'.subscription_id = sub.id ∧ ∃ ev2 ∈ w.cal.source,
            ev2.id = r'.source_id ∧ isInstanceOrSingle ev2 = true))) ∧
    (∀ (w : W), Inv sub w → SrcWF w.cal →
      (∀ ev ∈ w.cal.source, inWinB (some (windowTimeMin cfg))
        (some (windowTimeMax cfg)) ev = true) →
      ∃ p w', backfillWindow (subCal sub) cfg sub mtch w = (.ok p, w') ∧
        (∀ r' ∈ w'.db.mappings,
          (∃ r ∈ w.db.mappings, mapKey r' = mapKey r) ∨
          (r'.subscription_id = sub.id ∧ ∃ ev ∈ w.cal.source,
            ev.id = r'.source_id ∧ isInstanceOrSingle ev = true))) ∧
    (∀ (w : W), Inv sub w →
      ∃ n w', pruneStaleMappings (subCal sub) sub mtch w = (.ok n, w') ∧
        ∀ r ∈ w.db.mappings, r.subscription_id = sub.id →
          (∀ ev, findById w.cal r.source_id = some ev →
            isRecurringMaster ev = true) →
          mappingGet w'.db sub.id r.source_id = none) := by
  refine ⟨?_, ?_, ?_, ?_⟩
  · intro w hm hInv hs hwin htok
    subst hm
    obtain ⟨cnt, w', heq, hInv', hevw, hstEx, hgood, hA, hcov⟩ :=
      runSubBody_spec cfg sub _ (subSyncTokenArg (statesGet w.db sub.id))
        w hInv hs htok
    have hrun1 := runSubscription_ok_of_body (subCal sub) cfg sub w w'
      cnt heq
    refine ⟨finishOk cfg sub cnt w', hrun1, ?_⟩
    intro r hr hrs ev hev hid
    rw [show (finishOk cfg sub cnt w').db.mappings = w'.db.mappings from
      mappings_saveState _ _ _ _ _ _] at hr
    obtain ⟨ev2, _, hmem2, hid2, hg2⟩ := badSrcB_false_elim (hA r hr hrs)
    have hee : ev = ev2 := src_id_inj hs hev hmem2 (by rw [hid, hid2])
    rw [hee]
    have hinst := hg2.2.1
    rw [isInstanceOrSingle_eq_not_master] at hinst
    cases hms : isRecurringMaster ev2
    · rfl
    · rw [hms] at hinst
      exact absurd hinst (by simp)
  · intro ev acc w hInv hmast hcanc
    unfold deltaItemsLoop
    rw [if_neg (by simp [hcanc]), if_pos hmast]
    obtain ⟨rc, w1, heq1, hInv1, hev1, hst1, horig1⟩ :=
      refreshSeries_spec cfg sub mtch ev w hInv
    rw [heq1]
    dsimp only
    obtain ⟨n2, w2, heq2, hInv2, hev2, hst2, hnone2, hget2, hsub2⟩ :=
      remove_spec sub ev.id w1 hInv1
    rw [heq2]
    dsimp only
    refine ⟨_, w2, rfl, hnone2, ?_⟩
    intro r' hr'
    rcases horig1 r' (hsub2 r' hr') with h | ⟨hsid, ev2, hee, heid, hi⟩
    · exact Or.inl h
    · exact Or.inr ⟨hsid, ev2, hee, heid, hi⟩
  · intro w hInv hs hwin
    obtain ⟨p, w', heq, hInv', hev, hst, hgood, horig⟩ :=
      backfillWindow_spec cfg sub mtch w hInv hs
    exact ⟨p, w', heq, horig⟩
  · intro w hInv
    obtain ⟨n, w', heq, hInv', hev, hst, hsub, hgoodrows, hkeep, hgone⟩ :=
      pruneStale_spec sub mtch w hInv
    refine ⟨n, w', heq, ?_⟩
    intro r hr hrs hmast
    refine hgone r hr hrs ?_
    unfold BadSrcB
    cases hf : findById w.cal r.source_id with
    | none => rfl
    | some ev =>
      dsimp only
      rw [hmast ev hf]
      simp

/-- Witness for C8: the run part at the one-event world `wE`, the
delta/prune parts at the master world `wM` (whose stale row maps the
master `evM`), the backfill part at `wE`. -/
theorem c8_witness :
    (isRecurringMaster evM = true ∧ Inv subW wM ∧ Inv subW wE) ∧
    (∃ w', runSubscription (subCal subW) cfgW subW wE = (.ok (), w') ∧
      ∀ r ∈ w'.db.mappings, r.subscription_id = subW.id →
        ∀ ev ∈ wE.cal.source, ev.id = r.source_id →
          isRecurringMaster ev = false) ∧
    (∃ acc' w', deltaItemsLoop (subCal subW) cfgW subW
        (makeMatcher cfgW.utbl cfgW.regexTest subW.filter_type
          subW.filters_raw) [evM] ⟨0, 0, 0⟩ wM = (.ok acc', w') ∧
      mappingGet w'.db subW.id evM.id = none ∧
      (∀ r' ∈ w'.db.mappings,
        (∃ r ∈ wM.db.mappings, mapKey r' = mapKey r) ∨
        (r'.subscription_id = subW.id ∧ ∃ ev2 ∈ wM.cal.source,
          ev2.id = r'.source_id ∧ isInstanceOrSingle ev2 = true))) ∧
    (∃ p w', backfillWindow (subCal subW) cfgW subW
        (makeMatcher cfgW.utbl cfgW.regexTest subW.filter_type
          subW.filters_raw) wE = (.ok p, w') ∧
      (∀ r' ∈ w'.db.mappings,
        (∃ r ∈ wE.db.mappings, mapKey r' = mapKey r) ∨
        (r'.subscription_id = subW.id ∧ ∃ ev ∈ wE.cal.source,
          ev.id = r'.source_id ∧ isInstanceOrSingle ev = true))) ∧
    (∃ n w', pruneStaleMappings (subCal subW) subW
        (makeMatcher cfgW.utbl cfgW.regexTest subW.filter_type
          subW.filters_raw) wM = (.ok n, w') ∧
      ∀ r ∈ wM.db.mappings, r.subscription_id = subW.id →
        (∀ ev, findById wM.cal r.source_id = some ev →
          isRecurringMaster ev = true) →
        mappingGet w'.db subW.id r.source_id = none) := by
  have hInvM : Inv subW wM :=
    ⟨by decide, by decide, by decide, by decide, by decide⟩
  have hInvE : Inv subW wE :=
    ⟨by decide, by decide, by decide, by decide, by decide⟩
  have hsE : SrcWF wE.cal := by
    unfold SrcWF
    decide
  have hwinE : ∀ ev ∈ wE.cal.source, inWinB (some (windowTimeMin cfgW))
      (some (windowTimeMax cfgW)) ev = true := by decide
  have hc8 := c8_master_never_mapped cfgW subW
    (makeMatcher cfgW.utbl cfgW.regexTest subW.filter_type subW.filters_raw)
  exact ⟨⟨by decide, hInvM, hInvE⟩,
    hc8.1 wE rfl hInvE hsE hwinE (Or.inl rfl),
    hc8.2.1 evM ⟨0, 0, 0⟩ wM hInvM (by decide) (by decide),
    hc8.2.2.1 wE hInvE hsE hwinE,
    hc8.2.2.2 wM hInvM⟩

end GFS
